import Mathlib

/-!
Verification development for the type-checking core of the hash-org/lang
compiler front-end.

The embedding follows the source of the typechecker crate
(compiler/hash-typecheck). Interned ids are replaced by inline values:
a TermId becomes the term tree itself, a ScopeId becomes the scope value,
a ParamsId becomes the parameter list, an ArgsId becomes the argument
list. This is justified by the data-model invariant that terms are
value-equal iff structurally identical and the engine does not require
hash-consing. Location bookkeeping (a side table keyed by ids) is elided
as semantically inert. Module, nominal and trait definitions stay behind
numeric ids resolved in a fixed environment, mirroring the id indirection
of the source stores.

Components whose source is not part of the repository snapshot (the
unifier, substituter, typer, scope manager and validator) are modelled
from the specification; each such definition carries a doc comment
starting with: Modelled from the spec.
-/

/-- Access operator of an access term, from the source AccessOp. -/
inductive AccessOp where
  | Namespace
  | Property
deriving DecidableEq

/-- Kind of a scope, from the source ScopeKind. -/
inductive ScopeKind where
  | Constant
  | Variable
  | SetBound
  | Bound
deriving DecidableEq

/-- Origin marker for parameter-list error payloads, from the source
ParamListKind. The args-id payload is elided along with interning. -/
inductive ParamListKind where
  | Args
deriving DecidableEq

/-- Reason payload of parameter-list unification errors, from the source
ParamUnificationErrorReason. -/
inductive ParamUnificationErrorReason where
  | LengthMismatch
  | NameMismatch (index : Nat)
deriving DecidableEq

mutual

/-- Core term representation, from the source Term enum (storage
primitives, reconstructed per the data model of the spec). Children are
inline: TermId is replaced by Term, ScopeId by Scope, ParamsId by
ParamList, ArgsId by ArgList. -/
inductive Term where
  | Root
  | Var (name : String)
  | ScopeVar (name : String) (scope : Scope) (index : Nat)
  | BoundVar (name : String)
  | Access (subject : Term) (name : String) (op : AccessOp)
  | Merge (terms : TermList)
  | Union (terms : TermList)
  | TyFn (name : Option String) (general_params : ParamList)
      (general_return_ty : Term) (cases : CaseList)
  | TyFnTy (params : ParamList) (return_ty : Term)
  | TyFnCall (subject : Term) (args : ArgList)
  | SetBound (term : Term) (scope : Scope)
  | TyOf (term : Term)
  | Unresolved (resolution_id : Nat)
  | Level0 (t : Level0Term)
  | Level1 (t : Level1Term)
  | Level2 (t : Level2Term)
  | Level3 (t : Level3Term)

/-- Term list, used by merge and union terms. -/
inductive TermList where
  | nil
  | cons (t : Term) (ts : TermList)

/-- Level 0 (runtime value) terms, from the source Level0Term. -/
inductive Level0Term where
  | Rt (ty : Term)
  | FnLit (fn_ty : Term) (return_value : Term)
  | FnCall (subject : Term) (args : ArgList)
  | Tuple (members : ArgList)
  | Constructed (subject : Term) (members : ArgList)
  | EnumVariant (enum_def_id : Nat) (variant_name : String)
  | Lit (value : Nat)

/-- Level 1 (type) terms, from the source Level1Term. -/
inductive Level1Term where
  | ModDef (def_id : Nat)
  | NominalDef (def_id : Nat)
  | Tuple (members : ParamList)
  | Fn (params : ParamList) (return_ty : Term)

/-- Level 2 terms, from the source Level2Term. -/
inductive Level2Term where
  | Trt (def_id : Nat)
  | AnyTy

/-- Level 3 terms, from the source Level3Term. -/
inductive Level3Term where
  | TrtKind

/-- Optional term; a dedicated type keeps the inductive family free of
nested occurrences. -/
inductive OptTerm where
  | none
  | some (t : Term)

/-- Parameter: optional name, type, optional default value, from the
source Param. -/
inductive Param where
  | mk (name : Option String) (ty : Term) (default_value : OptTerm)

/-- Parameter list, from the source ParamList of Param (origin tag
elided: it only feeds error payloads that are also elided). -/
inductive ParamList where
  | nil
  | cons (p : Param) (ps : ParamList)

/-- Argument: optional name and value, from the source Arg. -/
inductive Arg where
  | mk (name : Option String) (value : Term)

/-- Argument list, from the source ParamList of Arg. -/
inductive ArgList where
  | nil
  | cons (a : Arg) (as_ : ArgList)

/-- One case of a type function, from the source TyFnCase. -/
inductive TyFnCase where
  | mk (params : ParamList) (return_ty : Term) (return_value : Term)

/-- Case list of a type function. -/
inductive CaseList where
  | nil
  | cons (c : TyFnCase) (cs : CaseList)

/-- Member payload, from the source MemberData. -/
inductive MemberData where
  | InitialisedWithTy (ty : Term) (value : Term)
  | InitialisedWithInferredTy (value : Term)
  | Uninitialised (ty : Term)

/-- Scope member, from the source Member; visibility and mutability are
elided as unused by the modelled operations. -/
inductive Member where
  | mk (name : String) (data : MemberData)

/-- Member list of a scope. -/
inductive MemberList where
  | nil
  | cons (m : Member) (ms : MemberList)

/-- Scope: a kind and an ordered member list, from the source Scope. -/
inductive Scope where
  | mk (kind : ScopeKind) (members : MemberList)

end

set_option maxHeartbeats 2000000

mutual

/-- Structural equality on terms (the engine compares interned terms; with
ids inlined this is structural comparison). -/
def Term.beq : Term → Term → Bool
  | .Root, .Root => true
  | .Var a, .Var b => a == b
  | .ScopeVar a s i, .ScopeVar b t j => a == b && Scope.beq s t && i == j
  | .BoundVar a, .BoundVar b => a == b
  | .Access s a o, .Access t b p => Term.beq s t && a == b && o == p
  | .Merge as_, .Merge bs => TermList.beq as_ bs
  | .Union as_, .Union bs => TermList.beq as_ bs
  | .TyFn n gp gr cs, .TyFn m hp hr ds =>
      n == m && ParamList.beq gp hp && Term.beq gr hr && CaseList.beq cs ds
  | .TyFnTy ps r, .TyFnTy qs s => ParamList.beq ps qs && Term.beq r s
  | .TyFnCall s as_, .TyFnCall t bs => Term.beq s t && ArgList.beq as_ bs
  | .SetBound t s, .SetBound u v => Term.beq t u && Scope.beq s v
  | .TyOf t, .TyOf u => Term.beq t u
  | .Unresolved i, .Unresolved j => i == j
  | .Level0 t, .Level0 u => Level0Term.beq t u
  | .Level1 t, .Level1 u => Level1Term.beq t u
  | .Level2 t, .Level2 u => Level2Term.beq t u
  | .Level3 t, .Level3 u => Level3Term.beq t u
  | _, _ => false

def TermList.beq : TermList → TermList → Bool
  | .nil, .nil => true
  | .cons t ts, .cons u us => Term.beq t u && TermList.beq ts us
  | _, _ => false
termination_by structural x _ => x


def Level0Term.beq : Level0Term → Level0Term → Bool
  | .Rt a, .Rt b => Term.beq a b
  | .FnLit a v, .FnLit b w => Term.beq a b && Term.beq v w
  | .FnCall s as_, .FnCall t bs => Term.beq s t && ArgList.beq as_ bs
  | .Tuple as_, .Tuple bs => ArgList.beq as_ bs
  | .Constructed s as_, .Constructed t bs => Term.beq s t && ArgList.beq as_ bs
  | .EnumVariant d n, .EnumVariant e m => d == e && n == m
  | .Lit a, .Lit b => a == b
  | _, _ => false
termination_by structural x _ => x


def Level1Term.beq : Level1Term → Level1Term → Bool
  | .ModDef a, .ModDef b => a == b
  | .NominalDef a, .NominalDef b => a == b
  | .Tuple as_, .Tuple bs => ParamList.beq as_ bs
  | .Fn ps r, .Fn qs s => ParamList.beq ps qs && Term.beq r s
  | _, _ => false
termination_by structural x _ => x


def Level2Term.beq : Level2Term → Level2Term → Bool
  | .Trt a, .Trt b => a == b
  | .AnyTy, .AnyTy => true
  | _, _ => false

def Level3Term.beq : Level3Term → Level3Term → Bool
  | .TrtKind, .TrtKind => true

def OptTerm.beq : OptTerm → OptTerm → Bool
  | .none, .none => true
  | .some a, .some b => Term.beq a b
  | _, _ => false
termination_by structural x _ => x


def Param.beq : Param → Param → Bool
  | .mk n t d, .mk m u e => n == m && Term.beq t u && OptTerm.beq d e
termination_by structural x _ => x


def ParamList.beq : ParamList → ParamList → Bool
  | .nil, .nil => true
  | .cons p ps, .cons q qs => Param.beq p q && ParamList.beq ps qs
  | _, _ => false
termination_by structural x _ => x


def Arg.beq : Arg → Arg → Bool
  | .mk n v, .mk m w => n == m && Term.beq v w
termination_by structural x _ => x


def ArgList.beq : ArgList → ArgList → Bool
  | .nil, .nil => true
  | .cons a as_, .cons b bs => Arg.beq a b && ArgList.beq as_ bs
  | _, _ => false
termination_by structural x _ => x


def TyFnCase.beq : TyFnCase → TyFnCase → Bool
  | .mk ps r v, .mk qs s w => ParamList.beq ps qs && Term.beq r s && Term.beq v w
termination_by structural x _ => x


def CaseList.beq : CaseList → CaseList → Bool
  | .nil, .nil => true
  | .cons c cs, .cons d ds => TyFnCase.beq c d && CaseList.beq cs ds
  | _, _ => false
termination_by structural x _ => x


def MemberData.beq : MemberData → MemberData → Bool
  | .InitialisedWithTy t v, .InitialisedWithTy u w => Term.beq t u && Term.beq v w
  | .InitialisedWithInferredTy v, .InitialisedWithInferredTy w => Term.beq v w
  | .Uninitialised t, .Uninitialised u => Term.beq t u
  | _, _ => false
termination_by structural x _ => x


def Member.beq : Member → Member → Bool
  | .mk n d, .mk m e => n == m && MemberData.beq d e
termination_by structural x _ => x


def MemberList.beq : MemberList → MemberList → Bool
  | .nil, .nil => true
  | .cons m ms, .cons n ns => Member.beq m n && MemberList.beq ms ns
  | _, _ => false
termination_by structural x _ => x


def Scope.beq : Scope → Scope → Bool
  | .mk k ms, .mk l ns => k == l && MemberList.beq ms ns
termination_by structural x _ => x

end

/-- List view of a TermList. -/
def TermList.toList : TermList → List Term
  | .nil => []
  | .cons t ts => t :: ts.toList

/-- TermList from a list. -/
def TermList.ofList : List Term → TermList
  | [] => .nil
  | t :: ts => .cons t (TermList.ofList ts)

/-- List view of a ParamList (the source calls this positional). -/
def ParamList.toList : ParamList → List Param
  | .nil => []
  | .cons p ps => p :: ps.toList

/-- ParamList from a list. -/
def ParamList.ofList : List Param → ParamList
  | [] => .nil
  | p :: ps => .cons p (ParamList.ofList ps)

/-- List view of an ArgList (the source calls this positional). -/
def ArgList.toList : ArgList → List Arg
  | .nil => []
  | .cons a as_ => a :: as_.toList

/-- ArgList from a list. -/
def ArgList.ofList : List Arg → ArgList
  | [] => .nil
  | a :: as_ => .cons a (ArgList.ofList as_)

/-- List view of a CaseList. -/
def CaseList.toList : CaseList → List TyFnCase
  | .nil => []
  | .cons c cs => c :: cs.toList

/-- List view of a MemberList. -/
def MemberList.toList : MemberList → List Member
  | .nil => []
  | .cons m ms => m :: ms.toList

/-- MemberList from a list. -/
def MemberList.ofList : List Member → MemberList
  | [] => .nil
  | m :: ms => .cons m (MemberList.ofList ms)

/-- Name of a parameter. -/
def Param.name : Param → Option String
  | .mk n _ _ => n

/-- Type of a parameter. -/
def Param.ty : Param → Term
  | .mk _ t _ => t

/-- Default value of a parameter. -/
def Param.default_value : Param → OptTerm
  | .mk _ _ d => d

/-- Name of an argument (the source GetNameOpt trait). -/
def Arg.get_name_opt : Arg → Option String
  | .mk n _ => n

/-- Value of an argument. -/
def Arg.value : Arg → Term
  | .mk _ v => v

/-- Parameters of a type-function case. -/
def TyFnCase.params : TyFnCase → ParamList
  | .mk ps _ _ => ps

/-- Return type of a type-function case. -/
def TyFnCase.return_ty : TyFnCase → Term
  | .mk _ r _ => r

/-- Return value of a type-function case. -/
def TyFnCase.return_value : TyFnCase → Term
  | .mk _ _ v => v

/-- Name of a member. -/
def Member.name : Member → String
  | .mk n _ => n

/-- Data of a member. -/
def Member.data : Member → MemberData
  | .mk _ d => d

/-- Optional type recorded in member data, from the source
MemberData::ty. -/
def MemberData.ty : MemberData → Option Term
  | .InitialisedWithTy t _ => some t
  | .InitialisedWithInferredTy _ => none
  | .Uninitialised t => some t

/-- Optional value recorded in member data, from the source
MemberData::value. -/
def MemberData.value : MemberData → Option Term
  | .InitialisedWithTy _ v => some v
  | .InitialisedWithInferredTy v => some v
  | .Uninitialised _ => none

/-- Kind of a scope. -/
def Scope.kind : Scope → ScopeKind
  | .mk k _ => k

/-- Members of a scope. -/
def Scope.members : Scope → MemberList
  | .mk _ ms => ms

/-- Modelled from the spec: member lookup by name with its index (the
source Scope::get lives in the storage primitives, which are not part of
the snapshot). The first matching member wins. -/
def Scope.get (s : Scope) (name : String) : Option (Member × Nat) :=
  let rec go : List Member → Nat → Option (Member × Nat)
    | [], _ => none
    | m :: ms, i =>
        if m.name = name then some (m, i) else go ms (i + 1)
  go s.members.toList 0

/-- Names of the members of a scope, from the source Scope::iter_names. -/
def Scope.iter_names (s : Scope) : List String :=
  s.members.toList.map Member.name

/-- Lookup of the first parameter with the given name together with its
index, from the source ParamList::get_by_name. -/
def ParamList.get_by_name (ps : ParamList) (name : String) : Option (Nat × Param) :=
  let rec go : List Param → Nat → Option (Nat × Param)
    | [], _ => none
    | p :: rest, i =>
        if p.name = some name then some (i, p) else go rest (i + 1)
  go ps.toList 0

/-- Lookup of the first argument with the given name, from the source
ParamList::get_by_name on args. -/
def ArgList.get_by_name (as_ : ArgList) (name : String) : Option (Nat × Arg) :=
  let rec go : List Arg → Nat → Option (Nat × Arg)
    | [], _ => none
    | a :: rest, i =>
        if a.get_name_opt = some name then some (i, a) else go rest (i + 1)
  go as_.toList 0

/-- Access term payload: subject, member name and operator, from the
source AccessTerm. -/
structure AccessTerm where
  subject : Term
  name : String
  op : AccessOp

/-- Typechecking errors, from the source TcError enum
(diagnostics/error.rs). Interned-id and location payloads are elided
along with interning; term and list payloads are kept inline. Pattern
errors are omitted: patterns are outside the modelled operations. -/
inductive TcError where
  | CannotUnify (src : Term) (target : Term)
  | CannotUnifyArgs (src_args : ArgList) (target_args : ArgList)
      (reason : ParamUnificationErrorReason)
  | CannotUnifyParams (src_params : ParamList) (target_params : ParamList)
      (reason : ParamUnificationErrorReason)
  | NotATyFn (term : Term)
  | CannotUseValueAsTy (value : Term)
  | MismatchingArgParamLength
  | ParamNotFound (name : String)
  | ParamGivenTwice (param_kind : ParamListKind) (index : Nat)
  | AmbiguousArgumentOrdering (param_kind : ParamListKind) (index : Nat)
  | UnresolvedNameInValue (name : String) (op : AccessOp) (value : Term)
  | UnresolvedVariable (name : String) (value : Term)
  | UnsupportedAccess (name : String) (value : Term)
  | UnsupportedNamespaceAccess (name : String) (value : Term)
  | UnsupportedPropertyAccess (name : String) (value : Term)
  | InvalidTyFnApplication (type_fn : Term) (cases : CaseList) (args : ArgList)
      (unification_errors : List TcError)
  | InvalidMergeElement (term : Term)
  | InvalidUnionElement (term : Term)
  | InvalidTyFnParamTy (param_ty : Term)
  | InvalidTyFnReturnTy (return_ty : Term)
  | InvalidTyFnReturnValue (return_value : Term)
  | MergeShouldOnlyContainOneNominal (merge_term : Term) (initial_term : Term)
      (offending_term : Term)
  | MergeShouldBeLevel1 (merge_term : Term) (offending_term : Term)
  | MergeShouldBeLevel2 (merge_term : Term) (offending_term : Term)
  | NeedMoreTypeAnnotationsToResolve (term : Term)
  | TermIsNotRuntimeInstantiable (term : Term)
  | UnsupportedTyFnApplication (subject_id : Term)
  | AmbiguousAccess (access : AccessTerm) (results : List Term)
  | InvalidCallSubject (term : Term)
  | InvalidPropertyAccessOfNonMethod (subject : Term) (property : String)
  | UninitialisedMemberNotAllowed (member_ty : Term)
  | CannotImplementNonTrait (term : Term)
  | TraitImplMissingMember (trt_impl_term : Term) (trt_def_term : Term)
      (trt_def_missing_member_term : Term)
  | NoConstructorOnType (subject : Term)

/-- Failure channel of the embedding: a structured TcError (the source
Err path), an internal abort (the source tc_panic and unwrap paths), or
exhaustion of the explicit evaluation fuel (the source recursion is
unbounded; fuel is an artifact of the embedding, never a behaviour of
the program). -/
inductive Fail where
  | tcError (e : TcError)
  | crash
  | noFuel

/-- Result monad of the embedding, from the source TcResult. -/
abbrev M (α : Type) : Type := Except Fail α

/-- Raise a TcError, from the source Err(..) returns. -/
def tcErr {α : Type} (e : TcError) : M α := .error (.tcError e)

/-- Lookup of the first parameter with the given name together with its
index, on a plain list. -/
def get_param_by_name : List Param → String → Option (Nat × Param) :=
  go 0
where
  go (i : Nat) : List Param → String → Option (Nat × Param)
    | [], _ => none
    | p :: rest, name =>
        if p.name = some name then some (i, p) else go (i + 1) rest name

/-- State of the argument-walking loop of pair_args_with_params: the
used-parameter set, the remaining defaulted-parameter names, the flag
recording that a named argument was seen, and the accumulated pairs. -/
structure PairArgsState where
  used_params : List Nat
  default_params : List String
  done_positional : Bool
  result : List (Param × Arg)

/-- Initial defaulted-parameter name set of pair_args_with_params: the
names of all parameters carrying a default value, as a set. The source
unwraps each name and hence panics when a defaulted parameter is
unnamed. -/
def collect_default_params : List Param → M (List String)
  | [] => pure []
  | p :: ps =>
      match p.default_value with
      | .some _ =>
          match p.name with
          | Option.none => .error .crash
          | Option.some n => do
              let rest ← collect_default_params ps
              pure (if n ∈ rest then rest else n :: rest)
      | .none => collect_default_params ps

/-- Argument-walking loop of pair_args_with_params (the enumerate loop of
the source), from ops/params.rs lines 47 to 106. -/
def pair_args_loop (params : List Param) : List Arg → Nat → PairArgsState → M PairArgsState
  | [], _, st => pure st
  | arg :: rest, i, st =>
      match Arg.get_name_opt arg with
      | Option.some arg_name =>
          let st := { st with done_positional := true }
          match get_param_by_name params arg_name with
          | Option.some (index, param) =>
              if index ∈ st.used_params then
                tcErr (.ParamGivenTwice .Args index)
              else
                pair_args_loop params rest (i + 1)
                  { st with
                    used_params := index :: st.used_params
                    result := st.result ++ [(param, arg)]
                    default_params := st.default_params.erase arg_name }
          | Option.none => tcErr (.ParamNotFound arg_name)
      | Option.none =>
          if st.done_positional then
            tcErr (.AmbiguousArgumentOrdering .Args i)
          else if i ∈ st.used_params then
            tcErr (.ParamGivenTwice .Args i)
          else
            match params.get? i with
            | Option.none => .error .crash
            | Option.some param =>
                pair_args_loop params rest (i + 1)
                  { st with
                    used_params := i :: st.used_params
                    result := st.result ++ [(param, arg)]
                    default_params :=
                      match param.name with
                      | Option.some name => st.default_params.erase name
                      | Option.none => st.default_params }

/-- Pair the given parameters with the given argument list, from the
source pair_args_with_params (ops/params.rs). This does not perform any
typechecking; it matches arguments by position or name, then requires the
parameter count to equal the argument count plus the count of remaining
defaulted names. -/
def pair_args_with_params (params : List Param) (args : List Arg) :
    M (List (Param × Arg)) := do
  let default_params ← collect_default_params params
  let st ← pair_args_loop params args 0
    ⟨[], default_params, false, []⟩
  if params.length ≠ args.length + st.default_params.length then
    tcErr .MismatchingArgParamLength
  else
    pure st.result

/-- Option view of an OptTerm. -/
def OptTerm.toOption : OptTerm → Option Term
  | .none => Option.none
  | .some t => Option.some t

/-- Names of the defaulted named parameters, as a set. This is the
declarative counterpart of collect_default_params: unnamed defaulted
parameters are skipped here, while pair_args_with_params panics on
them. -/
def default_param_names : List Param → List String
  | [] => []
  | p :: ps =>
      let rest := default_param_names ps
      match p.default_value, p.name with
      | .some _, Option.some n => if n ∈ rest then rest else n :: rest
      | _, _ => rest

/-- Whether the argument sitting at position i supplies the given
parameter name: a named argument supplies its own name, a positional
argument supplies the name of the parameter in slot i. -/
def arg_supplies_at (params : List Param) (i : Nat) (a : Arg) (n : String) : Bool :=
  match a.get_name_opt with
  | Option.some m => m == n
  | Option.none =>
      match params.get? i with
      | Option.some p => p.name == some n
      | Option.none => false

/-- Whether some argument, positions counted from k, supplies the given
parameter name. -/
def args_supply_from (params : List Param) (k : Nat) : List Arg → String → Bool
  | [], _ => false
  | a :: rest, n =>
      arg_supplies_at params k a n || args_supply_from params (k + 1) rest n

/-- Defaulted parameter names that no argument supplies. -/
def unsupplied_default_names (params : List Param) (args : List Arg) : List String :=
  (default_param_names params).filter (fun n => !args_supply_from params 0 args n)

/-- Substitutable variable, from the source SubVar (storage primitives,
reconstructed per the spec): an inference hole or a free Var name. -/
inductive SubVar where
  | unresolved (resolution_id : Nat)
  | var (name : String)
deriving DecidableEq

/-- Set insertion for SubVar accumulators (the source uses a HashSet). -/
def insert_sub_var (v : SubVar) (result : List SubVar) : List SubVar :=
  if v ∈ result then result else v :: result

mutual

/-- Add the free variables in the parameter default values and types to
the set, from the source add_free_sub_vars_in_params_to_set. -/
def add_free_sub_vars_in_params_to_set : ParamList → List SubVar → List SubVar
  | .nil, result => result
  | .cons (.mk _ ty default_value) ps, result =>
      let result := add_free_sub_vars_in_term_to_set ty result
      let result :=
        match default_value with
        | .some d => add_free_sub_vars_in_term_to_set d result
        | .none => result
      add_free_sub_vars_in_params_to_set ps result
termination_by structural x _ => x

/-- Add the free variables in the argument values to the set, from the
source add_free_sub_vars_in_args_to_set. -/
def add_free_sub_vars_in_args_to_set : ArgList → List SubVar → List SubVar
  | .nil, result => result
  | .cons (.mk _ value) as_, result =>
      add_free_sub_vars_in_args_to_set as_
        (add_free_sub_vars_in_term_to_set value result)
termination_by structural x _ => x

/-- Add the free variables of each term of the list to the set (the
source writes this as an inline for loop). -/
def add_free_sub_vars_in_term_list_to_set : TermList → List SubVar → List SubVar
  | .nil, result => result
  | .cons t ts, result =>
      add_free_sub_vars_in_term_list_to_set ts
        (add_free_sub_vars_in_term_to_set t result)
termination_by structural x _ => x

/-- Add the free variables of each type-function case to the set (the
source writes this as an inline for loop). -/
def add_free_sub_vars_in_cases_to_set : CaseList → List SubVar → List SubVar
  | .nil, result => result
  | .cons (.mk params return_ty return_value) cs, result =>
      let result := add_free_sub_vars_in_params_to_set params result
      let result := add_free_sub_vars_in_term_to_set return_ty result
      let result := add_free_sub_vars_in_term_to_set return_value result
      add_free_sub_vars_in_cases_to_set cs result
termination_by structural x _ => x

/-- Add the free variables in the given Level0Term to the set, from the
source add_free_sub_vars_in_level0_term_to_set. -/
def add_free_sub_vars_in_level0_term_to_set : Level0Term → List SubVar → List SubVar
  | .Rt ty_term, result => add_free_sub_vars_in_term_to_set ty_term result
  | .FnLit fn_ty return_value, result =>
      add_free_sub_vars_in_term_to_set return_value
        (add_free_sub_vars_in_term_to_set fn_ty result)
  | .FnCall subject args, result =>
      add_free_sub_vars_in_args_to_set args
        (add_free_sub_vars_in_term_to_set subject result)
  | .Tuple members, result => add_free_sub_vars_in_args_to_set members result
  | .Constructed subject members, result =>
      add_free_sub_vars_in_args_to_set members
        (add_free_sub_vars_in_term_to_set subject result)
  | .EnumVariant _ _, result => result
  | .Lit _, result => result
termination_by structural x _ => x

/-- Add the free variables in the given Level1Term to the set, from the
source add_free_sub_vars_in_level1_term_to_set. -/
def add_free_sub_vars_in_level1_term_to_set : Level1Term → List SubVar → List SubVar
  | .ModDef _, result => result
  | .NominalDef _, result => result
  | .Tuple members, result => add_free_sub_vars_in_params_to_set members result
  | .Fn params return_ty, result =>
      add_free_sub_vars_in_term_to_set return_ty
        (add_free_sub_vars_in_params_to_set params result)
termination_by structural x _ => x

/-- Add the free variables that exist in the given term to the set, from
the source add_free_sub_vars_in_term_to_set. Its doc comment states that
free variables are either Var or Unresolved and that the function
collects both; the Var arm below is grouped by the source under the
no-vars catch-all. -/
def add_free_sub_vars_in_term_to_set : Term → List SubVar → List SubVar
  | .Unresolved resolution_id, result =>
      insert_sub_var (.unresolved resolution_id) result
  | .Access subject _ _, result => add_free_sub_vars_in_term_to_set subject result
  | .Merge terms, result => add_free_sub_vars_in_term_list_to_set terms result
  | .Union terms, result => add_free_sub_vars_in_term_list_to_set terms result
  | .TyFn _ general_params general_return_ty cases, result =>
      let result := add_free_sub_vars_in_params_to_set general_params result
      let result := add_free_sub_vars_in_term_to_set general_return_ty result
      add_free_sub_vars_in_cases_to_set cases result
  | .TyFnTy params return_ty, result =>
      add_free_sub_vars_in_term_to_set return_ty
        (add_free_sub_vars_in_params_to_set params result)
  | .TyFnCall subject args, result =>
      add_free_sub_vars_in_args_to_set args
        (add_free_sub_vars_in_term_to_set subject result)
  | .SetBound term _, result => add_free_sub_vars_in_term_to_set term result
  | .TyOf term, result => add_free_sub_vars_in_term_to_set term result
  | .Level3 _, result => result
  | .Level2 _, result => result
  | .Level1 t, result => add_free_sub_vars_in_level1_term_to_set t result
  | .Level0 t, result => add_free_sub_vars_in_level0_term_to_set t result
  | .Var _, result => result
  | .Root, result => result
  | .ScopeVar _ _ _, result => result
  | .BoundVar _, result => result
termination_by structural x _ => x

end

/-- Get the set of free variables that exist in the given term, from the
source get_free_sub_vars_in_term. -/
def get_free_sub_vars_in_term (term : Term) : List SubVar :=
  add_free_sub_vars_in_term_to_set term []


/-- Explicit or opaque struct fields, from the source StructFields. -/
inductive StructFieldsData where
  | Explicit (fields : ParamList)
  | Opaque

/-- Nominal definition, from the source NominalDef. -/
inductive NominalDefData where
  | Struct (name : Option String) (fields : StructFieldsData)
  | Enum (name : Option String) (variants : List (String × ParamList))

/-- Origin of a module definition, from the source ModDefOrigin. -/
inductive ModDefOriginData where
  | Source
  | Block
  | TrtImpl (trt : Term)
  | AnonImpl

/-- Module definition, from the source ModDef. -/
structure ModDefData where
  name : Option String
  members : Scope
  origin : ModDefOriginData

/-- Trait definition, from the source TrtDef. -/
structure TrtDefData where
  name : Option String
  members : Scope

/-- Definition environment: the nominal, module and trait definition
stores, indexed by their numeric ids. The environment is read-only
during the modelled operations. -/
structure Env where
  nominal_defs : List NominalDefData
  mod_defs : List ModDefData
  trt_defs : List TrtDefData

/-- Set insertion for bound-variable name accumulators (the source uses
a HashSet of BoundVar, which wraps a name). -/
def insert_name (n : String) (result : List String) : List String :=
  if n ∈ result then result else n :: result

/-- Set extension: insert every element of the second list (the source
extend on HashSet). -/
def extend_names (target : List String) (xs : List String) : List String :=
  xs.foldl (fun acc n => insert_name n acc) target

/-- Add the names of the named parameters as bound-variable names, from
the source add_param_vars_as_bound_vars_to_set. -/
def add_param_vars_as_bound_vars_to_set : ParamList → List String → List String
  | .nil, result => result
  | .cons (.mk name _ _) ps, result =>
      let result :=
        match name with
        | Option.some n => insert_name n result
        | Option.none => result
      add_param_vars_as_bound_vars_to_set ps result

/-- Add the free bound variables of each parameter type and default
value, iterated with the given term-level analysis, from the source
add_free_bound_vars_in_params_to_set. -/
def add_free_bound_vars_in_params_with
    (f : Term → List String → M (List String)) :
    ParamList → List String → M (List String)
  | .nil, result => pure result
  | .cons (.mk _ ty default_value) ps, result => do
      let result ← f ty result
      let result ←
        match default_value with
        | .some d => f d result
        | .none => pure result
      add_free_bound_vars_in_params_with f ps result

/-- Add the free bound variables of each argument value, from the source
add_free_bound_vars_in_args_to_set. -/
def add_free_bound_vars_in_args_with
    (f : Term → List String → M (List String)) :
    ArgList → List String → M (List String)
  | .nil, result => pure result
  | .cons (.mk _ value) as_, result => do
      let result ← f value result
      add_free_bound_vars_in_args_with f as_ result

/-- Add the free bound variables of each term of the list (the source
writes this as an inline for loop). -/
def add_free_bound_vars_in_term_list_with
    (f : Term → List String → M (List String)) :
    TermList → List String → M (List String)
  | .nil, result => pure result
  | .cons t ts, result => do
      let result ← f t result
      add_free_bound_vars_in_term_list_with f ts result

/-- Add the free bound variables in the member types and values of the
scope, from the source add_free_bound_vars_in_scope_to_set. -/
def add_free_bound_vars_in_scope_with
    (f : Term → List String → M (List String)) (s : Scope)
    (result : List String) : M (List String) :=
  go f s.members result
where
  go (f : Term → List String → M (List String)) :
      MemberList → List String → M (List String)
    | .nil, result => pure result
    | .cons (.mk _ data) ms, result => do
        let result ←
          match data.ty with
          | Option.some ty => f ty result
          | Option.none => pure result
        let result ←
          match data.value with
          | Option.some value => f value result
          | Option.none => pure result
        go f ms result

/-- The per-case accumulation of the TyFn arm of the free bound variable
analysis: params content, param names, and return contents, from the
case loop of the source add_free_bound_vars_in_term_to_set. -/
def add_free_bound_vars_ty_fn_cases_with
    (f : Term → List String → M (List String)) :
    CaseList → List String × List String × List String →
    M (List String × List String × List String)
  | .nil, acc => pure acc
  | .cons (.mk params return_ty return_value) cs, (pr, due, res) => do
      let pr ← add_free_bound_vars_in_params_with f params pr
      let due := add_param_vars_as_bound_vars_to_set params due
      let res ← f return_ty res
      let res ← f return_value res
      add_free_bound_vars_ty_fn_cases_with f cs (pr, due, res)

/-- Add the free bound variables that exist in the given term to the
set, from the source add_free_bound_vars_in_term_to_set (and its level
helpers, inlined by constructor). Definition lookups that reach the
stores are resolved through the environment; an absent id aborts like
the source store lookup. Fuel bounds the recursion through stored
definitions and is an artifact of the embedding. -/
def add_free_bound_vars_in_term_to_set (env : Env) :
    Nat → Term → List String → M (List String)
  | 0, _, _ => .error .noFuel
  | fuel + 1, term, result =>
      let f := add_free_bound_vars_in_term_to_set env fuel
      match term with
      | .BoundVar var => pure (insert_name var result)
      | .Access subject _ _ => f subject result
      | .Merge terms => add_free_bound_vars_in_term_list_with f terms result
      | .Union terms => add_free_bound_vars_in_term_list_with f terms result
      | .TyFn _ general_params general_return_ty cases => do
          let ty_fn_params_result ←
            add_free_bound_vars_in_params_with f general_params []
          let ty_fn_bound_vars_due_to_params :=
            add_param_vars_as_bound_vars_to_set general_params []
          let ty_fn_result ← f general_return_ty []
          let (ty_fn_params_result, ty_fn_bound_vars_due_to_params, ty_fn_result) ←
            add_free_bound_vars_ty_fn_cases_with f cases
              (ty_fn_params_result, ty_fn_bound_vars_due_to_params, ty_fn_result)
          pure (extend_names result
            ((ty_fn_result.filter
                (fun n => !(n ∈ ty_fn_bound_vars_due_to_params : Bool)))
              ++ ty_fn_params_result))
      | .TyFnTy params return_ty => do
          let ty_fn_params_result ←
            add_free_bound_vars_in_params_with f params []
          let ty_fn_bound_vars_due_to_params :=
            add_param_vars_as_bound_vars_to_set params []
          let ty_fn_result ← f return_ty []
          pure (extend_names result
            ((ty_fn_result.filter
                (fun n => !(n ∈ ty_fn_bound_vars_due_to_params : Bool)))
              ++ ty_fn_params_result))
      | .TyFnCall subject args => do
          let result ← f subject result
          add_free_bound_vars_in_args_with f args result
      | .SetBound set_bound_term scope => do
          let result ← add_free_bound_vars_in_scope_with f scope result
          f set_bound_term result
      | .TyOf t => f t result
      | .Level2 (.Trt trt_def_id) =>
          (match env.trt_defs.get? trt_def_id with
          | Option.some td => add_free_bound_vars_in_scope_with f td.members result
          | Option.none => .error .crash)
      | .Level2 .AnyTy => pure result
      | .Level1 (.ModDef mod_def_id) =>
          (match env.mod_defs.get? mod_def_id with
          | Option.some md => add_free_bound_vars_in_scope_with f md.members result
          | Option.none => .error .crash)
      | .Level1 (.NominalDef nominal_def_id) =>
          (match env.nominal_defs.get? nominal_def_id with
          | Option.some (.Struct _ (.Explicit fields)) =>
              add_free_bound_vars_in_params_with f fields result
          | Option.some (.Struct _ .Opaque) => pure result
          | Option.some (.Enum _ _) => pure result
          | Option.none => .error .crash)
      | .Level1 (.Tuple members) =>
          add_free_bound_vars_in_params_with f members result
      | .Level1 (.Fn params return_ty) => do
          let result ← add_free_bound_vars_in_params_with f params result
          f return_ty result
      | .Level0 (.Rt ty_term) => f ty_term result
      | .Level0 (.FnLit fn_ty return_value) => do
          let result ← f fn_ty result
          f return_value result
      | .Level0 (.FnCall subject args) => do
          let result ← f subject result
          add_free_bound_vars_in_args_with f args result
      | .Level0 (.Tuple members) =>
          add_free_bound_vars_in_args_with f members result
      | .Level0 (.Constructed subject members) => do
          let result ← f subject result
          add_free_bound_vars_in_args_with f members result
      | .Level0 (.EnumVariant _ _) => pure result
      | .Level0 (.Lit _) => pure result
      | .Var _ => pure result
      | .Root => pure result
      | .ScopeVar _ _ _ => pure result
      | .Unresolved _ => pure result
      | .Level3 .TrtKind => pure result

/-- Get the set of free bound variable names of the given term, from the
source get_free_bound_vars_in_term. -/
def get_free_bound_vars_in_term (env : Env) (fuel : Nat) (term : Term) :
    M (List String) :=
  add_free_bound_vars_in_term_to_set env fuel term []

/-- Modelled from the spec: materialize a new set-bound scope containing
only the predicated members (the source ScopeManager::filter_scope is
not part of the snapshot). -/
def filter_scope (s : Scope) (pred : Member → Bool) : Scope :=
  Scope.mk ScopeKind.SetBound (MemberList.ofList (s.members.toList.filter pred))

/-- Run the set-bound application and fall back to the original term
when no application occurred, reporting whether it did, from the source
apply_set_bound_to_term_with_flag. -/
def apply_set_bound_with_flag (f : Term → M (Option Term)) (t : Term) :
    M (Term × Bool) := do
  match ← f t with
  | Option.some applied => pure (applied, true)
  | Option.none => pure (t, false)

/-- Apply the set bound to each parameter type and default value, from
the source apply_set_bound_to_params_with_flag. -/
def apply_set_bound_to_params_with (f : Term → M (Option Term)) :
    ParamList → M (ParamList × Bool)
  | .nil => pure (.nil, false)
  | .cons (.mk name ty default_value) ps => do
      let (ty2, b1) ← apply_set_bound_with_flag f ty
      let (dv2, b2) ←
        match default_value with
        | .some d => do
            let (d2, b) ← apply_set_bound_with_flag f d
            pure (OptTerm.some d2, b)
        | .none => pure (OptTerm.none, false)
      let (rest, b3) ← apply_set_bound_to_params_with f ps
      pure (ParamList.cons (.mk name ty2 dv2) rest, b1 || b2 || b3)

/-- Apply the set bound to each argument value, from the source
apply_set_bound_to_args_with_flag. -/
def apply_set_bound_to_args_with (f : Term → M (Option Term)) :
    ArgList → M (ArgList × Bool)
  | .nil => pure (.nil, false)
  | .cons (.mk name value) as_ => do
      let (v2, b1) ← apply_set_bound_with_flag f value
      let (rest, b2) ← apply_set_bound_to_args_with f as_
      pure (ArgList.cons (.mk name v2) rest, b1 || b2)

/-- Apply the set bound to each term of the list (the source writes this
as an inline iteration in the merge and union arms). -/
def apply_set_bound_to_term_list_with (f : Term → M (Option Term)) :
    TermList → M (TermList × Bool)
  | .nil => pure (.nil, false)
  | .cons t ts => do
      let (t2, b1) ← apply_set_bound_with_flag f t
      let (rest, b2) ← apply_set_bound_to_term_list_with f ts
      pure (TermList.cons t2 rest, b1 || b2)

/-- Apply the set bound to each type-function case: the case params with
the ambient ignore set, the returns with the extended one, from the case
loop of the source apply_set_bound_to_term_rec (which recomputes the
extension from the general params, not the case params). -/
def apply_set_bound_ty_fn_cases_with
    (f_ambient : Term → M (Option Term)) (f_extended : Term → M (Option Term)) :
    CaseList → M (CaseList × Bool)
  | .nil => pure (.nil, false)
  | .cons (.mk params return_ty return_value) cs => do
      let (ps2, b1) ← apply_set_bound_to_params_with f_ambient params
      let (rt2, b2) ← apply_set_bound_with_flag f_extended return_ty
      let (rv2, b3) ← apply_set_bound_with_flag f_extended return_value
      let (rest, b4) ← apply_set_bound_ty_fn_cases_with f_ambient f_extended cs
      pure (CaseList.cons (.mk ps2 rt2 rv2) rest, b1 || b2 || b3 || b4)

/-- Apply the given SetBound scope to the given term, at the lowest
level possible, from the source apply_set_bound_to_term_rec. The term
is only wrapped where its free bound variables meet the scope; the
ignore set collects names bound by nested type-function binders. -/
def apply_set_bound_to_term_rec (env : Env) :
    Nat → Scope → List String → Term → M (Option Term)
  | 0, _, _, _ => .error .noFuel
  | fuel + 1, set_bound_scope, ignore_bound_vars, term =>
      match term with
      | .BoundVar var =>
          if var ∈ ignore_bound_vars then pure Option.none
          else
            match set_bound_scope.get var with
            | Option.some (member, _) =>
                (match member.data.value with
                | Option.some value => do
                    let applied ←
                      apply_set_bound_to_term_rec env fuel set_bound_scope
                        ignore_bound_vars value
                    pure (Option.some (applied.getD value))
                | Option.none => .error .crash)
            | Option.none => pure Option.none
      | .Access subject name op => do
          match ← apply_set_bound_to_term_rec env fuel set_bound_scope
              ignore_bound_vars subject with
          | Option.some subject_applied =>
              pure (Option.some (.Access subject_applied name op))
          | Option.none => pure Option.none
      | .Merge terms => do
          let (applied, applied_once) ← apply_set_bound_to_term_list_with
            (apply_set_bound_to_term_rec env fuel set_bound_scope
              ignore_bound_vars) terms
          if applied_once then pure (Option.some (.Merge applied))
          else pure Option.none
      | .Union terms => do
          let (applied, applied_once) ← apply_set_bound_to_term_list_with
            (apply_set_bound_to_term_rec env fuel set_bound_scope
              ignore_bound_vars) terms
          if applied_once then pure (Option.some (.Union applied))
          else pure Option.none
      | .TyFn name general_params general_return_ty cases => do
          let ty_fn_bound_vars_due_to_params :=
            add_param_vars_as_bound_vars_to_set general_params []
          let new_ignore_bound_vars :=
            extend_names ignore_bound_vars ty_fn_bound_vars_due_to_params
          let (gp2, b1) ← apply_set_bound_to_params_with
            (apply_set_bound_to_term_rec env fuel set_bound_scope
              ignore_bound_vars) general_params
          let (gr2, b2) ← apply_set_bound_with_flag
            (apply_set_bound_to_term_rec env fuel set_bound_scope
              new_ignore_bound_vars) general_return_ty
          let (cs2, b3) ← apply_set_bound_ty_fn_cases_with
            (apply_set_bound_to_term_rec env fuel set_bound_scope
              ignore_bound_vars)
            (apply_set_bound_to_term_rec env fuel set_bound_scope
              new_ignore_bound_vars) cases
          if b1 || b2 || b3 then
            pure (Option.some (.TyFn name gp2 gr2 cs2))
          else pure Option.none
      | .TyFnTy params return_ty => do
          let ty_fn_bound_vars_due_to_params :=
            add_param_vars_as_bound_vars_to_set params []
          let new_ignore_bound_vars :=
            extend_names ignore_bound_vars ty_fn_bound_vars_due_to_params
          let (ps2, b1) ← apply_set_bound_to_params_with
            (apply_set_bound_to_term_rec env fuel set_bound_scope
              ignore_bound_vars) params
          let (rt2, b2) ← apply_set_bound_with_flag
            (apply_set_bound_to_term_rec env fuel set_bound_scope
              new_ignore_bound_vars) return_ty
          if b1 || b2 then pure (Option.some (.TyFnTy ps2 rt2))
          else pure Option.none
      | .TyFnCall subject args => do
          let (s2, b1) ← apply_set_bound_with_flag
            (apply_set_bound_to_term_rec env fuel set_bound_scope
              ignore_bound_vars) subject
          let (a2, b2) ← apply_set_bound_to_args_with
            (apply_set_bound_to_term_rec env fuel set_bound_scope
              ignore_bound_vars) args
          if b1 || b2 then pure (Option.some (.TyFnCall s2 a2))
          else pure Option.none
      | .TyOf inner => do
          let (t2, b) ← apply_set_bound_with_flag
            (apply_set_bound_to_term_rec env fuel set_bound_scope
              ignore_bound_vars) inner
          if b then pure (Option.some (.TyOf t2)) else pure Option.none
      | .Level1 (.Tuple members) => do
          let (ms2, b) ← apply_set_bound_to_params_with
            (apply_set_bound_to_term_rec env fuel set_bound_scope
              ignore_bound_vars) members
          if b then pure (Option.some (.Level1 (.Tuple ms2)))
          else pure Option.none
      | .Level1 (.Fn params return_ty) => do
          let (ps2, b1) ← apply_set_bound_to_params_with
            (apply_set_bound_to_term_rec env fuel set_bound_scope
              ignore_bound_vars) params
          let (rt2, b2) ← apply_set_bound_with_flag
            (apply_set_bound_to_term_rec env fuel set_bound_scope
              ignore_bound_vars) return_ty
          if b1 || b2 then pure (Option.some (.Level1 (.Fn ps2 rt2)))
          else pure Option.none
      | .Level0 (.Rt inner) => do
          match ← apply_set_bound_to_term_rec env fuel set_bound_scope
              ignore_bound_vars inner with
          | Option.some r => pure (Option.some (.Level0 (.Rt r)))
          | Option.none => pure Option.none
      | .Level0 (.FnCall subject args) => do
          let (s2, b1) ← apply_set_bound_with_flag
            (apply_set_bound_to_term_rec env fuel set_bound_scope
              ignore_bound_vars) subject
          let (a2, b2) ← apply_set_bound_to_args_with
            (apply_set_bound_to_term_rec env fuel set_bound_scope
              ignore_bound_vars) args
          if b1 || b2 then pure (Option.some (.Level0 (.FnCall s2 a2)))
          else pure Option.none
      | .Level0 (.FnLit fn_ty return_value) => do
          let (t2, b1) ← apply_set_bound_with_flag
            (apply_set_bound_to_term_rec env fuel set_bound_scope
              ignore_bound_vars) fn_ty
          let (rv2, b2) ← apply_set_bound_with_flag
            (apply_set_bound_to_term_rec env fuel set_bound_scope
              ignore_bound_vars) return_value
          if b1 || b2 then pure (Option.some (.Level0 (.FnLit t2 rv2)))
          else pure Option.none
      | .Level0 (.EnumVariant _ _) => pure Option.none
      | .Level0 (.Tuple members) => do
          let (ms2, b) ← apply_set_bound_to_args_with
            (apply_set_bound_to_term_rec env fuel set_bound_scope
              ignore_bound_vars) members
          if b then pure (Option.some (.Level0 (.Tuple ms2)))
          else pure Option.none
      | .Level0 (.Lit _) => pure Option.none
      | .Level0 (.Constructed subject members) => do
          let (s2, b1) ← apply_set_bound_with_flag
            (apply_set_bound_to_term_rec env fuel set_bound_scope
              ignore_bound_vars) subject
          let (ms2, b2) ← apply_set_bound_to_args_with
            (apply_set_bound_to_term_rec env fuel set_bound_scope
              ignore_bound_vars) members
          if b1 || b2 then
            pure (Option.some (.Level0 (.Constructed s2 ms2)))
          else pure Option.none
      | .Level1 (.ModDef _) | .Level1 (.NominalDef _) | .Level2 (.Trt _)
      | .SetBound _ _ => do
          let vars ← get_free_bound_vars_in_term env fuel term
          if !(set_bound_scope.iter_names.any (fun name => name ∈ vars)) then
            pure Option.none
          else
            pure (Option.some (.SetBound term
              (filter_scope set_bound_scope
                (fun member => member.name ∈ vars))))
      | .Level3 .TrtKind => pure Option.none
      | .Level2 .AnyTy => pure Option.none
      | .Var _ => pure Option.none
      | .Root => pure Option.none
      | .ScopeVar _ _ _ => pure Option.none
      | .Unresolved _ => pure Option.none

/-- Apply the given SetBound scope to the given term, from the source
apply_set_bound_to_term (empty ignore set). -/
def apply_set_bound_to_term (env : Env) (fuel : Nat) (set_bound_scope : Scope)
    (term : Term) : M (Option Term) :=
  apply_set_bound_to_term_rec env fuel set_bound_scope [] term

/-- Apply the given SetBound scope, returning the original term if no
application occurred, from the source
potentially_apply_set_bound_to_term. -/
def potentially_apply_set_bound_to_term (env : Env) (fuel : Nat)
    (set_bound_scope : Scope) (term : Term) : M Term := do
  pure ((← apply_set_bound_to_term_rec env fuel set_bound_scope [] term).getD term)

/-- Apply the given SetBound scope to params, from the source
apply_set_bound_to_params. -/
def apply_set_bound_to_params (env : Env) (fuel : Nat)
    (set_bound_scope : Scope) (ps : ParamList) : M ParamList := do
  pure (← apply_set_bound_to_params_with
    (apply_set_bound_to_term_rec env fuel set_bound_scope []) ps).1

/-- Apply the given SetBound scope to args, from the source
apply_set_bound_to_args. -/
def apply_set_bound_to_args (env : Env) (fuel : Nat)
    (set_bound_scope : Scope) (as_ : ArgList) : M ArgList := do
  pure (← apply_set_bound_to_args_with
    (apply_set_bound_to_term_rec env fuel set_bound_scope []) as_).1

/-- Accumulate the named-parameter names of every case, mirroring the
due-to-params accumulation of the case loop of the free bound variable
analysis. -/
def case_param_pool : CaseList → List String → List String
  | .nil, acc => acc
  | .cons (.mk params _ _) cs, acc =>
      case_param_pool cs (add_param_vars_as_bound_vars_to_set params acc)

/-- Pooled binder names of a type function: the named general parameters
together with the named parameters of every case (the source subtracts
this shared pool from the return contributions). -/
def ty_fn_param_pool (general_params : ParamList) (cases : CaseList) :
    List String :=
  case_param_pool cases (add_param_vars_as_bound_vars_to_set general_params [])

mutual

/-- Modelled from the spec: the free bound variable names of a term
under the strict binding discipline, in which a SetBound wrapper binds
the names of its scope for the wrapped term (a name that would become
dangling if the term were lifted out of its enclosing binder). This is
the specification-side counterpart of the free bound variable
computation of the Discoverer, which treats SetBound wrappers as
non-binding. -/
inductive FreeBoundVarInTerm (env : Env) : Term → String → Prop where
  | bound_var (n : String) : FreeBoundVarInTerm env (.BoundVar n) n
  | access (subject : Term) (name : String) (op : AccessOp) (n : String) :
      FreeBoundVarInTerm env subject n →
      FreeBoundVarInTerm env (.Access subject name op) n
  | merge (ts : TermList) (t : Term) (n : String) :
      t ∈ ts.toList → FreeBoundVarInTerm env t n →
      FreeBoundVarInTerm env (.Merge ts) n
  | union (ts : TermList) (t : Term) (n : String) :
      t ∈ ts.toList → FreeBoundVarInTerm env t n →
      FreeBoundVarInTerm env (.Union ts) n
  | ty_fn_general_params (name : Option String) (gp : ParamList) (gr : Term)
      (cs : CaseList) (n : String) :
      FreeBoundVarInParams env gp n →
      FreeBoundVarInTerm env (.TyFn name gp gr cs) n
  | ty_fn_case_params (name : Option String) (gp : ParamList) (gr : Term)
      (cs : CaseList) (c : TyFnCase) (n : String) :
      c ∈ cs.toList → FreeBoundVarInParams env c.params n →
      FreeBoundVarInTerm env (.TyFn name gp gr cs) n
  | ty_fn_general_return (name : Option String) (gp : ParamList) (gr : Term)
      (cs : CaseList) (n : String) :
      FreeBoundVarInTerm env gr n → n ∉ ty_fn_param_pool gp cs →
      FreeBoundVarInTerm env (.TyFn name gp gr cs) n
  | ty_fn_case_return_ty (name : Option String) (gp : ParamList) (gr : Term)
      (cs : CaseList) (c : TyFnCase) (n : String) :
      c ∈ cs.toList → FreeBoundVarInTerm env c.return_ty n →
      n ∉ ty_fn_param_pool gp cs →
      FreeBoundVarInTerm env (.TyFn name gp gr cs) n
  | ty_fn_case_return_value (name : Option String) (gp : ParamList) (gr : Term)
      (cs : CaseList) (c : TyFnCase) (n : String) :
      c ∈ cs.toList → FreeBoundVarInTerm env c.return_value n →
      n ∉ ty_fn_param_pool gp cs →
      FreeBoundVarInTerm env (.TyFn name gp gr cs) n
  | ty_fn_ty_params (ps : ParamList) (rt : Term) (n : String) :
      FreeBoundVarInParams env ps n →
      FreeBoundVarInTerm env (.TyFnTy ps rt) n
  | ty_fn_ty_return (ps : ParamList) (rt : Term) (n : String) :
      FreeBoundVarInTerm env rt n →
      n ∉ add_param_vars_as_bound_vars_to_set ps [] →
      FreeBoundVarInTerm env (.TyFnTy ps rt) n
  | ty_fn_call_subject (subject : Term) (args : ArgList) (n : String) :
      FreeBoundVarInTerm env subject n →
      FreeBoundVarInTerm env (.TyFnCall subject args) n
  | ty_fn_call_args (subject : Term) (args : ArgList) (n : String) :
      FreeBoundVarInArgs env args n →
      FreeBoundVarInTerm env (.TyFnCall subject args) n
  | set_bound_term (t : Term) (s : Scope) (n : String) :
      FreeBoundVarInTerm env t n → n ∉ s.iter_names →
      FreeBoundVarInTerm env (.SetBound t s) n
  | set_bound_scope (t : Term) (s : Scope) (n : String) :
      FreeBoundVarInScope env s n →
      FreeBoundVarInTerm env (.SetBound t s) n
  | ty_of (t : Term) (n : String) :
      FreeBoundVarInTerm env t n → FreeBoundVarInTerm env (.TyOf t) n
  | trt (id : Nat) (td : TrtDefData) (n : String) :
      env.trt_defs.get? id = some td →
      FreeBoundVarInScope env td.members n →
      FreeBoundVarInTerm env (.Level2 (.Trt id)) n
  | mod_def (id : Nat) (md : ModDefData) (n : String) :
      env.mod_defs.get? id = some md →
      FreeBoundVarInScope env md.members n →
      FreeBoundVarInTerm env (.Level1 (.ModDef id)) n
  | nominal_struct (id : Nat) (nm : Option String) (fields : ParamList)
      (n : String) :
      env.nominal_defs.get? id = some (.Struct nm (.Explicit fields)) →
      FreeBoundVarInParams env fields n →
      FreeBoundVarInTerm env (.Level1 (.NominalDef id)) n
  | level1_tuple (ms : ParamList) (n : String) :
      FreeBoundVarInParams env ms n →
      FreeBoundVarInTerm env (.Level1 (.Tuple ms)) n
  | level1_fn_params (ps : ParamList) (rt : Term) (n : String) :
      FreeBoundVarInParams env ps n →
      FreeBoundVarInTerm env (.Level1 (.Fn ps rt)) n
  | level1_fn_return (ps : ParamList) (rt : Term) (n : String) :
      FreeBoundVarInTerm env rt n →
      FreeBoundVarInTerm env (.Level1 (.Fn ps rt)) n
  | rt (ty : Term) (n : String) :
      FreeBoundVarInTerm env ty n →
      FreeBoundVarInTerm env (.Level0 (.Rt ty)) n
  | fn_lit_ty (fn_ty rv : Term) (n : String) :
      FreeBoundVarInTerm env fn_ty n →
      FreeBoundVarInTerm env (.Level0 (.FnLit fn_ty rv)) n
  | fn_lit_value (fn_ty rv : Term) (n : String) :
      FreeBoundVarInTerm env rv n →
      FreeBoundVarInTerm env (.Level0 (.FnLit fn_ty rv)) n
  | fn_call_subject (subject : Term) (args : ArgList) (n : String) :
      FreeBoundVarInTerm env subject n →
      FreeBoundVarInTerm env (.Level0 (.FnCall subject args)) n
  | fn_call_args (subject : Term) (args : ArgList) (n : String) :
      FreeBoundVarInArgs env args n →
      FreeBoundVarInTerm env (.Level0 (.FnCall subject args)) n
  | tuple_lit (members : ArgList) (n : String) :
      FreeBoundVarInArgs env members n →
      FreeBoundVarInTerm env (.Level0 (.Tuple members)) n
  | constructed_subject (subject : Term) (members : ArgList) (n : String) :
      FreeBoundVarInTerm env subject n →
      FreeBoundVarInTerm env (.Level0 (.Constructed subject members)) n
  | constructed_members (subject : Term) (members : ArgList) (n : String) :
      FreeBoundVarInArgs env members n →
      FreeBoundVarInTerm env (.Level0 (.Constructed subject members)) n

/-- Free bound variable names of a parameter list: those of the types
and default values. -/
inductive FreeBoundVarInParams (env : Env) : ParamList → String → Prop where
  | head_ty (name : Option String) (ty : Term) (dv : OptTerm) (ps : ParamList)
      (n : String) :
      FreeBoundVarInTerm env ty n →
      FreeBoundVarInParams env (.cons (.mk name ty dv) ps) n
  | head_default (name : Option String) (ty : Term) (d : Term) (ps : ParamList)
      (n : String) :
      FreeBoundVarInTerm env d n →
      FreeBoundVarInParams env (.cons (.mk name ty (.some d)) ps) n
  | tail (p : Param) (ps : ParamList) (n : String) :
      FreeBoundVarInParams env ps n →
      FreeBoundVarInParams env (.cons p ps) n

/-- Free bound variable names of an argument list: those of the values. -/
inductive FreeBoundVarInArgs (env : Env) : ArgList → String → Prop where
  | head (name : Option String) (value : Term) (as_ : ArgList) (n : String) :
      FreeBoundVarInTerm env value n →
      FreeBoundVarInArgs env (.cons (.mk name value) as_) n
  | tail (a : Arg) (as_ : ArgList) (n : String) :
      FreeBoundVarInArgs env as_ n →
      FreeBoundVarInArgs env (.cons a as_) n

/-- Free bound variable names of a scope: those of the member types and
values. -/
inductive FreeBoundVarInScope (env : Env) : Scope → String → Prop where
  | mem_ty (s : Scope) (m : Member) (ty : Term) (n : String) :
      m ∈ s.members.toList → m.data.ty = some ty →
      FreeBoundVarInTerm env ty n → FreeBoundVarInScope env s n
  | mem_value (s : Scope) (m : Member) (v : Term) (n : String) :
      m ∈ s.members.toList → m.data.value = some v →
      FreeBoundVarInTerm env v n → FreeBoundVarInScope env s n

end

/-- Closedness of a SetBound scope, per the data-model invariant that
every member of a SetBound scope is closed: no member type or value has
any free bound variable. -/
def scope_members_closed (env : Env) (s : Scope) : Prop :=
  ∀ m ∈ s.members.toList,
    (∀ ty, m.data.ty = some ty → ∀ n, ¬ FreeBoundVarInTerm env ty n) ∧
    (∀ v, m.data.value = some v → ∀ n, ¬ FreeBoundVarInTerm env v n)

/-- The empty definition environment. -/
def Env.empty : Env := ⟨[], [], []⟩

/-- Soundness property of a term-level free-bound-variable analysis: the
accumulator is preserved and every specification-side free bound
variable of the term lands in the result. -/
def FreeCodeSound (env : Env) (f : Term → List String → M (List String)) : Prop :=
  ∀ t acc r, f t acc = .ok r →
    (∀ n, n ∈ acc → n ∈ r) ∧
    (∀ n, FreeBoundVarInTerm env t n → n ∈ r)

/-- No-escape property of a term-level set-bound application: whenever
it succeeds, a specification-side free bound variable of the result (or
of the unchanged input) that is a name of the scope must be an ignored
name. -/
def ApplyNoEscape (env : Env) (s : Scope) (ign : List String)
    (f : Term → M (Option Term)) : Prop :=
  ∀ t res, f t = .ok res →
    ∀ n, FreeBoundVarInTerm env (res.getD t) n → n ∈ s.iter_names → n ∈ ign

/-- Substitution, from the source Sub type (ops/substitute.rs is not
part of the snapshot). Modelled from the spec: a finite map from
substitutable variables to terms. -/
abbrev SubMap : Type := List (SubVar × Term)

/-- Lookup of a substitutable variable in a substitution. -/
def sub_lookup (sub : SubMap) (v : SubVar) : Option Term :=
  (sub.find? (fun p => p.1 == v)).map (fun p => p.2)

/-- Removal of the Var entries whose names are shadowed by a binder.
Modelled from the spec: substitution is capture-avoiding, it never
descends into a binding that shadows the substituted name. -/
def shadow_sub (sub : SubMap) (names : List String) : SubMap :=
  sub.filter (fun p =>
    match p.1 with
    | .var n => !(names.contains n)
    | .unresolved _ => true)

mutual

/-- Application of a substitution to a term. Modelled from the spec:
every occurrence of a substituted variable is replaced; bindings of
type-function parameters shadow Var entries of the same name, and the
bindings of a SetBound scope are treated as opaque (the scope itself is
not rewritten and its names shadow Var entries). -/
def apply_sub_to_term_spec : SubMap → Term → Term
  | _, .Root => .Root
  | sub, .Var n =>
      match sub_lookup sub (.var n) with
      | Option.some t => t
      | Option.none => .Var n
  | _, .ScopeVar n sc i => .ScopeVar n sc i
  | _, .BoundVar n => .BoundVar n
  | sub, .Access s n op => .Access (apply_sub_to_term_spec sub s) n op
  | sub, .Merge ts => .Merge (apply_sub_to_term_list_spec sub ts)
  | sub, .Union ts => .Union (apply_sub_to_term_list_spec sub ts)
  | sub, .TyFn name gps grt cs =>
      let gnames := add_param_vars_as_bound_vars_to_set gps []
      .TyFn name (apply_sub_to_params_spec sub gps)
        (apply_sub_to_term_spec (shadow_sub sub gnames) grt)
        (apply_sub_to_cases_spec sub gnames cs)
  | sub, .TyFnTy ps rt =>
      .TyFnTy (apply_sub_to_params_spec sub ps)
        (apply_sub_to_term_spec
          (shadow_sub sub (add_param_vars_as_bound_vars_to_set ps [])) rt)
  | sub, .TyFnCall s args =>
      .TyFnCall (apply_sub_to_term_spec sub s) (apply_sub_to_args_spec sub args)
  | sub, .SetBound t sc =>
      .SetBound (apply_sub_to_term_spec (shadow_sub sub sc.iter_names) t) sc
  | sub, .TyOf t => .TyOf (apply_sub_to_term_spec sub t)
  | sub, .Unresolved id =>
      match sub_lookup sub (.unresolved id) with
      | Option.some t => t
      | Option.none => .Unresolved id
  | sub, .Level0 t => .Level0 (apply_sub_to_level0_spec sub t)
  | sub, .Level1 t => .Level1 (apply_sub_to_level1_spec sub t)
  | _, .Level2 t => .Level2 t
  | _, .Level3 t => .Level3 t
termination_by structural _ x => x

/-- Application of a substitution to a term list. -/
def apply_sub_to_term_list_spec : SubMap → TermList → TermList
  | _, .nil => .nil
  | sub, .cons t ts =>
      .cons (apply_sub_to_term_spec sub t) (apply_sub_to_term_list_spec sub ts)
termination_by structural _ x => x

/-- Application of a substitution to parameter types and defaults. -/
def apply_sub_to_params_spec : SubMap → ParamList → ParamList
  | _, .nil => .nil
  | sub, .cons (.mk name ty dv) ps =>
      .cons (.mk name (apply_sub_to_term_spec sub ty)
        (apply_sub_to_opt_term_spec sub dv))
        (apply_sub_to_params_spec sub ps)
termination_by structural _ x => x

/-- Application of a substitution to argument values. -/
def apply_sub_to_args_spec : SubMap → ArgList → ArgList
  | _, .nil => .nil
  | sub, .cons (.mk name value) as_ =>
      .cons (.mk name (apply_sub_to_term_spec sub value))
        (apply_sub_to_args_spec sub as_)
termination_by structural _ x => x

/-- Application of a substitution to the cases of a type function; the
case returns are shadowed by the general and per-case parameter names. -/
def apply_sub_to_cases_spec : SubMap → List String → CaseList → CaseList
  | _, _, .nil => .nil
  | sub, gnames, .cons (.mk ps rt rv) cs =>
      let shadowed :=
        shadow_sub sub (add_param_vars_as_bound_vars_to_set ps gnames)
      .cons (.mk (apply_sub_to_params_spec sub ps)
        (apply_sub_to_term_spec shadowed rt)
        (apply_sub_to_term_spec shadowed rv))
        (apply_sub_to_cases_spec sub gnames cs)
termination_by structural _ _ x => x

/-- Application of a substitution to an optional term. -/
def apply_sub_to_opt_term_spec : SubMap → OptTerm → OptTerm
  | _, .none => .none
  | sub, .some t => .some (apply_sub_to_term_spec sub t)
termination_by structural _ x => x

/-- Application of a substitution to a level-0 term. -/
def apply_sub_to_level0_spec : SubMap → Level0Term → Level0Term
  | sub, .Rt ty => .Rt (apply_sub_to_term_spec sub ty)
  | sub, .FnLit fn_ty rv =>
      .FnLit (apply_sub_to_term_spec sub fn_ty) (apply_sub_to_term_spec sub rv)
  | sub, .FnCall s args =>
      .FnCall (apply_sub_to_term_spec sub s) (apply_sub_to_args_spec sub args)
  | sub, .Tuple members => .Tuple (apply_sub_to_args_spec sub members)
  | sub, .Constructed s members =>
      .Constructed (apply_sub_to_term_spec sub s)
        (apply_sub_to_args_spec sub members)
  | _, .EnumVariant i n => .EnumVariant i n
  | _, .Lit v => .Lit v
termination_by structural _ x => x

/-- Application of a substitution to a level-1 term. -/
def apply_sub_to_level1_spec : SubMap → Level1Term → Level1Term
  | _, .ModDef id => .ModDef id
  | _, .NominalDef id => .NominalDef id
  | sub, .Tuple members => .Tuple (apply_sub_to_params_spec sub members)
  | sub, .Fn ps rt =>
      .Fn (apply_sub_to_params_spec sub ps) (apply_sub_to_term_spec sub rt)
termination_by structural _ x => x

end

/-- Structural term equality used by the merge and union idempotency
pass. Modelled from the spec: the unifier reports equality of two terms
(the Unifier is not part of the snapshot); two terms are modelled as
equal when they are structurally identical. -/
def terms_are_equal (a b : Term) : Bool := Term.beq a b

/-- Whether the given unresolved id occurs in the term (the occurs
check of the unifier). Modelled from the spec, via the free substitutable
variable analysis of the Discoverer. -/
def occurs_unresolved (u : Nat) (t : Term) : Bool :=
  (SubVar.unresolved u) ∈ get_free_sub_vars_in_term t

/-- Pairwise unification of two parameter lists: name agreement and
left-to-right type unification under the accumulated substitution.
Modelled from the spec, section 4.5, iterated with the given term-level
unifier. -/
def unify_params_loop_with (ut : Term → Term → M SubMap)
    (src target : ParamList) :
    Nat → SubMap → List Param → List Param → M SubMap
  | _, acc, [], [] => pure acc
  | i, acc, p :: ps, q :: qs => do
      if p.name == q.name then do
        let s ← ut (apply_sub_to_term_spec acc p.ty)
          (apply_sub_to_term_spec acc q.ty)
        unify_params_loop_with ut src target (i + 1) (acc ++ s) ps qs
      else tcErr (.CannotUnifyParams src target (.NameMismatch i))
  | _, _, _, _ => .error .crash

/-- Unification of two parameter lists: length check, then the pairwise
loop. Modelled from the spec, section 4.5. -/
def unify_params_with (ut : Term → Term → M SubMap)
    (src target : ParamList) : M SubMap :=
  if src.toList.length ≠ target.toList.length then
    tcErr (.CannotUnifyParams src target .LengthMismatch)
  else unify_params_loop_with ut src target 0 [] src.toList target.toList

/-- Unification of two terms, producing a substitution. Modelled from
the spec, section 4.5, as a subset of the listed rules on already
simplified forms: identity, Unresolved on either side with the occurs
check, nominal definitions by id, function types (parameters then
returns under the prefix substitution), tuple types, and AnyTy against
level-2 terms; all other combinations fail with CannotUnify.
Composition is modelled as concatenation applied left-to-right. -/
def unify_terms_spec : Nat → Term → Term → M SubMap
  | 0, _, _ => .error .noFuel
  | fuel + 1, src, target =>
      if Term.beq src target then pure []
      else
        match src, target with
        | .Unresolved u, t =>
            if occurs_unresolved u t then
              tcErr (.NeedMoreTypeAnnotationsToResolve (.Unresolved u))
            else pure [(.unresolved u, t)]
        | s, .Unresolved u =>
            if occurs_unresolved u s then
              tcErr (.NeedMoreTypeAnnotationsToResolve (.Unresolved u))
            else pure [(.unresolved u, s)]
        | .Level1 (.NominalDef a), .Level1 (.NominalDef b) =>
            if a = b then pure []
            else tcErr (.CannotUnify (.Level1 (.NominalDef a))
              (.Level1 (.NominalDef b)))
        | .Level1 (.Fn ps r), .Level1 (.Fn ps2 r2) => do
            let s1 ← unify_params_with (unify_terms_spec fuel) ps ps2
            let s2 ← unify_terms_spec fuel (apply_sub_to_term_spec s1 r)
              (apply_sub_to_term_spec s1 r2)
            pure (s1 ++ s2)
        | .Level1 (.Tuple ms), .Level1 (.Tuple ms2) =>
            unify_params_with (unify_terms_spec fuel) ms ms2
        | .Level2 _, .Level2 .AnyTy => pure []
        | s, t => tcErr (.CannotUnify s t)

/-- Resolution of a name through the scope stack, innermost first; the
first matching member wins. Modelled from the spec, section 4.2 (the
ScopeManager is not part of the snapshot). -/
def resolve_name_in_scopes_spec (name : String) (originating : Term) :
    List Scope → M (Scope × Member × Nat)
  | [] => tcErr (.UnresolvedVariable name originating)
  | sc :: rest =>
      match sc.get name with
      | Option.some (m, i) => pure (sc, m, i)
      | Option.none => resolve_name_in_scopes_spec name originating rest

/-- Members of a Bound-kind scope mirroring the named parameters, each
uninitialised with the parameter type. Modelled from the spec, section
4.2 (make_bound_scope). -/
def bound_members : ParamList → MemberList
  | .nil => .nil
  | .cons (.mk name ty _) ps =>
      match name with
      | Option.some n => .cons (.mk n (.Uninitialised ty)) (bound_members ps)
      | Option.none => bound_members ps

/-- Bound-kind scope for entering a type-function body. Modelled from
the spec, section 4.2. -/
def make_bound_scope_spec (ps : ParamList) : Scope :=
  Scope.mk .Bound (bound_members ps)

/-- Members of a SetBound-kind scope mapping each named parameter to the
paired concrete argument value with its declared type. Modelled from the
spec, section 4.2 (make_set_bound_scope). -/
def set_bound_members : List (Param × Arg) → MemberList
  | [] => .nil
  | (p, a) :: rest =>
      match p.name with
      | Option.some n =>
          .cons (.mk n (.InitialisedWithTy p.ty a.value)) (set_bound_members rest)
      | Option.none => set_bound_members rest

/-- SetBound-kind scope from parameter-argument pairing. Modelled from
the spec, section 4.2: the pairing follows section 4.4; a pairing
failure aborts (the scope manager does not surface it as a TcError). -/
def make_set_bound_scope_spec (params : ParamList) (args : ArgList) :
    M Scope :=
  match pair_args_with_params params.toList args.toList with
  | .ok pairs => pure (Scope.mk .SetBound (set_bound_members pairs))
  | .error _ => .error .crash

/-- Member of a scope at the given index (the constant-time direct
lookup of get_scope_var_member). -/
def member_at (sc : Scope) (idx : Nat) : Option Member :=
  sc.members.toList.get? idx

/-- Whether a scope member can be inlined by the simplifier: its scope
is not a Bound scope and its value is set. Modelled from the spec
(Member::is_closed_and_non_bound; visibility and mutability are elided
in the member model). -/
def member_is_closed_and_non_bound (kind : ScopeKind) (m : Member) : Bool :=
  (match kind with
   | .Bound => false
   | _ => true) &&
  (match m.data.value with
   | Option.some _ => true
   | Option.none => false)

/-- Whether the term reduces to a function type, with SetBound
transparency. Modelled from the spec, section 4.9 (the Validator is not
part of the snapshot). -/
def term_is_fn_ty_spec : Term → Option (ParamList × Term)
  | .Level1 (.Fn ps rt) => Option.some (ps, rt)
  | .SetBound t _ => term_is_fn_ty_spec t
  | _ => Option.none

mutual

/-- Whether a term can be used as a Constructed subject: a nominal
definition, a merge containing one, or a set-bound over one, from the
source is_term_constructable. -/
def is_term_constructable : Term → Bool
  | .Merge ts => is_term_constructable_list ts
  | .SetBound t _ => is_term_constructable t
  | .Level1 (.NominalDef _) => true
  | _ => false
termination_by structural x => x

/-- Whether any term of the list is constructable. -/
def is_term_constructable_list : TermList → Bool
  | .nil => false
  | .cons t ts => is_term_constructable t || is_term_constructable_list ts
termination_by structural x => x

end

/-- Error for a subject that does not support accessing, from the source
does_not_support_access helper. -/
def does_not_support_access {α : Type} (at_ : AccessTerm) : M α :=
  tcErr (.UnsupportedPropertyAccess at_.name at_.subject)

/-- Check that the access is a namespace access, from the source
does_not_support_prop_access helper. -/
def does_not_support_prop_access (at_ : AccessTerm) : M Unit :=
  match at_.op with
  | .Namespace => pure ()
  | .Property => tcErr (.UnsupportedPropertyAccess at_.name at_.subject)

/-- Check that the access is a property access, from the source
does_not_support_ns_access helper. -/
def does_not_support_ns_access (at_ : AccessTerm) : M Unit :=
  match at_.op with
  | .Property => pure ()
  | .Namespace => tcErr (.UnsupportedNamespaceAccess at_.name at_.subject)

/-- Error for an access name not found in the value, from the source
name_not_found helper. -/
def name_not_found {α : Type} (at_ : AccessTerm) : M α :=
  tcErr (.UnresolvedNameInValue at_.name at_.op at_.subject)

/-- Conversion of an UnresolvedVariable error into an
UnresolvedNameInValue error when it originates from the given access
term, from the source
turn_unresolved_var_err_into_unresolved_in_value_err. -/
def turn_unresolved_var_err (at_ : AccessTerm) (e : TcError) : TcError :=
  match e with
  | .UnresolvedVariable name _ =>
      if name == at_.name then
        .UnresolvedNameInValue at_.name at_.op at_.subject
      else e
  | _ => e

/-- Parameter list without its first parameter (the skip(1) of the
method synthesis). -/
def ParamList.drop_first : ParamList → ParamList
  | .nil => .nil
  | .cons _ ps => ps

/-- Arguments aligned with the parameters, filling default values for
unsupplied named parameters. Modelled from the spec, section 4.8
(infer_args_from_params of the Typer, which is not part of the
snapshot): the pairing of section 4.4 validates the call, then each
parameter takes, in order, the named argument carrying its name, else
the positional argument at its index, else its default value. -/
def align_args_loop (args : ArgList) : Nat → List Param → M (List Arg)
  | _, [] => pure []
  | i, p :: ps => do
      let value ←
        match p.name >>= (fun n => ArgList.get_by_name args n) with
        | Option.some (_, a) => pure a.value
        | Option.none =>
            match args.toList.get? i with
            | Option.some a =>
                match a.get_name_opt with
                | Option.none => pure a.value
                | Option.some _ =>
                    match p.default_value with
                    | .some d => pure d
                    | .none => .error .crash
            | Option.none =>
                match p.default_value with
                | .some d => pure d
                | .none => .error .crash
      let rest ← align_args_loop args (i + 1) ps
      pure (Arg.mk p.name value :: rest)

/-- Inference of the argument list from the parameters. Modelled from
the spec, section 4.8. -/
def infer_args_from_params_spec (args : ArgList) (params : ParamList) :
    M ArgList := do
  let _ ← pair_args_with_params params.toList args.toList
  let aligned ← align_args_loop args 0 params.toList
  pure (ArgList.ofList aligned)

/-- Interpreter record for the simplifier: one field per recursive
function of ops/simplify.rs, plus the spec-modelled Typer entry points
it calls into. The source recursion is unbounded; the record is
instantiated at every fuel level with the previous level standing for
all recursive calls. -/
structure Interp where
  simplify_term : List Scope → Term → M (Option Term)
  apply_access_term : List Scope → AccessTerm → M (Option Term)
  apply_ty_fn : List Scope → Term → ArgList → M (Option Term)
  apply_access_to_level0_term :
    List Scope → Level0Term → AccessTerm → Term → M (Option Term)
  apply_access_to_level1_term :
    List Scope → Level1Term → AccessTerm → M (Option Term)
  apply_access_to_level2_term :
    List Scope → Level2Term → AccessTerm → M (Option Term)
  access_struct_or_tuple_field :
    List Scope → Term → String → M (Option Term)
  turn_accessed_ty_and_subject_ty_into_method :
    List Scope → Term → Term → Term → String → M Term
  simplify_level0_term : List Scope → Level0Term → Term → M (Option Term)
  simplify_level1_term : List Scope → Level1Term → M (Option Term)
  simplify_args : List Scope → ArgList → M (Option ArgList)
  simplify_params : List Scope → ParamList → M (Option ParamList)
  simplify_algebraic_term_list :
    List Scope → TermList → (Term → Option TermList) → M (Option (List Term))
  use_term_as_fn_call_subject : List Scope → Term → M (ParamList × Term)
  use_term_as_constructed_subject :
    List Scope → Term → ArgList → Term → M (ArgList × Term)
  infer_ty_of_term : List Scope → Term → M Term
  unify_params_with_args : List Scope → ParamList → ArgList → M SubMap

/-- Fuel-exhausted interpreter, the base of the fuel recursion. -/
def noFuelInterp : Interp where
  simplify_term := fun _ _ => .error .noFuel
  apply_access_term := fun _ _ => .error .noFuel
  apply_ty_fn := fun _ _ _ => .error .noFuel
  apply_access_to_level0_term := fun _ _ _ _ => .error .noFuel
  apply_access_to_level1_term := fun _ _ _ => .error .noFuel
  apply_access_to_level2_term := fun _ _ _ => .error .noFuel
  access_struct_or_tuple_field := fun _ _ _ => .error .noFuel
  turn_accessed_ty_and_subject_ty_into_method := fun _ _ _ _ _ => .error .noFuel
  simplify_level0_term := fun _ _ _ => .error .noFuel
  simplify_level1_term := fun _ _ => .error .noFuel
  simplify_args := fun _ _ => .error .noFuel
  simplify_params := fun _ _ => .error .noFuel
  simplify_algebraic_term_list := fun _ _ _ => .error .noFuel
  use_term_as_fn_call_subject := fun _ _ => .error .noFuel
  use_term_as_constructed_subject := fun _ _ _ _ => .error .noFuel
  infer_ty_of_term := fun _ _ => .error .noFuel
  unify_params_with_args := fun _ _ _ => .error .noFuel

/-- Simplification returning the original term when unchanged, from the
source potentially_simplify_term. -/
def pot_simplify (i : Interp) (stack : List Scope) (t : Term) : M Term := do
  pure ((← i.simplify_term stack t).getD t)

/-- Collection of the non-error, non-empty access results over the merge
elements, from the filter_map of the merge arm of apply_access_term (a
TcError of an element is discarded; an abort propagates). -/
def merge_access_collect (f : AccessTerm → M (Option Term))
    (at_ : AccessTerm) : TermList → M (List Term)
  | .nil => pure []
  | .cons t ts =>
      match f { at_ with subject := t } with
      | .ok (Option.some r) => do pure (r :: (← merge_access_collect f at_ ts))
      | .ok Option.none => merge_access_collect f at_ ts
      | .error (.tcError _) => merge_access_collect f at_ ts
      | .error e => .error e

/-- Access applied to each union element, keeping the element when the
access leaves it unchanged, from the union arm of apply_access_term
(errors propagate). -/
def union_access_loop (f : AccessTerm → M (Option Term))
    (at_ : AccessTerm) : TermList → M (List Term)
  | .nil => pure []
  | .cons t ts => do
      let r ← f { at_ with subject := t }
      let rest ← union_access_loop f at_ ts
      pure (r.getD t :: rest)

/-- First successful field access over the merge elements, from the
merge arm of access_struct_or_tuple_field. -/
def first_some_access (f : Term → M (Option Term)) :
    TermList → M (Option Term)
  | .nil => pure Option.none
  | .cons t ts => do
      match ← f t with
      | Option.some r => pure (Option.some r)
      | Option.none => first_some_access f ts

/-- Case loop of apply_ty_fn: each case whose parameters unify with the
arguments contributes a wrapped return value, each failing case
contributes its unification error, both in case order. -/
def apply_ty_fn_cases_loop (uw : ParamList → M SubMap)
    (wrap : ParamList → Term → M Term) :
    CaseList → M (List TcError × List Term)
  | .nil => pure ([], [])
  | .cons (.mk params _ return_value) cs =>
      match uw params with
      | .ok _ => do
          let result ← wrap params return_value
          let (errors, results) ← apply_ty_fn_cases_loop uw wrap cs
          pure (errors, result :: results)
      | .error (.tcError e) => do
          let (errors, results) ← apply_ty_fn_cases_loop uw wrap cs
          pure (e :: errors, results)
      | .error e => .error e

/-- Case loop of the TyFn arm of simplify_term: each case yields its
simplified form, or nothing when no constituent changed. -/
def simplify_cases_loop (fp : ParamList → M (Option ParamList))
    (ft : Scope → Term → M (Option Term)) :
    CaseList → M (List (Option TyFnCase))
  | .nil => pure []
  | .cons (.mk ps rt rv) cs => do
      let sp ← fp ps
      let scope := make_bound_scope_spec ps
      let srt ← ft scope rt
      let srv ← ft scope rv
      let rest ← simplify_cases_loop fp ft cs
      let cur :=
        match sp, srt, srv with
        | Option.none, Option.none, Option.none => Option.none
        | _, _, _ =>
            Option.some (TyFnCase.mk (sp.getD ps) (srt.getD rt) (srv.getD rv))
      pure (cur :: rest)

/-- Zip of the simplified cases over the old ones, each simplified case
replacing its original. -/
def zip_cases : List (Option TyFnCase) → CaseList → CaseList
  | s :: ss, .cons c cs => .cons (s.getD c) (zip_cases ss cs)
  | _, _ => .nil

/-- Value loop of simplify_args, tracking whether any value changed. -/
def simplify_args_loop (f : Term → M (Option Term)) :
    ArgList → M (ArgList × Bool)
  | .nil => pure (.nil, false)
  | .cons (.mk name value) as_ => do
      let r ← f value
      let (rest, b) ← simplify_args_loop f as_
      pure (.cons (.mk name (r.getD value)) rest, r.isSome || b)

/-- Type and default loop of simplify_params, tracking whether anything
changed. -/
def simplify_params_loop (f : Term → M (Option Term)) :
    ParamList → M (ParamList × Bool)
  | .nil => pure (.nil, false)
  | .cons (.mk name ty dv) ps => do
      let rt ← f ty
      let (dv2, b2) ←
        match dv with
        | OptTerm.some d => do
            let rd ← f d
            pure (OptTerm.some (rd.getD d), rd.isSome)
        | OptTerm.none => pure (OptTerm.none, false)
      let (rest, b3) ← simplify_params_loop f ps
      pure (.cons (.mk name (rt.getD ty) dv2) rest, rt.isSome || b2 || b3)

/-- Flattening pass of simplify_algebraic_term_list: simplify each
element once, splice the contents of any element of the same kind, and
record whether anything changed. -/
def flatten_simplify_loop (f : Term → M (Option Term))
    (is_nested : Term → Option TermList) : TermList → M (Bool × List Term)
  | .nil => pure (false, [])
  | .cons t ts => do
      let s ← f t
      let st := s.getD t
      let (fcur, cur) :=
        match is_nested st with
        | Option.some inner => (true, inner.toList)
        | Option.none => (false, [st])
      let (frest, rest) ← flatten_simplify_loop f is_nested ts
      pure (s.isSome || fcur || frest, cur ++ rest)

/-- Idempotency pass of simplify_algebraic_term_list: an element is
dropped when an earlier element is reported equal; the flag records
whether any element was dropped. The first argument accumulates all the
elements already walked, dropped or not, matching the pairwise scan of
the source. -/
def drop_later_equals (eq : Term → Term → Bool) :
    List Term → List Term → Bool × List Term
  | _, [] => (false, [])
  | seen, x :: rest =>
      let dup := seen.any (fun y => eq y x)
      let (fl, r) := drop_later_equals eq (seen ++ [x]) rest
      (dup || fl, if dup then r else x :: r)

/-- Collection of the merge elements usable as function-call subjects,
with their indices, from the merge arm of use_term_as_fn_call_subject
(a TcError of an element is discarded; an abort propagates). -/
def fn_subject_merge_collect (f : Term → M (ParamList × Term)) :
    Nat → TermList → M (List (Nat × ParamList × Term))
  | _, .nil => pure []
  | i, .cons t ts =>
      match f t with
      | .ok r => do pure ((i, r) :: (← fn_subject_merge_collect f (i + 1) ts))
      | .error (.tcError _) => fn_subject_merge_collect f (i + 1) ts
      | .error e => .error e

/-- Elements of the list other than the one at the given index. -/
def terms_except (skip : Nat) : Nat → TermList → List Term
  | _, .nil => []
  | j, .cons t ts =>
      if j = skip then terms_except skip (j + 1) ts
      else t :: terms_except skip (j + 1) ts

/-- Collection of the merge elements usable as constructed subjects,
from the merge arm of use_term_as_constructed_subject. -/
def constructed_merge_collect (f : Term → M (ArgList × Term)) :
    TermList → M (List (ArgList × Term))
  | .nil => pure []
  | .cons t ts =>
      match f t with
      | .ok r => do pure (r :: (← constructed_merge_collect f ts))
      | .error (.tcError _) => constructed_merge_collect f ts
      | .error e => .error e

/-- Unification of each paired argument value type against its
parameter type. Modelled from the spec, section 4.5
(unify_params_with_args): pair, infer each argument value type, unify
against the parameter type, compose. -/
def unify_pairs_loop (inf : Term → M Term) (ufuel : Nat) :
    List (Param × Arg) → M SubMap
  | [] => pure []
  | (p, a) :: rest => do
      let ty ← inf a.value
      let s ← unify_terms_spec ufuel ty p.ty
      let srest ← unify_pairs_loop inf ufuel rest
      pure (s ++ srest)

/-- Parameters mirroring the arguments with inferred types. Modelled
from the spec, section 4.8 (the tuple literal case of the Typer). -/
def infer_args_as_params (inf : Term → M Term) : ArgList → M ParamList
  | .nil => pure .nil
  | .cons (.mk name value) as_ => do
      let ty ← inf value
      let rest ← infer_args_as_params inf as_
      pure (.cons (.mk name ty .none) rest)

/-- Simplification of a level-2 term, from the source
simplify_level2_term: traits and AnyTy do not simplify. -/
def simplify_level2_term (_t : Level2Term) : M (Option Term) :=
  pure Option.none

/-- Simplification of a level-3 term, from the source
simplify_level3_term: TrtKind does not simplify. -/
def simplify_level3_term (_t : Level3Term) : M (Option Term) :=
  pure Option.none

/-- Body of simplify_term over the previous interpreter level, from the
source simplify_term (the memoization cache of the source is elided: it
is keyed by the input term and transparent for a single computation). -/
def step_simplify_term (env : Env) (dfuel : Nat) (prev : Interp) :
    List Scope → Term → M (Option Term) := fun stack term =>
  match term with
  | .Merge inner => do
      let result ← prev.simplify_algebraic_term_list stack inner
        (fun t =>
          match t with
          | .Merge ts => Option.some ts
          | _ => Option.none)
      pure (result.map (fun r => Term.Merge (TermList.ofList r)))
  | .Union inner => do
      let result ← prev.simplify_algebraic_term_list stack inner
        (fun t =>
          match t with
          | .Union ts => Option.some ts
          | _ => Option.none)
      pure (result.map (fun r => Term.Union (TermList.ofList r)))
  | .SetBound t sc => do
      let simplified_inner ← prev.simplify_term (sc :: stack) t
      match simplified_inner with
      | Option.some simplified => do
          pure (Option.some
            (← potentially_apply_set_bound_to_term env dfuel sc simplified))
      | Option.none => apply_set_bound_to_term env dfuel sc t
  | .TyFnCall subject args => prev.apply_ty_fn stack subject args
  | .Access subject name op =>
      prev.apply_access_term stack ⟨subject, name, op⟩
  | .Var name => do
      let (sc, _, idx) ← resolve_name_in_scopes_spec name (.Var name) stack
      match sc.kind with
      | .Bound => do
          pure (Option.some (← pot_simplify prev stack (.BoundVar name)))
      | _ => do
          pure (Option.some (← pot_simplify prev stack (.ScopeVar name sc idx)))
  | .ScopeVar _ sc idx =>
      (match member_at sc idx with
      | Option.some member =>
          if member_is_closed_and_non_bound sc.kind member then
            match member.data.value with
            | Option.some v => do
                pure (Option.some (← pot_simplify prev stack v))
            | Option.none => pure Option.none
          else pure Option.none
      | Option.none => .error .crash)
  | .BoundVar _ => pure Option.none
  | .TyFn name gps grt cases => do
      let sgp ← prev.simplify_params stack gps
      let param_scope := make_bound_scope_spec gps
      let sgrt ← prev.simplify_term (param_scope :: stack) grt
      let scases ← simplify_cases_loop (prev.simplify_params stack)
        (fun scope t => prev.simplify_term (scope :: stack) t) cases
      let rebuilt := Term.TyFn name (sgp.getD gps) (sgrt.getD grt)
        (zip_cases scases cases)
      match sgp, sgrt with
      | Option.none, Option.none =>
          if scases.all (fun x => x.isNone) then pure Option.none
          else pure (Option.some rebuilt)
      | _, _ => pure (Option.some rebuilt)
  | .TyFnTy ps rt => do
      let sp ← prev.simplify_params stack ps
      let param_scope := make_bound_scope_spec ps
      let srt ← prev.simplify_term (param_scope :: stack) rt
      match sp, srt with
      | Option.none, Option.none => pure Option.none
      | _, _ => pure (Option.some (.TyFnTy (sp.getD ps) (srt.getD rt)))
  | .TyOf t => do
      pure (Option.some (← prev.infer_ty_of_term stack t))
  | .Unresolved _ => pure Option.none
  | .Level3 t => simplify_level3_term t
  | .Level2 t => simplify_level2_term t
  | .Level1 t => prev.simplify_level1_term stack t
  | .Level0 t => prev.simplify_level0_term stack t term
  | .Root => pure Option.none

/-- Body of apply_access_term over the previous interpreter level, from
the source apply_access_term. -/
def step_apply_access_term (env : Env) (dfuel : Nat) (prev : Interp) :
    List Scope → AccessTerm → M (Option Term) := fun stack access_term => do
  let simplified_subject ← pot_simplify prev stack access_term.subject
  let at2 : AccessTerm := { access_term with subject := simplified_subject }
  match simplified_subject with
  | .Union terms => do
      let results ← union_access_loop (prev.apply_access_term stack) at2 terms
      pure (Option.some
        (← pot_simplify prev stack (.Union (TermList.ofList results))))
  | .Merge terms => do
      let results ← merge_access_collect (prev.apply_access_term stack)
        at2 terms
      match results with
      | [] => pure Option.none
      | [single] => pure (Option.some single)
      | rs => tcErr (.AmbiguousAccess at2 rs)
  | .SetBound t sc => do
      let result ← prev.apply_access_term (sc :: stack)
        { at2 with subject := t }
      match result with
      | Option.some r => do
          pure (Option.some
            (← potentially_apply_set_bound_to_term env dfuel sc r))
      | Option.none => pure Option.none
  | .Level3 _ => does_not_support_access at2
  | .Level2 l2 => prev.apply_access_to_level2_term stack l2 at2
  | .Level1 l1 => prev.apply_access_to_level1_term stack l1 at2
  | .Level0 l0 =>
      prev.apply_access_to_level0_term stack l0 at2 simplified_subject
  | .TyFn _ _ _ _ => does_not_support_access at2
  | .TyFnTy _ _ => does_not_support_access at2
  | .Root => does_not_support_access at2
  | .TyOf _ => does_not_support_access at2
  | .Unresolved _ => does_not_support_access at2
  | .BoundVar _ => pure Option.none
  | .ScopeVar _ _ _ => pure Option.none
  | .Access _ _ _ => pure Option.none
  | .Var _ => pure Option.none
  | .TyFnCall _ _ => pure Option.none

/-- Wrapping of a successful case: the SetBound scope is built from the
matched parameter-argument pairs and applied to the case return value,
from the success arm of the case loop of apply_ty_fn. -/
def ty_fn_case_wrap (env : Env) (dfuel : Nat) (args : ArgList)
    (ps : ParamList) (rv : Term) : M Term := do
  let scope ← make_set_bound_scope_spec ps args
  potentially_apply_set_bound_to_term env dfuel scope rv

/-- Body of apply_ty_fn over the previous interpreter level, from the
source apply_ty_fn. -/
def step_apply_ty_fn (env : Env) (dfuel : Nat) (prev : Interp) :
    List Scope → Term → ArgList → M (Option Term) := fun stack subject args => do
  let pss ← prev.simplify_term stack subject
  let subject_simplified := pss.isSome
  let simplified_subject := pss.getD subject
  let simplify_args_branch : M (Option Term) := do
    let sargs ← prev.simplify_args stack args
    match sargs with
    | Option.some args2 =>
        pure (Option.some (.TyFnCall simplified_subject args2))
    | Option.none =>
        if subject_simplified then
          pure (Option.some (.TyFnCall simplified_subject args))
        else pure Option.none
  match simplified_subject with
  | .TyFn _ general_params _ cases => do
      let _ ← prev.unify_params_with_args stack general_params args
      let (errors, results) ← apply_ty_fn_cases_loop
        (fun ps => prev.unify_params_with_args stack ps args)
        (ty_fn_case_wrap env dfuel args)
        cases
      match results with
      | [] =>
          tcErr (.InvalidTyFnApplication simplified_subject cases args errors)
      | _ => pure (Option.some (.Merge (TermList.ofList results)))
  | .Unresolved _ => tcErr (.UnsupportedTyFnApplication simplified_subject)
  | .Merge _ => tcErr (.UnsupportedTyFnApplication simplified_subject)
  | .SetBound _ _ => tcErr (.UnsupportedTyFnApplication simplified_subject)
  | .Union _ => tcErr (.UnsupportedTyFnApplication simplified_subject)
  | .Root => tcErr (.UnsupportedTyFnApplication simplified_subject)
  | .TyFnTy _ _ => tcErr (.UnsupportedTyFnApplication simplified_subject)
  | .Level3 _ => tcErr (.UnsupportedTyFnApplication simplified_subject)
  | .Level2 _ => tcErr (.UnsupportedTyFnApplication simplified_subject)
  | .Level1 _ => tcErr (.UnsupportedTyFnApplication simplified_subject)
  | .Level0 _ => tcErr (.UnsupportedTyFnApplication simplified_subject)
  | .ScopeVar _ _ _ => tcErr (.UnsupportedTyFnApplication simplified_subject)
  | .BoundVar _ => tcErr (.UnsupportedTyFnApplication simplified_subject)
  | .TyOf _ => tcErr (.UnsupportedTyFnApplication simplified_subject)
  | .Access _ _ _ => simplify_args_branch
  | .Var _ => simplify_args_branch
  | .TyFnCall _ _ => simplify_args_branch

/-- Body of apply_access_to_level0_term over the previous interpreter
level, from the source apply_access_to_level0_term. -/
def step_apply_access_to_level0_term (_env : Env) (_dfuel : Nat)
    (prev : Interp) :
    List Scope → Level0Term → AccessTerm → Term → M (Option Term) :=
  fun stack l0 at_ originating =>
  match l0 with
  | .Rt ty_term => do
      does_not_support_ns_access at_
      let fallback : M (Option Term) := do
        let ty_of_ty ← prev.infer_ty_of_term stack ty_term
        let accessed ← prev.apply_access_term stack
          ⟨ty_of_ty, at_.name, .Namespace⟩
        match accessed with
        | Option.some ar => do
            pure (Option.some
              (← prev.turn_accessed_ty_and_subject_ty_into_method stack
                ar ty_term at_.subject at_.name))
        | Option.none => name_not_found at_
      match ← prev.access_struct_or_tuple_field stack ty_term at_.name with
      | Option.some access_result => pure (Option.some access_result)
      | Option.none =>
          match prev.apply_access_term stack
              ⟨ty_term, at_.name, .Namespace⟩ with
          | .ok (Option.some tar) => do
              let ty_of ← prev.infer_ty_of_term stack tar
              pure (Option.some
                (← prev.turn_accessed_ty_and_subject_ty_into_method stack
                  ty_of ty_term at_.subject at_.name))
          | .ok Option.none => fallback
          | .error (.tcError _) => fallback
          | .error e => .error e
  | .EnumVariant _ _ => does_not_support_access at_
  | .FnLit _ _ => does_not_support_access at_
  | .FnCall _ _ => .error .crash
  | .Tuple members =>
      (match ArgList.get_by_name members at_.name with
      | Option.some (_, member) => pure (Option.some member.value)
      | Option.none => name_not_found at_)
  | .Constructed _ members =>
      (match ArgList.get_by_name members at_.name with
      | Option.some (_, member) => pure (Option.some member.value)
      | Option.none => name_not_found at_)
  | .Lit _ => do
      let ty ← prev.infer_ty_of_term stack originating
      prev.apply_access_to_level0_term stack (.Rt ty) at_ (.Level0 (.Rt ty))

/-- Body of apply_access_to_level1_term over the previous interpreter
level, from the source apply_access_to_level1_term. -/
def step_apply_access_to_level1_term (env : Env) (_dfuel : Nat)
    (prev : Interp) : List Scope → Level1Term → AccessTerm → M (Option Term) :=
  fun stack l1 at_ =>
  match l1 with
  | .ModDef mod_def_id => do
      does_not_support_prop_access at_
      match env.mod_defs.get? mod_def_id with
      | Option.none => .error .crash
      | Option.some md =>
          match prev.simplify_term (md.members :: stack) (.Var at_.name) with
          | .error (.tcError e) =>
              .error (.tcError (turn_unresolved_var_err at_ e))
          | .error e => .error e
          | .ok r => pure r
  | .NominalDef nominal_def_id =>
      (match env.nominal_defs.get? nominal_def_id with
      | Option.none => .error .crash
      | Option.some (.Struct _ _) => does_not_support_access at_
      | Option.some (.Enum _ variants) => do
          does_not_support_prop_access at_
          match variants.find? (fun v => v.1 == at_.name) with
          | Option.some v =>
              pure (Option.some (.Level0 (.EnumVariant nominal_def_id v.1)))
          | Option.none => name_not_found at_)
  | .Tuple _ => does_not_support_access at_
  | .Fn _ _ => does_not_support_access at_

/-- Body of apply_access_to_level2_term over the previous interpreter
level, from the source apply_access_to_level2_term. -/
def step_apply_access_to_level2_term (env : Env) (_dfuel : Nat)
    (prev : Interp) : List Scope → Level2Term → AccessTerm → M (Option Term) :=
  fun stack l2 at_ =>
  match l2 with
  | .Trt trt_def_id => do
      does_not_support_prop_access at_
      match env.trt_defs.get? trt_def_id with
      | Option.none => .error .crash
      | Option.some td =>
          match prev.infer_ty_of_term (td.members :: stack) (.Var at_.name) with
          | .error (.tcError e) =>
              .error (.tcError (turn_unresolved_var_err at_ e))
          | .error e => .error e
          | .ok r => pure (Option.some r)
  | .AnyTy => does_not_support_access at_

/-- Body of access_struct_or_tuple_field over the previous interpreter
level, from the source access_struct_or_tuple_field. -/
def step_access_struct_or_tuple_field (env : Env) (dfuel : Nat)
    (prev : Interp) : List Scope → Term → String → M (Option Term) :=
  fun stack t field_name =>
  match t with
  | .SetBound inner sc => do
      let result ← prev.access_struct_or_tuple_field (sc :: stack)
        inner field_name
      match result with
      | Option.some r => do
          pure (Option.some
            (← potentially_apply_set_bound_to_term env dfuel sc r))
      | Option.none => pure Option.none
  | .Merge terms =>
      first_some_access
        (fun u => prev.access_struct_or_tuple_field stack u field_name) terms
  | .Level1 (.NominalDef id) =>
      (match env.nominal_defs.get? id with
      | Option.none => .error .crash
      | Option.some (.Struct _ (.Explicit fields)) =>
          (match ParamList.get_by_name fields field_name with
          | Option.some (_, param) =>
              pure (Option.some (.Level0 (.Rt param.ty)))
          | Option.none => pure Option.none)
      | Option.some _ => pure Option.none)
  | .Level1 (.Tuple params) =>
      (match ParamList.get_by_name params field_name with
      | Option.some (_, param) => pure (Option.some (.Level0 (.Rt param.ty)))
      | Option.none => pure Option.none)
  | _ => pure Option.none

/-- Body of turn_accessed_ty_and_subject_ty_into_method, from the
source function of the same name: the accessed type must be a function
type with at least one parameter, the first parameter type is unified
with the subject type, the substitution is applied to the parameters,
and the result is a runtime term of the function type without the first
parameter. The substituted return type is computed but the returned
function type carries the original return type, exactly as the source
does. -/
def step_turn_accessed (_env : Env) (dfuel : Nat) (_prev : Interp) :
    List Scope → Term → Term → Term → String → M Term :=
  fun _ accessed_ty subject_ty initial_subject_term initial_property_name =>
  match term_is_fn_ty_spec accessed_ty with
  | Option.some (params, return_ty) =>
      (match params with
      | .nil =>
          tcErr (.InvalidPropertyAccessOfNonMethod initial_subject_term
            initial_property_name)
      | .cons first_param _ => do
          let sub ← unify_terms_spec dfuel subject_ty first_param.ty
          let subbed_params := apply_sub_to_params_spec sub params
          let _subbed_return_ty := apply_sub_to_term_spec sub return_ty
          pure (.Level0 (.Rt (.Level1
            (.Fn subbed_params.drop_first return_ty)))))
  | Option.none =>
      tcErr (.InvalidPropertyAccessOfNonMethod initial_subject_term
        initial_property_name)

/-- Body of simplify_level0_term over the previous interpreter level,
from the source simplify_level0_term. -/
def step_simplify_level0_term (_env : Env) (_dfuel : Nat) (prev : Interp) :
    List Scope → Level0Term → Term → M (Option Term) :=
  fun stack l0 originating =>
  match l0 with
  | .Rt inner => do
      pure ((← prev.simplify_term stack inner).map
        (fun r => Term.Level0 (.Rt r)))
  | .FnLit fn_ty rv => do
      match ← prev.simplify_term stack fn_ty with
      | Option.none => pure Option.none
      | Option.some s => pure (Option.some (.Level0 (.FnLit s rv)))
  | .EnumVariant _ _ => pure Option.none
  | .FnCall subject args =>
      if is_term_constructable subject then do
        let ss ← pot_simplify prev stack subject
        let (members, csubject) ←
          prev.use_term_as_constructed_subject stack ss args originating
        pure (Option.some (.Level0 (.Constructed csubject members)))
      else do
        let ss ← pot_simplify prev stack subject
        let (fparams, fret) ← prev.use_term_as_fn_call_subject stack ss
        let params_sub ← prev.unify_params_with_args stack fparams args
        pure (Option.some
          (.Level0 (.Rt (apply_sub_to_term_spec params_sub fret))))
  | .Tuple members => do
      match ← prev.simplify_args stack members with
      | Option.some ms => pure (Option.some (.Level0 (.Tuple ms)))
      | Option.none => pure Option.none
  | .Lit _ => pure Option.none
  | .Constructed subject members => do
      let ss ← prev.simplify_term stack subject
      let sm ← prev.simplify_args stack members
      if ss.isSome || sm.isSome then
        pure (Option.some
          (.Level0 (.Constructed (ss.getD subject) (sm.getD members))))
      else pure Option.none

/-- Body of simplify_level1_term over the previous interpreter level,
from the source simplify_level1_term. -/
def step_simplify_level1_term (_env : Env) (_dfuel : Nat) (prev : Interp) :
    List Scope → Level1Term → M (Option Term) := fun stack l1 =>
  match l1 with
  | .ModDef _ => pure Option.none
  | .NominalDef _ => pure Option.none
  | .Tuple members => do
      pure ((← prev.simplify_params stack members).map
        (fun ms => Term.Level1 (.Tuple ms)))
  | .Fn params return_ty => do
      let sp ← prev.simplify_params stack params
      let sr ← prev.simplify_term stack return_ty
      match sp, sr with
      | Option.none, Option.none => pure Option.none
      | _, _ =>
          pure (Option.some
            (.Level1 (.Fn (sp.getD params) (sr.getD return_ty))))

/-- Body of simplify_args over the previous interpreter level, from the
source simplify_args. -/
def step_simplify_args (_env : Env) (_dfuel : Nat) (prev : Interp) :
    List Scope → ArgList → M (Option ArgList) := fun stack args => do
  let (result, flag) ← simplify_args_loop (prev.simplify_term stack) args
  if flag then pure (Option.some result) else pure Option.none

/-- Body of simplify_params over the previous interpreter level, from
the source simplify_params. -/
def step_simplify_params (_env : Env) (_dfuel : Nat) (prev : Interp) :
    List Scope → ParamList → M (Option ParamList) := fun stack params => do
  let (result, flag) ← simplify_params_loop (prev.simplify_term stack) params
  if flag then pure (Option.some result) else pure Option.none

/-- Body of simplify_algebraic_term_list over the previous interpreter
level, from the source simplify_algebraic_term_list: flatten nested
lists of the same kind while simplifying each element, then drop
elements equal to an earlier one. -/
def step_simplify_algebraic_term_list (_env : Env) (_dfuel : Nat)
    (prev : Interp) :
    List Scope → TermList → (Term → Option TermList) → M (Option (List Term)) :=
  fun stack terms is_nested => do
  let (f1, flattened) ← flatten_simplify_loop (prev.simplify_term stack)
    is_nested terms
  let (f2, result) := drop_later_equals terms_are_equal [] flattened
  if f1 || f2 then pure (Option.some result) else pure Option.none

/-- Body of use_term_as_fn_call_subject over the previous interpreter
level, from the source use_term_as_fn_call_subject. -/
def step_use_term_as_fn_call_subject (env : Env) (dfuel : Nat)
    (prev : Interp) : List Scope → Term → M (ParamList × Term) :=
  fun stack t =>
  match t with
  | .Merge terms => do
      let results ← fn_subject_merge_collect
        (prev.use_term_as_fn_call_subject stack) 0 terms
      match results with
      | [] => tcErr (.InvalidCallSubject t)
      | [(i, params, return_ty)] =>
          pure (params,
            Term.Merge (TermList.ofList (return_ty :: terms_except i 0 terms)))
      | _ => .error .crash
  | .SetBound inner sc => do
      let (params, return_ty) ←
        prev.use_term_as_fn_call_subject (sc :: stack) inner
      let params2 ← apply_set_bound_to_params env dfuel sc params
      let return2 ← potentially_apply_set_bound_to_term env dfuel sc return_ty
      pure (params2, return2)
  | .Unresolved _ => tcErr (.InvalidCallSubject t)
  | .Level0 l0 =>
      (match l0 with
      | .Rt (.Level1 (.Fn ps rt)) => pure (ps, rt)
      | .Rt _ => tcErr (.InvalidCallSubject t)
      | .FnLit fn_ty _ =>
          (match fn_ty with
          | .Level1 (.Fn ps rt) => pure (ps, rt)
          | _ => .error .crash)
      | .EnumVariant eid vname =>
          (match env.nominal_defs.get? eid with
          | Option.some (.Enum _ variants) =>
              (match variants.find? (fun v => v.1 == vname) with
              | Option.some v => pure (v.2, Term.Level1 (.NominalDef eid))
              | Option.none => .error .crash)
          | Option.some (.Struct _ _) => .error .crash
          | Option.none => .error .crash)
      | .FnCall _ _ => .error .crash
      | .Lit _ => tcErr (.InvalidCallSubject t)
      | .Tuple _ => tcErr (.InvalidCallSubject t)
      | .Constructed _ _ => tcErr (.InvalidCallSubject t))
  | _ => tcErr (.InvalidCallSubject t)

/-- Body of use_term_as_constructed_subject over the previous
interpreter level, from the source use_term_as_constructed_subject. -/
def step_use_term_as_constructed_subject (env : Env) (dfuel : Nat)
    (prev : Interp) : List Scope → Term → ArgList → Term → M (ArgList × Term) :=
  fun stack t args args_subject =>
  match t with
  | .Merge terms => do
      let results ← constructed_merge_collect
        (fun u => prev.use_term_as_constructed_subject stack u args
          args_subject) terms
      match results with
      | [] => tcErr (.InvalidCallSubject t)
      | [(members, _)] => pure (members, t)
      | _ => .error .crash
  | .SetBound inner sc => do
      let (members, csubject) ←
        prev.use_term_as_constructed_subject (sc :: stack) inner args t
      let members2 ← apply_set_bound_to_args env dfuel sc members
      let csubject2 ← potentially_apply_set_bound_to_term env dfuel sc csubject
      pure (members2, csubject2)
  | .Level1 (.NominalDef id) =>
      (match env.nominal_defs.get? id with
      | Option.none => .error .crash
      | Option.some (.Struct _ (.Explicit params)) => do
          let members ← infer_args_from_params_spec args params
          pure (members, t)
      | Option.some (.Struct _ .Opaque) => tcErr (.InvalidCallSubject t)
      | Option.some (.Enum _ _) => tcErr (.InvalidCallSubject t))
  | _ => tcErr (.InvalidCallSubject t)

/-- Type inference over the previous interpreter level. Modelled from
the spec, section 4.8 (the Typer is not part of the snapshot): every
listed case is implemented; unlisted cases abort. The literal class
nominal is modelled as definition 0. -/
def step_infer_ty_of_term (env : Env) (_dfuel : Nat) (prev : Interp) :
    List Scope → Term → M Term := fun stack t =>
  match t with
  | .Level0 (.Lit _) => pure (.Level1 (.NominalDef 0))
  | .Level0 (.Rt ty) => pure ty
  | .Level0 (.FnLit fn_ty _) => pure fn_ty
  | .Level0 (.Tuple args) => do
      let ps ← infer_args_as_params (prev.infer_ty_of_term stack) args
      pure (.Level1 (.Tuple ps))
  | .Level0 (.Constructed subject _) => pure subject
  | .Level0 (.EnumVariant eid _) => pure (.Level1 (.NominalDef eid))
  | .Level0 (.FnCall _ _) => .error .crash
  | .Level1 (.ModDef id) =>
      (match env.mod_defs.get? id with
      | Option.some md =>
          (match md.origin with
          | .TrtImpl trt => pure trt
          | _ => pure (.Level2 .AnyTy))
      | Option.none => .error .crash)
  | .Level1 _ => pure (.Level2 .AnyTy)
  | .Level2 _ => pure (.Level3 .TrtKind)
  | .Level3 _ => pure .Root
  | .TyFn _ gps grt _ => pure (.TyFnTy gps grt)
  | .TyFnCall subject args => do
      let s ← prev.simplify_term stack (.TyFnCall subject args)
      match s with
      | Option.some r => prev.infer_ty_of_term stack r
      | Option.none => .error .crash
  | .SetBound inner sc => do
      let ity ← prev.infer_ty_of_term (sc :: stack) inner
      pure (.SetBound ity sc)
  | .Var name => do
      let (_, member, _) ← resolve_name_in_scopes_spec name t stack
      (match member.data.ty with
      | Option.some ty => pure ty
      | Option.none =>
          match member.data.value with
          | Option.some v => prev.infer_ty_of_term stack v
          | Option.none => .error .crash)
  | .ScopeVar _ sc idx =>
      (match member_at sc idx with
      | Option.some member =>
          (match member.data.ty with
          | Option.some ty => pure ty
          | Option.none =>
              match member.data.value with
              | Option.some v => prev.infer_ty_of_term stack v
              | Option.none => .error .crash)
      | Option.none => .error .crash)
  | _ => .error .crash

/-- Parameter-argument unification over the previous interpreter level.
Modelled from the spec, section 4.5 (unify_params_with_args): pair per
section 4.4, then unify each inferred argument value type against its
parameter type. -/
def step_unify_params_with_args (_env : Env) (dfuel : Nat) (prev : Interp) :
    List Scope → ParamList → ArgList → M SubMap := fun stack params args =>
  match pair_args_with_params params.toList args.toList with
  | .ok pairs => unify_pairs_loop (prev.infer_ty_of_term stack) dfuel pairs
  | .error e => .error e

/-- Fuel-indexed interpreter of the simplifier: level fuel + 1 stands
each recursive call of the transcribed bodies on the level below;
level 0 aborts with the fuel artifact. dfuel bounds the discoverer-side
set-bound application and the spec-modelled unifier, independently of
the interpreter level. -/
def S (env : Env) (dfuel : Nat) : Nat → Interp
  | 0 => noFuelInterp
  | n + 1 =>
      let prev := S env dfuel n
      { simplify_term := step_simplify_term env dfuel prev
        apply_access_term := step_apply_access_term env dfuel prev
        apply_ty_fn := step_apply_ty_fn env dfuel prev
        apply_access_to_level0_term :=
          step_apply_access_to_level0_term env dfuel prev
        apply_access_to_level1_term :=
          step_apply_access_to_level1_term env dfuel prev
        apply_access_to_level2_term :=
          step_apply_access_to_level2_term env dfuel prev
        access_struct_or_tuple_field :=
          step_access_struct_or_tuple_field env dfuel prev
        turn_accessed_ty_and_subject_ty_into_method :=
          step_turn_accessed env dfuel prev
        simplify_level0_term := step_simplify_level0_term env dfuel prev
        simplify_level1_term := step_simplify_level1_term env dfuel prev
        simplify_args := step_simplify_args env dfuel prev
        simplify_params := step_simplify_params env dfuel prev
        simplify_algebraic_term_list :=
          step_simplify_algebraic_term_list env dfuel prev
        use_term_as_fn_call_subject :=
          step_use_term_as_fn_call_subject env dfuel prev
        use_term_as_constructed_subject :=
          step_use_term_as_constructed_subject env dfuel prev
        infer_ty_of_term := step_infer_ty_of_term env dfuel prev
        unify_params_with_args := step_unify_params_with_args env dfuel prev }

/-- Top-level simplification entry point: the interpreter at the given
fuel, with an empty scope stack, from the source simplify_term. -/
def simplify_term (env : Env) (fuel : Nat) (t : Term) : M (Option Term) :=
  (S env fuel fuel).simplify_term [] t

/-- Top-level simplification returning the original term when
unchanged, from the source potentially_simplify_term. -/
def potentially_simplify_term (env : Env) (fuel : Nat) (t : Term) : M Term :=
  pot_simplify (S env fuel fuel) [] t

theorem collect_default_params_ok_eq {params : List Param} {dp : List String}
    (h : collect_default_params params = .ok dp) : dp = default_param_names params := by
  induction params generalizing dp with
  | nil =>
      simp only [collect_default_params, pure, Except.pure, Except.ok.injEq] at h
      simp [default_param_names, ← h]
  | cons p ps ih =>
      rw [collect_default_params] at h
      match hd : p.default_value with
      | .some t =>
          rw [hd] at h
          match hn : p.name with
          | Option.none => rw [hn] at h; exact absurd h (by simp)
          | Option.some n =>
              rw [hn] at h
              match hrest : collect_default_params ps with
              | .error e => rw [hrest] at h; exact absurd h (by simp [Bind.bind, Except.bind])
              | .ok rest =>
                  rw [hrest] at h
                  simp only [Bind.bind, Except.bind, pure, Except.pure, Except.ok.injEq] at h
                  rw [default_param_names, hd, hn]
                  rw [ih hrest] at h
                  simp [← h]
      | .none =>
          rw [hd] at h
          rw [default_param_names, hd]
          match hn : p.name with
          | Option.none => exact ih h
          | Option.some n => exact ih h

theorem default_param_names_nodup (params : List Param) :
    (default_param_names params).Nodup := by
  induction params with
  | nil => simp [default_param_names]
  | cons p ps ih =>
      rw [default_param_names]
      rcases hd : p.default_value with _ | t
      · exact ih
      · rcases hn : p.name with _ | n
        · exact ih
        · by_cases hmem : n ∈ default_param_names ps
          · simpa [hmem] using ih
          · simp only [hmem, if_false]
            exact List.nodup_cons.mpr ⟨hmem, ih⟩

theorem erase_eq_filter_of_nodup (l : List String) (hl : l.Nodup) (a : String) :
    l.erase a = l.filter (fun x => !(x == a)) := by
  induction l with
  | nil => simp
  | cons x xs ih =>
      rcases List.nodup_cons.mp hl with ⟨hx, hxs⟩
      by_cases hxa : x = a
      · subst hxa
        rw [List.erase_cons_head]
        rw [List.filter_cons_of_neg (by simp)]
        symm
        apply List.filter_eq_self.mpr
        intro y hy
        simp only [Bool.not_eq_true', beq_eq_false_iff_ne, ne_eq]
        exact fun h => hx (h ▸ hy)
      · rw [List.erase_cons_tail (by simpa using hxa)]
        rw [List.filter_cons_of_pos (by simpa using hxa)]
        rw [ih hxs]

theorem pair_args_loop_nil (params : List Param) (k : Nat) (st : PairArgsState) :
    pair_args_loop params [] k st = .ok st := rfl

theorem pair_args_loop_defaults (params : List Param) :
    ∀ (xs : List Arg) (k : Nat) (st st' : PairArgsState),
      st.default_params.Nodup →
      pair_args_loop params xs k st = .ok st' →
      st'.default_params
        = st.default_params.filter (fun n => !args_supply_from params k xs n) := by
  intro xs
  induction xs with
  | nil =>
      intro k st st' _hnd h
      rw [pair_args_loop_nil] at h
      cases h
      simp [args_supply_from]
  | cons arg rest ih =>
      intro k st st' hnd h
      rw [pair_args_loop] at h
      rcases harg : Arg.get_name_opt arg with _ | arg_name
      · rw [harg] at h
        simp only at h
        rcases hdone : st.done_positional
        · rw [hdone] at h
          simp only [Bool.false_eq_true, if_false] at h
          by_cases hused : k ∈ st.used_params
          · rw [if_pos hused] at h
            exact absurd h (by simp [tcErr])
          · rw [if_neg hused] at h
            rcases hget : params.get? k with _ | param
            · rw [hget] at h
              simp only at h
              exact absurd h (by simp)
            · have hget' : params[k]? = some param := by simpa using hget
              rw [hget] at h
              simp only at h
              rcases hpn : param.name with _ | pname
              · rw [hpn] at h
                simp only at h
                have := ih (k + 1) _ _ (by simpa using hnd) h
                simp only at this
                rw [this]
                apply List.filter_congr
                intro n _hn
                simp [args_supply_from, arg_supplies_at, harg, hget', hpn]
              · rw [hpn] at h
                simp only at h
                have hnd2 : (st.default_params.erase pname).Nodup := hnd.erase pname
                have := ih (k + 1) _ _ (by simpa using hnd2) h
                simp only at this
                rw [this]
                rw [erase_eq_filter_of_nodup _ hnd pname]
                rw [List.filter_filter]
                apply List.filter_congr
                intro n _hn
                by_cases hne : n = pname
                · simp [hne, args_supply_from, arg_supplies_at, harg, hget', hpn]
                · have hb1 : (n == pname) = false := beq_eq_false_iff_ne.mpr hne
                  have hb2 : (pname == n) = false :=
                    beq_eq_false_iff_ne.mpr (Ne.symm hne)
                  simp [args_supply_from, arg_supplies_at, harg, hget', hpn,
                    hb1, hb2]
        · rw [hdone] at h
          simp only [if_true] at h
          exact absurd h (by simp [tcErr])
      · rw [harg] at h
        simp only at h
        rcases hget : get_param_by_name params arg_name with _ | ip
        · rw [hget] at h
          simp only at h
          exact absurd h (by simp [tcErr])
        · rcases ip with ⟨index, param⟩
          rw [hget] at h
          simp only at h
          by_cases hused : index ∈ st.used_params
          · rw [if_pos hused] at h
            exact absurd h (by simp [tcErr])
          · rw [if_neg hused] at h
            have hnd2 : (st.default_params.erase arg_name).Nodup := hnd.erase arg_name
            have := ih (k + 1) _ _ (by simpa using hnd2) h
            simp only at this
            rw [this]
            rw [erase_eq_filter_of_nodup _ hnd arg_name]
            rw [List.filter_filter]
            apply List.filter_congr
            intro n _hn
            by_cases hne : n = arg_name
            · simp [hne, args_supply_from, arg_supplies_at, harg]
            · have hb1 : (n == arg_name) = false := beq_eq_false_iff_ne.mpr hne
              have hb2 : (arg_name == n) = false :=
                beq_eq_false_iff_ne.mpr (Ne.symm hne)
              simp [args_supply_from, arg_supplies_at, harg, hb1, hb2]

theorem pair_args_loop_done_positional (params : List Param) :
    ∀ (xs : List Arg) (k : Nat) (st st' : PairArgsState),
      pair_args_loop params xs k st = .ok st' →
      (st.done_positional = true ∨ ∃ a ∈ xs, (Arg.get_name_opt a).isSome) →
      st'.done_positional = true := by
  intro xs
  induction xs with
  | nil =>
      intro k st st' h hyp
      rw [pair_args_loop_nil] at h
      cases h
      rcases hyp with hd | ⟨a, ha, _⟩
      · exact hd
      · exact absurd ha (by simp)
  | cons arg rest ih =>
      intro k st st' h hyp
      rw [pair_args_loop] at h
      rcases harg : Arg.get_name_opt arg with _ | arg_name
      · rw [harg] at h
        simp only at h
        rcases hdone : st.done_positional
        · rw [hdone] at h
          simp only [Bool.false_eq_true, if_false] at h
          by_cases hused : k ∈ st.used_params
          · rw [if_pos hused] at h
            exact absurd h (by simp [tcErr])
          · rw [if_neg hused] at h
            rcases hget : params.get? k with _ | param
            · rw [hget] at h
              simp only at h
              exact absurd h (by simp)
            · rw [hget] at h
              simp only at h
              apply ih (k + 1) _ _ h
              rcases hyp with hd | ⟨a, ha, hs⟩
              · rw [hdone] at hd; exact absurd hd (by simp)
              · rcases List.mem_cons.mp ha with rfl | hmem
                · rw [harg] at hs; exact absurd hs (by simp)
                · exact Or.inr ⟨a, hmem, hs⟩
        · rw [hdone] at h
          simp only [if_true] at h
          exact absurd h (by simp [tcErr])
      · rw [harg] at h
        simp only at h
        rcases hget : get_param_by_name params arg_name with _ | ip
        · rw [hget] at h
          simp only at h
          exact absurd h (by simp [tcErr])
        · rcases ip with ⟨index, param⟩
          rw [hget] at h
          simp only at h
          by_cases hused : index ∈ st.used_params
          · rw [if_pos hused] at h
            exact absurd h (by simp [tcErr])
          · rw [if_neg hused] at h
            exact ih (k + 1) _ _ h (Or.inl rfl)

theorem pair_args_loop_append (params : List Param) (xs ys : List Arg) :
    ∀ (k : Nat) (st : PairArgsState),
      pair_args_loop params (xs ++ ys) k st
        = match pair_args_loop params xs k st with
          | .ok st' => pair_args_loop params ys (k + xs.length) st'
          | .error e => .error e := by
  induction xs with
  | nil => intro k st; simp [pair_args_loop_nil]
  | cons arg rest ih =>
      intro k st
      rw [List.cons_append, pair_args_loop]
      conv_rhs => rw [pair_args_loop]
      rcases harg : Arg.get_name_opt arg with _ | arg_name
      · simp only
        rcases hdone : st.done_positional
        · simp only [Bool.false_eq_true, if_false]
          by_cases hused : k ∈ st.used_params
          · rw [if_pos hused, if_pos hused]; rfl
          · rw [if_neg hused, if_neg hused]
            rcases hget : params.get? k with _ | param
            · rfl
            · simp only
              rw [ih]
              have hlen : k + 1 + rest.length = k + (arg :: rest).length := by
                simp [List.length_cons]; omega
              rw [hlen]
        · simp only [if_true]; rfl
      · simp only
        rcases hget : get_param_by_name params arg_name with _ | ip
        · rfl
        · rcases ip with ⟨index, param⟩
          simp only
          by_cases hused : index ∈ st.used_params
          · rw [if_pos hused, if_pos hused]; rfl
          · rw [if_neg hused, if_neg hused]
            rw [ih]
            have hlen : k + 1 + rest.length = k + (arg :: rest).length := by
              simp [List.length_cons]; omega
            rw [hlen]

theorem collect_default_params_crash {params : List Param}
    (h : ∃ p ∈ params, p.name = Option.none ∧ p.default_value ≠ OptTerm.none) :
    collect_default_params params = .error .crash := by
  induction params with
  | nil =>
      rcases h with ⟨p, hp, _⟩
      exact absurd hp (by simp)
  | cons q ps ih =>
      rw [collect_default_params]
      rcases h with ⟨p, hp, hname, hdef⟩
      rcases List.mem_cons.mp hp with rfl | hmem
      · rcases hd : p.default_value with _ | t
        · exact absurd hd hdef
        · simp [hd, hname]
      · rcases hd : q.default_value with _ | t
        · simp only [hd]
          exact ih ⟨p, hmem, hname, hdef⟩
        · rcases hn : q.name with _ | n
          · simp [hd, hn]
          · simp [hd, hn, ih ⟨p, hmem, hname, hdef⟩, Bind.bind, Except.bind]

/-- Claim C10: pair_args_with_params requires, as an unchecked
precondition, that every parameter carrying a default value is named;
when some parameter has a default value but no name, the operation
panics (the unwrap on the missing name) instead of returning a TcError,
for any argument list. -/
theorem pair_args_with_params_panics_on_unnamed_default
    (params : List Param) (args : List Arg)
    (h : ∃ p ∈ params, p.name = Option.none ∧ p.default_value ≠ OptTerm.none) :
    pair_args_with_params params args = .error .crash := by
  simp only [pair_args_with_params, collect_default_params_crash h,
    Bind.bind, Except.bind]

/-- Witness for claim C10 at a concrete input: a single unnamed
parameter with a default value makes the pairing panic on the empty
argument list. -/
theorem pair_args_with_params_panics_on_unnamed_default_witness :
    pair_args_with_params [Param.mk Option.none Term.Root (OptTerm.some Term.Root)] []
      = .error .crash :=
  pair_args_with_params_panics_on_unnamed_default _ _
    ⟨Param.mk Option.none Term.Root (OptTerm.some Term.Root), by simp, rfl,
      fun hx => nomatch hx⟩

/-- Claim C7: for every argument list in which a positional argument at
index i occurs after some named argument, and all arguments before index
i pair without error (the walking loop reaches index i), the pairing
fails with AmbiguousArgumentOrdering at index i. -/
theorem pair_args_ambiguous_ordering_after_named
    (params : List Param) (args : List Arg) (i : Nat) (arg : Arg)
    (dp : List String) (st : PairArgsState)
    (hdp : collect_default_params params = .ok dp)
    (hpre : pair_args_loop params (args.take i) 0 ⟨[], dp, false, []⟩ = .ok st)
    (hi : args.get? i = some arg)
    (hpos : arg.get_name_opt = Option.none)
    (hnamed : ∃ a ∈ args.take i, (Arg.get_name_opt a).isSome) :
    pair_args_with_params params args
      = tcErr (.AmbiguousArgumentOrdering .Args i) := by
  have hilen : i < args.length := by
    by_contra hge
    rw [List.get?_eq_none.mpr (Nat.le_of_not_lt hge)] at hi
    exact absurd hi (by simp)
  have htd : args.take i ++ args.drop i = args := List.take_append_drop i args
  have hgete : args[i] = arg := by
    have := hi
    rw [List.get?_eq_getElem? ] at this
    exact (List.getElem?_eq_some_iff.mp this).choose_spec
  have hdrop : args.drop i = arg :: args.drop (i + 1) := by
    rw [List.drop_eq_getElem_cons hilen, hgete]
  have hdone : st.done_positional = true :=
    pair_args_loop_done_positional params (args.take i) 0 _ st hpre
      (Or.inr hnamed)
  have htake_len : (args.take i).length = i := by
    rw [List.length_take]
    exact Nat.min_eq_left (Nat.le_of_lt hilen)
  simp only [pair_args_with_params, hdp, Bind.bind, Except.bind]
  rw [← htd, pair_args_loop_append, hpre, htake_len, hdrop]
  simp only [pair_args_loop, hpos, hdone, if_true, tcErr, Nat.zero_add]

/-- Witness for claim C7 at a concrete input: one named argument
followed by a positional one triggers AmbiguousArgumentOrdering at
index 1. -/
theorem pair_args_ambiguous_ordering_after_named_witness :
    pair_args_with_params
        [Param.mk (Option.some "a") Term.Root OptTerm.none,
         Param.mk (Option.some "b") Term.Root OptTerm.none]
        [Arg.mk (Option.some "a") Term.Root, Arg.mk Option.none Term.Root]
      = tcErr (.AmbiguousArgumentOrdering .Args 1) :=
  pair_args_ambiguous_ordering_after_named _ _ 1 (Arg.mk Option.none Term.Root)
    []
    ⟨[0], [], true,
      [(Param.mk (Option.some "a") Term.Root OptTerm.none,
        Arg.mk (Option.some "a") Term.Root)]⟩
    rfl rfl rfl rfl
    ⟨Arg.mk (Option.some "a") Term.Root, by simp [List.take], rfl⟩

/-- Counterexample for claim C4: with one parameter and two positional
arguments, no ParamGivenTwice, ParamNotFound or
AmbiguousArgumentOrdering error arises, the arity does not match, yet
the pairing panics (out-of-range slot unwrap) instead of returning
MismatchingArgParamLength. -/
theorem pair_args_arity_counterexample :
    pair_args_with_params [Param.mk (Option.some "a") Term.Root OptTerm.none]
        [Arg.mk Option.none Term.Root, Arg.mk Option.none Term.Root]
      = .error .crash
    ∧ (Except.error Fail.crash : M (List (Param × Arg)))
        ≠ tcErr .MismatchingArgParamLength := by
  refine ⟨rfl, ?_⟩
  simp [tcErr]

/-- Claim C4 as amended: provided the argument-walking loop completes
without an error and without a panic (in particular every positional
argument has a parameter slot and every defaulted parameter is named),
pair_args_with_params returns the ordered pairs exactly when the
parameter count equals the argument count plus the count of distinct
defaulted parameter names left unsupplied by the arguments; otherwise it
fails with MismatchingArgParamLength. -/
theorem pair_args_arity_check_amended
    (params : List Param) (args : List Arg) (dp : List String)
    (st : PairArgsState)
    (hdp : collect_default_params params = .ok dp)
    (hloop : pair_args_loop params args 0 ⟨[], dp, false, []⟩ = .ok st) :
    (params.length = args.length + (unsupplied_default_names params args).length →
       pair_args_with_params params args = .ok st.result)
    ∧ (params.length ≠ args.length + (unsupplied_default_names params args).length →
       pair_args_with_params params args = tcErr .MismatchingArgParamLength) := by
  have hdpn : dp = default_param_names params := collect_default_params_ok_eq hdp
  have hnd : dp.Nodup := by
    rw [hdpn]; exact default_param_names_nodup params
  have hfinal : st.default_params
      = dp.filter (fun n => !args_supply_from params 0 args n) :=
    pair_args_loop_defaults params args 0 _ st hnd hloop
  have hlen : st.default_params.length
      = (unsupplied_default_names params args).length := by
    rw [hfinal, hdpn, unsupplied_default_names]
  constructor
  · intro hc
    simp only [pair_args_with_params, hdp, hloop, Bind.bind, Except.bind]
    rw [if_neg (by rw [hlen]; omega)]
    rfl
  · intro hc
    simp only [pair_args_with_params, hdp, hloop, Bind.bind, Except.bind]
    rw [if_pos (by rw [hlen]; omega)]

/-- Witness for the amended claim C4 at a concrete input: two parameters
of which the second is defaulted, one named argument for the first; the
arity balances through the unsupplied default and the pairs are
returned. -/
theorem pair_args_arity_check_amended_witness :
    pair_args_with_params
        [Param.mk (Option.some "a") Term.Root OptTerm.none,
         Param.mk (Option.some "b") Term.Root (OptTerm.some Term.Root)]
        [Arg.mk (Option.some "a") Term.Root]
      = .ok [(Param.mk (Option.some "a") Term.Root OptTerm.none,
              Arg.mk (Option.some "a") Term.Root)] :=
  (pair_args_arity_check_amended
    [Param.mk (Option.some "a") Term.Root OptTerm.none,
     Param.mk (Option.some "b") Term.Root (OptTerm.some Term.Root)]
    [Arg.mk (Option.some "a") Term.Root] ["b"]
    ⟨[0], ["b"], true,
      [(Param.mk (Option.some "a") Term.Root OptTerm.none,
        Arg.mk (Option.some "a") Term.Root)]⟩
    rfl rfl).1 rfl

/-- Claim C2: evaluated at the free variable Var x, the free-SubVar
discovery returns the empty set. The doc comment of the source function
states that free variables are either Var or Unresolved and that it
collects both, and the spec states that free Var names are enumerated,
yet the Var arm of the source adds nothing: free Var names are never
collected (and consequently no binder ever has anything to remove). -/
theorem free_sub_vars_miss_free_var :
    get_free_sub_vars_in_term (Term.Var "x") = [] := rfl

/-- Counterexample for claim C9: the scope s binds x to the empty tuple
type, and the term is itself a SetBound wrapper that re-binds x, so x
does not occur free in the term; the claim then requires the wrapper to
be dropped (the intersection of the free bound variables with the scope
names is empty) and in any case to retain only members whose names occur
free. The code nevertheless re-wraps the term with a scope retaining x,
because its free-bound-variable computation treats the nested SetBound
wrapper as non-binding. -/
theorem apply_set_bound_filter_counterexample :
    apply_set_bound_to_term Env.empty 10
        (Scope.mk .SetBound (.cons (.mk "x"
          (.InitialisedWithTy (Term.Level2 .AnyTy) (Term.Level1 (.Tuple .nil)))) .nil))
        (Term.SetBound (Term.BoundVar "x")
          (Scope.mk .SetBound (.cons (.mk "x"
            (.InitialisedWithTy (Term.Level2 .AnyTy) (Term.Level1 (.Tuple .nil)))) .nil)))
      = .ok (some (Term.SetBound
          (Term.SetBound (Term.BoundVar "x")
            (Scope.mk .SetBound (.cons (.mk "x"
              (.InitialisedWithTy (Term.Level2 .AnyTy) (Term.Level1 (.Tuple .nil)))) .nil)))
          (Scope.mk .SetBound (.cons (.mk "x"
            (.InitialisedWithTy (Term.Level2 .AnyTy) (Term.Level1 (.Tuple .nil)))) .nil))))
    ∧ ¬ FreeBoundVarInTerm Env.empty
        (Term.SetBound (Term.BoundVar "x")
          (Scope.mk .SetBound (.cons (.mk "x"
            (.InitialisedWithTy (Term.Level2 .AnyTy) (Term.Level1 (.Tuple .nil)))) .nil)))
        "x" := by
  refine ⟨rfl, ?_⟩
  intro h
  cases h with
  | set_bound_term _ _ _ hfree hnotin =>
      exact hnotin (by simp [Scope.iter_names, Scope.members, MemberList.toList,
        Member.name])
  | set_bound_scope _ _ _ hs =>
      cases hs with
      | mem_ty _ m ty _ hm hty hfree =>
          simp [Scope.members, MemberList.toList] at hm
          subst hm
          simp [Member.data, MemberData.ty] at hty
          subst hty
          cases hfree
      | mem_value _ m v _ hm hv hfree =>
          simp [Scope.members, MemberList.toList] at hm
          subst hm
          simp [Member.data, MemberData.value] at hv
          subst hv
          cases hfree with
          | level1_tuple _ _ hp => cases hp

theorem mem_insert_name (n m : String) (l : List String) :
    n ∈ insert_name m l ↔ n = m ∨ n ∈ l := by
  unfold insert_name
  by_cases hm : m ∈ l
  · simp only [if_pos hm]
    constructor
    · exact Or.inr
    · rintro (rfl | hn)
      · exact hm
      · exact hn
  · simp [if_neg hm]

theorem mem_extend_names (xs : List String) :
    ∀ (target : List String) (n : String),
      n ∈ extend_names target xs ↔ n ∈ target ∨ n ∈ xs := by
  induction xs with
  | nil => intro target n; simp [extend_names]
  | cons x xs ih =>
      intro target n
      show n ∈ extend_names (insert_name x target) xs ↔ _
      rw [ih]
      rw [mem_insert_name]
      constructor
      · rintro ((rfl | h) | h)
        · exact Or.inr (by simp)
        · exact Or.inl h
        · exact Or.inr (by simp [h])
      · rintro (h | h)
        · exact Or.inl (Or.inr h)
        · rcases List.mem_cons.mp h with rfl | h
          · exact Or.inl (Or.inl rfl)
          · exact Or.inr h

theorem ParamList.inductionOnParams {motive : ParamList → Prop} (ps : ParamList)
    (nil : motive .nil) (cons : ∀ p ps, motive ps → motive (.cons p ps)) :
    motive ps :=
  match ps with
  | .nil => nil
  | .cons p ps => cons p ps (ParamList.inductionOnParams ps nil cons)
termination_by structural ps

theorem ArgList.inductionOnArgs {motive : ArgList → Prop} (as_ : ArgList)
    (nil : motive .nil) (cons : ∀ a as_, motive as_ → motive (.cons a as_)) :
    motive as_ :=
  match as_ with
  | .nil => nil
  | .cons a as_ => cons a as_ (ArgList.inductionOnArgs as_ nil cons)
termination_by structural as_

theorem TermList.inductionOnTerms {motive : TermList → Prop} (ts : TermList)
    (nil : motive .nil) (cons : ∀ t ts, motive ts → motive (.cons t ts)) :
    motive ts :=
  match ts with
  | .nil => nil
  | .cons t ts => cons t ts (TermList.inductionOnTerms ts nil cons)
termination_by structural ts

theorem CaseList.inductionOnCases {motive : CaseList → Prop} (cs : CaseList)
    (nil : motive .nil) (cons : ∀ c cs, motive cs → motive (.cons c cs)) :
    motive cs :=
  match cs with
  | .nil => nil
  | .cons c cs => cons c cs (CaseList.inductionOnCases cs nil cons)
termination_by structural cs

theorem MemberList.inductionOnMembers {motive : MemberList → Prop} (ms : MemberList)
    (nil : motive .nil) (cons : ∀ m ms, motive ms → motive (.cons m ms)) :
    motive ms :=
  match ms with
  | .nil => nil
  | .cons m ms => cons m ms (MemberList.inductionOnMembers ms nil cons)
termination_by structural ms

theorem mem_add_param_vars (ps : ParamList) :
    ∀ (acc : List String) (n : String),
      n ∈ add_param_vars_as_bound_vars_to_set ps acc ↔
        n ∈ acc ∨ (∃ p ∈ ps.toList, p.name = some n) := by
  induction ps using ParamList.inductionOnParams with
  | nil => intro acc n; simp [add_param_vars_as_bound_vars_to_set, ParamList.toList]
  | cons p ps ih =>
      intro acc n
      rcases p with ⟨name, ty, dv⟩
      rcases name with _ | m
      · simp only [add_param_vars_as_bound_vars_to_set]
        rw [ih]
        simp only [ParamList.toList, List.mem_cons]
        constructor
        · rintro (h | ⟨q, hq, hqn⟩)
          · exact Or.inl h
          · exact Or.inr ⟨q, Or.inr hq, hqn⟩
        · rintro (h | ⟨q, (rfl | hq), hqn⟩)
          · exact Or.inl h
          · exact absurd hqn (by simp [Param.name])
          · exact Or.inr ⟨q, hq, hqn⟩
      · simp only [add_param_vars_as_bound_vars_to_set]
        rw [ih]
        rw [mem_insert_name]
        simp only [ParamList.toList, List.mem_cons]
        constructor
        · rintro ((rfl | h) | ⟨q, hq, hqn⟩)
          · exact Or.inr ⟨Param.mk (some n) ty dv, Or.inl rfl, by simp [Param.name]⟩
          · exact Or.inl h
          · exact Or.inr ⟨q, Or.inr hq, hqn⟩
        · rintro (h | ⟨q, (rfl | hq), hqn⟩)
          · exact Or.inl (Or.inr h)
          · refine Or.inl (Or.inl ?_)
            simpa [Param.name] using hqn.symm
          · exact Or.inr ⟨q, hq, hqn⟩

theorem mem_case_param_pool (cs : CaseList) :
    ∀ (acc : List String) (n : String),
      n ∈ case_param_pool cs acc ↔
        n ∈ acc ∨ (∃ c ∈ cs.toList, ∃ p ∈ c.params.toList, p.name = some n) := by
  induction cs using CaseList.inductionOnCases with
  | nil => intro acc n; simp [case_param_pool, CaseList.toList]
  | cons c cs ih =>
      intro acc n
      rcases c with ⟨params, rt, rv⟩
      rw [case_param_pool, ih, mem_add_param_vars]
      simp only [CaseList.toList, List.mem_cons]
      constructor
      · rintro ((h | hp) | ⟨d, hd, hdp⟩)
        · exact Or.inl h
        · exact Or.inr ⟨TyFnCase.mk params rt rv, Or.inl rfl, by
            simpa [TyFnCase.params] using hp⟩
        · exact Or.inr ⟨d, Or.inr hd, hdp⟩
      · rintro (h | ⟨d, (rfl | hd), hdp⟩)
        · exact Or.inl (Or.inl h)
        · exact Or.inl (Or.inr (by simpa [TyFnCase.params] using hdp))
        · exact Or.inr ⟨d, hd, hdp⟩

theorem MemberList.toList_ofList (l : List Member) :
    (MemberList.ofList l).toList = l := by
  induction l with
  | nil => rfl
  | cons m ms ih => simp [MemberList.ofList, MemberList.toList, ih]

theorem Scope.get_go_none {name : String} :
    ∀ (ms : List Member) (i : Nat),
      Scope.get.go name ms i = none → ∀ m ∈ ms, m.name ≠ name := by
  intro ms
  induction ms with
  | nil => intro i _ m hm; exact absurd hm (by simp)
  | cons x xs ih =>
      intro i h m hm
      rw [Scope.get.go] at h
      by_cases hx : x.name = name
      · rw [if_pos hx] at h; exact absurd h (by simp)
      · rw [if_neg hx] at h
        rcases List.mem_cons.mp hm with rfl | hm
        · exact hx
        · exact ih (i + 1) h m hm

theorem Scope.get_none_not_mem (s : Scope) (name : String)
    (h : s.get name = none) : name ∉ s.iter_names := by
  intro hmem
  rw [Scope.iter_names] at hmem
  rcases List.mem_map.mp hmem with ⟨m, hm, hname⟩
  exact Scope.get_go_none s.members.toList 0 h m hm hname

theorem filter_scope_iter_names (s : Scope) (pred : Member → Bool)
    (n : String) :
    n ∈ (filter_scope s pred).iter_names ↔
      ∃ m ∈ s.members.toList, m.name = n ∧ pred m := by
  rw [filter_scope, Scope.iter_names]
  show n ∈ (MemberList.ofList (s.members.toList.filter pred)).toList.map Member.name ↔ _
  rw [MemberList.toList_ofList]
  simp only [List.mem_map, List.mem_filter]
  constructor
  · rintro ⟨m, ⟨hm, hp⟩, rfl⟩
    exact ⟨m, hm, rfl, hp⟩
  · rintro ⟨m, hm, rfl, hp⟩
    exact ⟨m, ⟨hm, hp⟩, rfl⟩

theorem filter_scope_members_subset (s : Scope) (pred : Member → Bool) :
    ∀ m ∈ (filter_scope s pred).members.toList, m ∈ s.members.toList := by
  intro m hm
  rw [filter_scope] at hm
  show m ∈ s.members.toList
  have : (Scope.mk ScopeKind.SetBound
      (MemberList.ofList (s.members.toList.filter pred))).members.toList
      = s.members.toList.filter pred := by
    show (MemberList.ofList (s.members.toList.filter pred)).toList = _
    exact MemberList.toList_ofList _
  rw [this] at hm
  exact (List.mem_filter.mp hm).1

theorem except_bind_ok {α β : Type} {m : M α} {k : α → M β} {r : β}
    (h : (m >>= k) = .ok r) : ∃ a, m = .ok a ∧ k a = .ok r := by
  cases m with
  | error e => simp [Bind.bind, Except.bind] at h
  | ok a => exact ⟨a, rfl, by simpa [Bind.bind, Except.bind] using h⟩

theorem except_pure_ok {α : Type} {x r : α} (h : (pure x : M α) = .ok r) :
    x = r := by
  simpa [pure, Except.pure] using h

theorem add_free_bound_vars_in_params_with_sound {env : Env}
    {f : Term → List String → M (List String)} (hf : FreeCodeSound env f) :
    ∀ (ps : ParamList) (acc r : List String),
      add_free_bound_vars_in_params_with f ps acc = .ok r →
      (∀ n, n ∈ acc → n ∈ r) ∧
      (∀ n, FreeBoundVarInParams env ps n → n ∈ r) := by
  intro ps
  induction ps using ParamList.inductionOnParams with
  | nil =>
      intro acc r h
      rw [add_free_bound_vars_in_params_with] at h
      cases except_pure_ok h
      exact ⟨fun n hn => hn, fun n hfree => by cases hfree⟩
  | cons p ps ih =>
      intro acc r h
      rcases p with ⟨name, ty, dv⟩
      rw [add_free_bound_vars_in_params_with] at h
      obtain ⟨r1, h1, h⟩ := except_bind_ok h
      have hr1 := hf ty acc r1 h1
      rcases dv with _ | d
      · simp only [] at h
        obtain ⟨r2, h2, h⟩ := except_bind_ok h
        cases except_pure_ok h2
        have hih := ih r1 r h
        refine ⟨fun n hn => hih.1 n (hr1.1 n hn), fun n hfree => ?_⟩
        cases hfree with
        | head_ty _ _ _ _ _ hty => exact hih.1 n (hr1.2 n hty)
        | tail _ _ _ htail => exact hih.2 n htail
      · simp only [] at h
        obtain ⟨r2, h2, h⟩ := except_bind_ok h
        have hr2 := hf d r1 r2 h2
        have hih := ih r2 r h
        refine ⟨fun n hn => hih.1 n (hr2.1 n (hr1.1 n hn)), fun n hfree => ?_⟩
        cases hfree with
        | head_ty _ _ _ _ _ hty => exact hih.1 n (hr2.1 n (hr1.2 n hty))
        | head_default _ _ _ _ _ hd => exact hih.1 n (hr2.2 n hd)
        | tail _ _ _ htail => exact hih.2 n htail

theorem add_free_bound_vars_in_args_with_sound {env : Env}
    {f : Term → List String → M (List String)} (hf : FreeCodeSound env f) :
    ∀ (as_ : ArgList) (acc r : List String),
      add_free_bound_vars_in_args_with f as_ acc = .ok r →
      (∀ n, n ∈ acc → n ∈ r) ∧
      (∀ n, FreeBoundVarInArgs env as_ n → n ∈ r) := by
  intro as_
  induction as_ using ArgList.inductionOnArgs with
  | nil =>
      intro acc r h
      rw [add_free_bound_vars_in_args_with] at h
      cases except_pure_ok h
      exact ⟨fun n hn => hn, fun n hfree => by cases hfree⟩
  | cons a as_ ih =>
      intro acc r h
      rcases a with ⟨name, value⟩
      rw [add_free_bound_vars_in_args_with] at h
      obtain ⟨r1, h1, h⟩ := except_bind_ok h
      have hih := ih r1 r h
      have hr1 := hf value acc r1 h1
      refine ⟨fun n hn => hih.1 n (hr1.1 n hn), fun n hfree => ?_⟩
      cases hfree with
      | head _ _ _ _ hv => exact hih.1 n (hr1.2 n hv)
      | tail _ _ _ htail => exact hih.2 n htail

theorem add_free_bound_vars_in_term_list_with_sound {env : Env}
    {f : Term → List String → M (List String)} (hf : FreeCodeSound env f) :
    ∀ (ts : TermList) (acc r : List String),
      add_free_bound_vars_in_term_list_with f ts acc = .ok r →
      (∀ n, n ∈ acc → n ∈ r) ∧
      (∀ t ∈ ts.toList, ∀ n, FreeBoundVarInTerm env t n → n ∈ r) := by
  intro ts
  induction ts using TermList.inductionOnTerms with
  | nil =>
      intro acc r h
      rw [add_free_bound_vars_in_term_list_with] at h
      cases except_pure_ok h
      exact ⟨fun n hn => hn, fun t ht => absurd ht (by simp [TermList.toList])⟩
  | cons t ts ih =>
      intro acc r h
      rw [add_free_bound_vars_in_term_list_with] at h
      obtain ⟨r1, h1, h⟩ := except_bind_ok h
      have hih := ih r1 r h
      have hr1 := hf t acc r1 h1
      refine ⟨fun n hn => hih.1 n (hr1.1 n hn), fun u hu n hfree => ?_⟩
      rcases List.mem_cons.mp (by simpa [TermList.toList] using hu) with rfl | hu
      · exact hih.1 n (hr1.2 n hfree)
      · exact hih.2 u hu n hfree

theorem add_free_bound_vars_in_scope_go_sound {env : Env}
    {f : Term → List String → M (List String)} (hf : FreeCodeSound env f) :
    ∀ (ms : MemberList) (acc r : List String),
      add_free_bound_vars_in_scope_with.go f ms acc = .ok r →
      (∀ n, n ∈ acc → n ∈ r) ∧
      (∀ m ∈ ms.toList,
        (∀ ty, m.data.ty = some ty → ∀ n, FreeBoundVarInTerm env ty n → n ∈ r) ∧
        (∀ v, m.data.value = some v → ∀ n, FreeBoundVarInTerm env v n → n ∈ r)) := by
  intro ms
  induction ms using MemberList.inductionOnMembers with
  | nil =>
      intro acc r h
      rw [add_free_bound_vars_in_scope_with.go] at h
      cases except_pure_ok h
      exact ⟨fun n hn => hn, fun m hm => absurd hm (by simp [MemberList.toList])⟩
  | cons m ms ih =>
      intro acc r h
      rcases m with ⟨mname, mdata⟩
      rw [add_free_bound_vars_in_scope_with.go] at h
      rcases hty : mdata.ty with _ | ty <;> rw [hty] at h <;>
        simp only [] at h
      · rcases hv : mdata.value with _ | v <;> rw [hv] at h <;>
          simp only [] at h
        · obtain ⟨r1, h1, h⟩ := except_bind_ok h
          cases except_pure_ok h1
          obtain ⟨r2, h2, h⟩ := except_bind_ok h
          cases except_pure_ok h2
          have hih := ih acc r h
          refine ⟨hih.1, fun m2 hm2 => ?_⟩
          rcases List.mem_cons.mp (by simpa [MemberList.toList] using hm2) with
            rfl | hm2
          · refine ⟨fun ty2 hty2 => ?_, fun v2 hv2 => ?_⟩
            · rw [show (Member.mk mname mdata).data = mdata from rfl, hty] at hty2
              exact absurd hty2 (by simp)
            · rw [show (Member.mk mname mdata).data = mdata from rfl, hv] at hv2
              exact absurd hv2 (by simp)
          · exact hih.2 m2 hm2
        · obtain ⟨r1, h1, h⟩ := except_bind_ok h
          cases except_pure_ok h1
          obtain ⟨r2, h2, h⟩ := except_bind_ok h
          have hr2 := hf v acc r2 h2
          have hih := ih r2 r h
          refine ⟨fun n hn => hih.1 n (hr2.1 n hn), fun m2 hm2 => ?_⟩
          rcases List.mem_cons.mp (by simpa [MemberList.toList] using hm2) with
            rfl | hm2
          · refine ⟨fun ty2 hty2 => ?_, fun v2 hv2 n hfree => ?_⟩
            · rw [show (Member.mk mname mdata).data = mdata from rfl, hty] at hty2
              exact absurd hty2 (by simp)
            · rw [show (Member.mk mname mdata).data = mdata from rfl, hv] at hv2
              cases hv2
              exact hih.1 n (hr2.2 n hfree)
          · exact hih.2 m2 hm2
      · obtain ⟨r1, h1, h⟩ := except_bind_ok h
        have hr1 := hf ty acc r1 h1
        rcases hv : mdata.value with _ | v <;> rw [hv] at h <;>
          simp only [] at h
        · obtain ⟨r2, h2, h⟩ := except_bind_ok h
          cases except_pure_ok h2
          have hih := ih r1 r h
          refine ⟨fun n hn => hih.1 n (hr1.1 n hn), fun m2 hm2 => ?_⟩
          rcases List.mem_cons.mp (by simpa [MemberList.toList] using hm2) with
            rfl | hm2
          · refine ⟨fun ty2 hty2 n hfree => ?_, fun v2 hv2 => ?_⟩
            · rw [show (Member.mk mname mdata).data = mdata from rfl, hty] at hty2
              cases hty2
              exact hih.1 n (hr1.2 n hfree)
            · rw [show (Member.mk mname mdata).data = mdata from rfl, hv] at hv2
              exact absurd hv2 (by simp)
          · exact hih.2 m2 hm2
        · obtain ⟨r2, h2, h⟩ := except_bind_ok h
          have hr2 := hf v r1 r2 h2
          have hih := ih r2 r h
          refine ⟨fun n hn => hih.1 n (hr2.1 n (hr1.1 n hn)), fun m2 hm2 => ?_⟩
          rcases List.mem_cons.mp (by simpa [MemberList.toList] using hm2) with
            rfl | hm2
          · refine ⟨fun ty2 hty2 n hfree => ?_, fun v2 hv2 n hfree => ?_⟩
            · rw [show (Member.mk mname mdata).data = mdata from rfl, hty] at hty2
              cases hty2
              exact hih.1 n (hr2.1 n (hr1.2 n hfree))
            · rw [show (Member.mk mname mdata).data = mdata from rfl, hv] at hv2
              cases hv2
              exact hih.1 n (hr2.2 n hfree)
          · exact hih.2 m2 hm2

theorem add_free_bound_vars_in_scope_with_sound {env : Env}
    {f : Term → List String → M (List String)} (hf : FreeCodeSound env f)
    (s : Scope) (acc r : List String)
    (h : add_free_bound_vars_in_scope_with f s acc = .ok r) :
    (∀ n, n ∈ acc → n ∈ r) ∧
    (∀ n, FreeBoundVarInScope env s n → n ∈ r) := by
  rw [add_free_bound_vars_in_scope_with] at h
  have := add_free_bound_vars_in_scope_go_sound hf s.members acc r h
  refine ⟨this.1, fun n hfree => ?_⟩
  cases hfree with
  | mem_ty _ m ty _ hm hty hf2 => exact (this.2 m hm).1 ty hty n hf2
  | mem_value _ m v _ hm hv hf2 => exact (this.2 m hm).2 v hv n hf2

theorem add_free_bound_vars_ty_fn_cases_with_sound {env : Env}
    {f : Term → List String → M (List String)} (hf : FreeCodeSound env f) :
    ∀ (cs : CaseList) (pr due res pr2 due2 res2 : List String),
      add_free_bound_vars_ty_fn_cases_with f cs (pr, due, res)
        = .ok (pr2, due2, res2) →
      (∀ n, n ∈ pr → n ∈ pr2) ∧ (∀ n, n ∈ res → n ∈ res2) ∧
      due2 = case_param_pool cs due ∧
      (∀ c ∈ cs.toList,
        (∀ n, FreeBoundVarInParams env c.params n → n ∈ pr2) ∧
        (∀ n, FreeBoundVarInTerm env c.return_ty n → n ∈ res2) ∧
        (∀ n, FreeBoundVarInTerm env c.return_value n → n ∈ res2)) := by
  intro cs
  induction cs using CaseList.inductionOnCases with
  | nil =>
      intro pr due res pr2 due2 res2 h
      rw [add_free_bound_vars_ty_fn_cases_with] at h
      have := except_pure_ok h
      cases this
      exact ⟨fun n hn => hn, fun n hn => hn, by rw [case_param_pool],
        fun c hc => absurd hc (by simp [CaseList.toList])⟩
  | cons c cs ih =>
      intro pr due res pr2 due2 res2 h
      rcases c with ⟨params, return_ty, return_value⟩
      rw [add_free_bound_vars_ty_fn_cases_with] at h
      obtain ⟨pr1, h1, h⟩ := except_bind_ok h
      obtain ⟨res1, h2, h⟩ := except_bind_ok h
      obtain ⟨res2a, h3, h⟩ := except_bind_ok h
      have hih := ih pr1 (add_param_vars_as_bound_vars_to_set params due) res2a
        pr2 due2 res2 h
      have hpr1 := add_free_bound_vars_in_params_with_sound hf params pr pr1 h1
      have hres1 := hf return_ty res res1 h2
      have hres2 := hf return_value res1 res2a h3
      refine ⟨fun n hn => hih.1 n (hpr1.1 n hn),
        fun n hn => hih.2.1 n (hres2.1 n (hres1.1 n hn)), ?_, ?_⟩
      · rw [case_param_pool]
        exact hih.2.2.1
      · intro d hd
        rcases List.mem_cons.mp (by simpa [CaseList.toList] using hd) with
          rfl | hd
        · exact ⟨fun n hfree => hih.1 n (hpr1.2 n hfree),
            fun n hfree => hih.2.1 n (hres2.1 n (hres1.2 n hfree)),
            fun n hfree => hih.2.1 n (hres2.2 n hfree)⟩
        · exact hih.2.2.2 d hd

theorem free_bound_vars_code_sound (env : Env) :
    ∀ fuel, FreeCodeSound env (add_free_bound_vars_in_term_to_set env fuel) := by
  intro fuel
  induction fuel with
  | zero =>
      intro t acc r h
      rw [add_free_bound_vars_in_term_to_set] at h
      exact absurd h (by simp)
  | succ fuel ih =>
      intro t acc r h
      rw [add_free_bound_vars_in_term_to_set.eq_def] at h
      simp only [] at h
      cases t with
      | Root =>
          cases except_pure_ok h
          exact ⟨fun n hn => hn, fun n hfree => by cases hfree⟩
      | Var name =>
          cases except_pure_ok h
          exact ⟨fun n hn => hn, fun n hfree => by cases hfree⟩
      | ScopeVar name scope index =>
          cases except_pure_ok h
          exact ⟨fun n hn => hn, fun n hfree => by cases hfree⟩
      | Unresolved id =>
          cases except_pure_ok h
          exact ⟨fun n hn => hn, fun n hfree => by cases hfree⟩
      | BoundVar var =>
          simp only [] at h
          cases except_pure_ok h
          refine ⟨fun n hn => (mem_insert_name n var acc).mpr (Or.inr hn),
            fun n hfree => ?_⟩
          cases hfree
          exact (mem_insert_name var var acc).mpr (Or.inl rfl)
      | Access subject name op =>
          simp only [] at h
          have := ih subject acc r h
          refine ⟨this.1, fun n hfree => ?_⟩
          cases hfree with
          | access _ _ _ _ hs => exact this.2 n hs
      | Merge ts =>
          simp only [] at h
          have := add_free_bound_vars_in_term_list_with_sound ih ts acc r h
          refine ⟨this.1, fun n hfree => ?_⟩
          cases hfree with
          | merge _ t _ ht hs => exact this.2 t ht n hs
      | Union ts =>
          simp only [] at h
          have := add_free_bound_vars_in_term_list_with_sound ih ts acc r h
          refine ⟨this.1, fun n hfree => ?_⟩
          cases hfree with
          | union _ t _ ht hs => exact this.2 t ht n hs
      | TyOf t =>
          simp only [] at h
          have := ih t acc r h
          refine ⟨this.1, fun n hfree => ?_⟩
          cases hfree with
          | ty_of _ _ hs => exact this.2 n hs
      | SetBound t s =>
          simp only [] at h
          obtain ⟨r1, h1, h⟩ := except_bind_ok h
          have hsc := add_free_bound_vars_in_scope_with_sound ih s acc r1 h1
          have ht := ih t r1 r h
          refine ⟨fun n hn => ht.1 n (hsc.1 n hn), fun n hfree => ?_⟩
          cases hfree with
          | set_bound_term _ _ _ hs _ => exact ht.2 n hs
          | set_bound_scope _ _ _ hs => exact ht.1 n (hsc.2 n hs)
      | TyFnCall subject args =>
          simp only [] at h
          obtain ⟨r1, h1, h⟩ := except_bind_ok h
          have hs := ih subject acc r1 h1
          have ha := add_free_bound_vars_in_args_with_sound ih args r1 r h
          refine ⟨fun n hn => ha.1 n (hs.1 n hn), fun n hfree => ?_⟩
          cases hfree with
          | ty_fn_call_subject _ _ _ h2 => exact ha.1 n (hs.2 n h2)
          | ty_fn_call_args _ _ _ h2 => exact ha.2 n h2
      | TyFn name general_params general_return_ty cases_ =>
          simp only [] at h
          obtain ⟨pr0, h1, h⟩ := except_bind_ok h
          obtain ⟨res0, h2, h⟩ := except_bind_ok h
          obtain ⟨triple, h3, h⟩ := except_bind_ok h
          rcases triple with ⟨pr, due, res⟩
          cases except_pure_ok h
          have hpr0 := add_free_bound_vars_in_params_with_sound ih
            general_params [] pr0 h1
          have hres0 := ih general_return_ty [] res0 h2
          have hcases := add_free_bound_vars_ty_fn_cases_with_sound ih cases_
            pr0 (add_param_vars_as_bound_vars_to_set general_params []) res0
            pr due res h3
          have hdue : due = ty_fn_param_pool general_params cases_ :=
            hcases.2.2.1
          have hmem_filter : ∀ n, n ∈ res →
              n ∉ ty_fn_param_pool general_params cases_ →
              n ∈ res.filter (fun n => !(n ∈ due : Bool)) := by
            intro n hn hnp
            rw [List.mem_filter]
            refine ⟨hn, ?_⟩
            rw [hdue]
            simpa using hnp
          have hfin : ∀ n,
              n ∈ res.filter (fun n => !(n ∈ due : Bool)) ++ pr →
              n ∈ extend_names acc
                (res.filter (fun n => !(n ∈ due : Bool)) ++ pr) :=
            fun n hn => (mem_extend_names _ acc n).mpr (Or.inr hn)
          refine ⟨fun n hn => (mem_extend_names _ acc n).mpr (Or.inl hn),
            fun n hfree => ?_⟩
          cases hfree with
          | ty_fn_general_params _ _ _ _ _ hp =>
              exact hfin n (List.mem_append.mpr (Or.inr (hcases.1 n (hpr0.2 n hp))))
          | ty_fn_case_params _ _ _ _ c _ hc hp =>
              exact hfin n (List.mem_append.mpr (Or.inr ((hcases.2.2.2 c hc).1 n hp)))
          | ty_fn_general_return _ _ _ _ _ hs hnp =>
              exact hfin n (List.mem_append.mpr (Or.inl
                (hmem_filter n (hcases.2.1 n (hres0.2 n hs)) hnp)))
          | ty_fn_case_return_ty _ _ _ _ c _ hc hs hnp =>
              exact hfin n (List.mem_append.mpr (Or.inl
                (hmem_filter n ((hcases.2.2.2 c hc).2.1 n hs) hnp)))
          | ty_fn_case_return_value _ _ _ _ c _ hc hs hnp =>
              exact hfin n (List.mem_append.mpr (Or.inl
                (hmem_filter n ((hcases.2.2.2 c hc).2.2 n hs) hnp)))
      | TyFnTy params return_ty =>
          simp only [] at h
          obtain ⟨pr0, h1, h⟩ := except_bind_ok h
          obtain ⟨res0, h2, h⟩ := except_bind_ok h
          cases except_pure_ok h
          have hpr0 := add_free_bound_vars_in_params_with_sound ih params [] pr0 h1
          have hres0 := ih return_ty [] res0 h2
          refine ⟨fun n hn => (mem_extend_names _ acc n).mpr (Or.inl hn),
            fun n hfree => ?_⟩
          cases hfree with
          | ty_fn_ty_params _ _ _ hp =>
              exact (mem_extend_names _ acc n).mpr (Or.inr
                (List.mem_append.mpr (Or.inr (hpr0.2 n hp))))
          | ty_fn_ty_return _ _ _ hs hnp =>
              refine (mem_extend_names _ acc n).mpr (Or.inr
                (List.mem_append.mpr (Or.inl ?_)))
              rw [List.mem_filter]
              exact ⟨hres0.2 n hs, by simpa using hnp⟩
      | Level3 t3 =>
          cases t3
          cases except_pure_ok h
          exact ⟨fun n hn => hn, fun n hfree => by cases hfree⟩
      | Level2 t2 =>
          cases t2 with
          | AnyTy =>
              cases except_pure_ok h
              exact ⟨fun n hn => hn, fun n hfree => by cases hfree⟩
          | Trt id =>
              simp only [] at h
              rcases hlook : env.trt_defs.get? id with _ | td <;> rw [hlook] at h
              · exact absurd h (by simp)
              · have := add_free_bound_vars_in_scope_with_sound ih td.members acc r h
                refine ⟨this.1, fun n hfree => ?_⟩
                cases hfree with
                | trt _ td2 _ hlook2 hs =>
                    rw [hlook] at hlook2
                    cases hlook2
                    exact this.2 n hs
      | Level1 t1 =>
          cases t1 with
          | ModDef id =>
              simp only [] at h
              rcases hlook : env.mod_defs.get? id with _ | md <;> rw [hlook] at h
              · exact absurd h (by simp)
              · have := add_free_bound_vars_in_scope_with_sound ih md.members acc r h
                refine ⟨this.1, fun n hfree => ?_⟩
                cases hfree with
                | mod_def _ md2 _ hlook2 hs =>
                    rw [hlook] at hlook2
                    cases hlook2
                    exact this.2 n hs
          | NominalDef id =>
              simp only [] at h
              rcases hlook : env.nominal_defs.get? id with _ | nd <;> rw [hlook] at h
              · exact absurd h (by simp)
              · rcases nd with ⟨nm, fields⟩ | ⟨nm, variants⟩
                · rcases fields with fields | _
                  · have := add_free_bound_vars_in_params_with_sound ih fields acc r h
                    refine ⟨this.1, fun n hfree => ?_⟩
                    cases hfree with
                    | nominal_struct _ nm2 fields2 _ hlook2 hp =>
                        rw [hlook] at hlook2
                        cases hlook2
                        exact this.2 n hp
                  · cases except_pure_ok h
                    refine ⟨fun n hn => hn, fun n hfree => ?_⟩
                    cases hfree with
                    | nominal_struct _ nm2 fields2 _ hlook2 hp =>
                        rw [hlook] at hlook2
                        cases hlook2
                · cases except_pure_ok h
                  refine ⟨fun n hn => hn, fun n hfree => ?_⟩
                  cases hfree with
                  | nominal_struct _ nm2 fields2 _ hlook2 hp =>
                      rw [hlook] at hlook2
                      cases hlook2
          | Tuple members =>
              simp only [] at h
              have := add_free_bound_vars_in_params_with_sound ih members acc r h
              refine ⟨this.1, fun n hfree => ?_⟩
              cases hfree with
              | level1_tuple _ _ hp => exact this.2 n hp
          | Fn params return_ty =>
              simp only [] at h
              obtain ⟨r1, h1, h⟩ := except_bind_ok h
              have hp := add_free_bound_vars_in_params_with_sound ih params acc r1 h1
              have hr := ih return_ty r1 r h
              refine ⟨fun n hn => hr.1 n (hp.1 n hn), fun n hfree => ?_⟩
              cases hfree with
              | level1_fn_params _ _ _ h2 => exact hr.1 n (hp.2 n h2)
              | level1_fn_return _ _ _ h2 => exact hr.2 n h2
      | Level0 t0 =>
          cases t0 with
          | Rt ty =>
              simp only [] at h
              have := ih ty acc r h
              refine ⟨this.1, fun n hfree => ?_⟩
              cases hfree with
              | rt _ _ hs => exact this.2 n hs
          | FnLit fn_ty return_value =>
              simp only [] at h
              obtain ⟨r1, h1, h⟩ := except_bind_ok h
              have h1s := ih fn_ty acc r1 h1
              have h2s := ih return_value r1 r h
              refine ⟨fun n hn => h2s.1 n (h1s.1 n hn), fun n hfree => ?_⟩
              cases hfree with
              | fn_lit_ty _ _ _ h2 => exact h2s.1 n (h1s.2 n h2)
              | fn_lit_value _ _ _ h2 => exact h2s.2 n h2
          | FnCall subject args =>
              simp only [] at h
              obtain ⟨r1, h1, h⟩ := except_bind_ok h
              have hs := ih subject acc r1 h1
              have ha := add_free_bound_vars_in_args_with_sound ih args r1 r h
              refine ⟨fun n hn => ha.1 n (hs.1 n hn), fun n hfree => ?_⟩
              cases hfree with
              | fn_call_subject _ _ _ h2 => exact ha.1 n (hs.2 n h2)
              | fn_call_args _ _ _ h2 => exact ha.2 n h2
          | Tuple members =>
              simp only [] at h
              have := add_free_bound_vars_in_args_with_sound ih members acc r h
              refine ⟨this.1, fun n hfree => ?_⟩
              cases hfree with
              | tuple_lit _ _ h2 => exact this.2 n h2
          | Constructed subject members =>
              simp only [] at h
              obtain ⟨r1, h1, h⟩ := except_bind_ok h
              have hs := ih subject acc r1 h1
              have ha := add_free_bound_vars_in_args_with_sound ih members r1 r h
              refine ⟨fun n hn => ha.1 n (hs.1 n hn), fun n hfree => ?_⟩
              cases hfree with
              | constructed_subject _ _ _ h2 => exact ha.1 n (hs.2 n h2)
              | constructed_members _ _ _ h2 => exact ha.2 n h2
          | EnumVariant id vname =>
              cases except_pure_ok h
              exact ⟨fun n hn => hn, fun n hfree => by cases hfree⟩
          | Lit v =>
              cases except_pure_ok h
              exact ⟨fun n hn => hn, fun n hfree => by cases hfree⟩

theorem apply_set_bound_with_flag_no_escape {env : Env} {s : Scope}
    {ign : List String} {f : Term → M (Option Term)}
    (hf : ApplyNoEscape env s ign f) {t t2 : Term} {b : Bool}
    (h : apply_set_bound_with_flag f t = .ok (t2, b)) :
    (∀ n, FreeBoundVarInTerm env t2 n → n ∈ s.iter_names → n ∈ ign) ∧
    (b = false → t2 = t) := by
  rw [apply_set_bound_with_flag] at h
  obtain ⟨r1, h1, h⟩ := except_bind_ok h
  rcases r1 with _ | a
  · simp only [] at h
    cases except_pure_ok h
    exact ⟨fun n hfree => hf t Option.none h1 n hfree, fun _ => rfl⟩
  · simp only [] at h
    have h2 := except_pure_ok h
    injection h2 with ha hb2
    constructor
    · intro n hfree
      rw [← ha] at hfree
      exact hf t (Option.some a) h1 n hfree
    · intro hb
      rw [← hb2] at hb
      exact absurd hb (by simp)

theorem apply_set_bound_to_term_list_with_no_escape {env : Env} {s : Scope}
    {ign : List String} {f : Term → M (Option Term)}
    (hf : ApplyNoEscape env s ign f) :
    ∀ (ts ts2 : TermList) (b : Bool),
      apply_set_bound_to_term_list_with f ts = .ok (ts2, b) →
      (∀ t2 ∈ ts2.toList, ∀ n,
        FreeBoundVarInTerm env t2 n → n ∈ s.iter_names → n ∈ ign) ∧
      (b = false → ts2 = ts) := by
  intro ts
  induction ts using TermList.inductionOnTerms with
  | nil =>
      intro ts2 b h
      rw [apply_set_bound_to_term_list_with] at h
      have := except_pure_ok h
      cases this
      exact ⟨fun t2 ht2 => absurd ht2 (by simp [TermList.toList]), fun _ => rfl⟩
  | cons t ts ih =>
      intro ts2 b h
      rw [apply_set_bound_to_term_list_with] at h
      obtain ⟨⟨t2, b1⟩, h1, h⟩ := except_bind_ok h
      obtain ⟨⟨rest, b2⟩, h2, h⟩ := except_bind_ok h
      have := except_pure_ok h
      cases this
      have hh1 := apply_set_bound_with_flag_no_escape hf h1
      have hh2 := ih rest b2 h2
      refine ⟨fun u hu n hfree hnames => ?_, fun hb => ?_⟩
      · rcases List.mem_cons.mp (by simpa [TermList.toList] using hu) with rfl | hu
        · exact hh1.1 n hfree hnames
        · exact hh2.1 u hu n hfree hnames
      · simp only [Bool.or_eq_false_iff] at hb
        rw [hh1.2 hb.1, hh2.2 hb.2]

theorem apply_set_bound_to_params_with_no_escape {env : Env} {s : Scope}
    {ign : List String} {f : Term → M (Option Term)}
    (hf : ApplyNoEscape env s ign f) :
    ∀ (ps ps2 : ParamList) (b : Bool),
      apply_set_bound_to_params_with f ps = .ok (ps2, b) →
      (∀ n, FreeBoundVarInParams env ps2 n → n ∈ s.iter_names → n ∈ ign) ∧
      (b = false → ps2 = ps) ∧
      (∀ acc, add_param_vars_as_bound_vars_to_set ps2 acc
        = add_param_vars_as_bound_vars_to_set ps acc) := by
  intro ps
  induction ps using ParamList.inductionOnParams with
  | nil =>
      intro ps2 b h
      rw [apply_set_bound_to_params_with] at h
      have := except_pure_ok h
      cases this
      refine ⟨fun n hfree => ?_, fun _ => rfl, fun _ => rfl⟩
      cases hfree
  | cons p ps ih =>
      intro ps2 b h
      rcases p with ⟨name, ty, dv⟩
      rw [apply_set_bound_to_params_with] at h
      obtain ⟨⟨ty2, b1⟩, h1, h⟩ := except_bind_ok h
      have hty := apply_set_bound_with_flag_no_escape hf h1
      rcases dv with _ | d
      · simp only [] at h
        obtain ⟨⟨dv2, b2⟩, h2, h⟩ := except_bind_ok h
        have hp2 := except_pure_ok h2
        obtain ⟨⟨rest, b3⟩, h3, h⟩ := except_bind_ok h
        have := except_pure_ok h
        cases this
        have hrest := ih rest b3 h3
        cases hp2
        refine ⟨fun n hfree hnames => ?_, fun hb => ?_, fun acc => ?_⟩
        · cases hfree with
          | head_ty _ _ _ _ _ h4 => exact hty.1 n h4 hnames
          | tail _ _ _ h4 => exact hrest.1 n h4 hnames
        · simp only [Bool.or_eq_false_iff, Bool.or_false] at hb
          rw [hty.2 hb.1, hrest.2.1 hb.2]
        · simp only [add_param_vars_as_bound_vars_to_set]
          exact hrest.2.2 _
      · simp only [] at h
        obtain ⟨⟨dv2, b2⟩, h2, h⟩ := except_bind_ok h
        have hd := apply_set_bound_with_flag_no_escape hf h2
        simp only [] at h
        obtain ⟨y, hy, h⟩ := except_bind_ok h
        have hyy := except_pure_ok hy
        cases hyy
        simp only [] at h
        obtain ⟨⟨rest, b3⟩, h3, h⟩ := except_bind_ok h
        have := except_pure_ok h
        cases this
        have hrest := ih rest b3 h3
        refine ⟨fun n hfree hnames => ?_, fun hb => ?_, fun acc => ?_⟩
        · cases hfree with
          | head_ty _ _ _ _ _ h4 => exact hty.1 n h4 hnames
          | head_default _ _ _ _ _ h4 => exact hd.1 n h4 hnames
          | tail _ _ _ h4 => exact hrest.1 n h4 hnames
        · simp only [Bool.or_eq_false_iff] at hb
          rw [hty.2 hb.1.1, hd.2 hb.1.2, hrest.2.1 hb.2]
        · simp only [add_param_vars_as_bound_vars_to_set]
          exact hrest.2.2 _

theorem apply_set_bound_to_args_with_no_escape {env : Env} {s : Scope}
    {ign : List String} {f : Term → M (Option Term)}
    (hf : ApplyNoEscape env s ign f) :
    ∀ (as_ as2 : ArgList) (b : Bool),
      apply_set_bound_to_args_with f as_ = .ok (as2, b) →
      (∀ n, FreeBoundVarInArgs env as2 n → n ∈ s.iter_names → n ∈ ign) ∧
      (b = false → as2 = as_) := by
  intro as_
  induction as_ using ArgList.inductionOnArgs with
  | nil =>
      intro as2 b h
      rw [apply_set_bound_to_args_with] at h
      have := except_pure_ok h
      cases this
      refine ⟨fun n hfree => ?_, fun _ => rfl⟩
      cases hfree
  | cons a as_ ih =>
      intro as2 b h
      rcases a with ⟨name, value⟩
      rw [apply_set_bound_to_args_with] at h
      obtain ⟨⟨v2, b1⟩, h1, h⟩ := except_bind_ok h
      obtain ⟨⟨rest, b2⟩, h2, h⟩ := except_bind_ok h
      have := except_pure_ok h
      cases this
      have hv := apply_set_bound_with_flag_no_escape hf h1
      have hrest := ih rest b2 h2
      refine ⟨fun n hfree hnames => ?_, fun hb => ?_⟩
      · cases hfree with
        | head _ _ _ _ h4 => exact hv.1 n h4 hnames
        | tail _ _ _ h4 => exact hrest.1 n h4 hnames
      · simp only [Bool.or_eq_false_iff] at hb
        rw [hv.2 hb.1, hrest.2 hb.2]

theorem apply_set_bound_ty_fn_cases_with_no_escape {env : Env} {s : Scope}
    {ign ign_ext : List String} {f_amb f_ext : Term → M (Option Term)}
    (hamb : ApplyNoEscape env s ign f_amb)
    (hext : ApplyNoEscape env s ign_ext f_ext) :
    ∀ (cs cs2 : CaseList) (b : Bool),
      apply_set_bound_ty_fn_cases_with f_amb f_ext cs = .ok (cs2, b) →
      (∀ c ∈ cs2.toList,
        (∀ n, FreeBoundVarInParams env c.params n → n ∈ s.iter_names → n ∈ ign) ∧
        (∀ n, FreeBoundVarInTerm env c.return_ty n → n ∈ s.iter_names →
          n ∈ ign_ext) ∧
        (∀ n, FreeBoundVarInTerm env c.return_value n → n ∈ s.iter_names →
          n ∈ ign_ext)) ∧
      (b = false → cs2 = cs) ∧
      (∀ acc, case_param_pool cs2 acc = case_param_pool cs acc) := by
  intro cs
  induction cs using CaseList.inductionOnCases with
  | nil =>
      intro cs2 b h
      rw [apply_set_bound_ty_fn_cases_with] at h
      have := except_pure_ok h
      cases this
      exact ⟨fun c hc => absurd hc (by simp [CaseList.toList]),
        fun _ => rfl, fun _ => rfl⟩
  | cons c cs ih =>
      intro cs2 b h
      rcases c with ⟨params, return_ty, return_value⟩
      rw [apply_set_bound_ty_fn_cases_with] at h
      obtain ⟨⟨ps2, b1⟩, h1, h⟩ := except_bind_ok h
      obtain ⟨⟨rt2, b2⟩, h2, h⟩ := except_bind_ok h
      obtain ⟨⟨rv2, b3⟩, h3, h⟩ := except_bind_ok h
      obtain ⟨⟨rest, b4⟩, h4, h⟩ := except_bind_ok h
      have := except_pure_ok h
      cases this
      have hps := apply_set_bound_to_params_with_no_escape hamb params ps2 b1 h1
      have hrt := apply_set_bound_with_flag_no_escape hext h2
      have hrv := apply_set_bound_with_flag_no_escape hext h3
      have hrest := ih rest b4 h4
      refine ⟨fun d hd => ?_, fun hb => ?_, fun acc => ?_⟩
      · rcases List.mem_cons.mp (by simpa [CaseList.toList] using hd) with rfl | hd
        · exact ⟨fun n hfree => hps.1 n hfree,
            fun n hfree => hrt.1 n hfree, fun n hfree => hrv.1 n hfree⟩
        · exact hrest.1 d hd
      · simp only [Bool.or_eq_false_iff] at hb
        rw [hps.2.1 hb.1.1.1, hrt.2 hb.1.1.2, hrv.2 hb.1.2, hrest.2.1 hb.2]
      · simp only [case_param_pool]
        rw [hps.2.2]
        exact hrest.2.2 _

theorem apply_wrap_no_escape {env : Env} {s : Scope} {ign : List String}
    {fuel : Nat} {t : Term} {res : Option Term} {vars : List String}
    (hclosed : scope_members_closed env s)
    (hvars : get_free_bound_vars_in_term env fuel t = .ok vars)
    (h : (if !(s.iter_names.any (fun name => name ∈ vars)) then
        pure Option.none
      else
        pure (Option.some (Term.SetBound t
          (filter_scope s (fun member => member.name ∈ vars)))) : M (Option Term))
      = .ok res) :
    ∀ n, FreeBoundVarInTerm env (res.getD t) n → n ∈ s.iter_names → n ∈ ign := by
  have hvars2 : add_free_bound_vars_in_term_to_set env fuel t [] = .ok vars := hvars
  have hsub : ∀ n, FreeBoundVarInTerm env t n → n ∈ vars :=
    ((free_bound_vars_code_sound env fuel) t [] vars hvars2).2
  rcases hc : s.iter_names.any (fun name => name ∈ vars) with _ | _
  · rw [hc] at h
    rw [if_pos (by decide : (!false) = true)] at h
    cases except_pure_ok h
    intro n hfree hn
    exfalso
    rw [List.any_eq_false] at hc
    have hout := hc n hn
    simp only [decide_eq_true_eq] at hout
    exact hout (hsub n hfree)
  · rw [hc] at h
    rw [if_neg (by decide : ¬ ((!true) = true))] at h
    cases except_pure_ok h
    intro n hfree hn
    have hfree2 : FreeBoundVarInTerm env (Term.SetBound t
        (filter_scope s (fun member => member.name ∈ vars))) n := hfree
    clear hfree
    cases hfree2 with
    | set_bound_term _ _ _ h4 hnot =>
        exfalso
        apply hnot
        rw [filter_scope_iter_names]
        rw [Scope.iter_names] at hn
        rcases List.mem_map.mp hn with ⟨m, hm, hname⟩
        refine ⟨m, hm, hname, ?_⟩
        simp only [hname, decide_eq_true_eq]
        exact hsub n h4
    | set_bound_scope _ _ _ h4 =>
        cases h4 with
        | mem_ty _ m ty _ hm hty hfty =>
            exact absurd hfty
              ((hclosed m (filter_scope_members_subset s _ m hm)).1 ty hty n)
        | mem_value _ m v _ hm hv hfv =>
            exact absurd hfv
              ((hclosed m (filter_scope_members_subset s _ m hm)).2 v hv n)

theorem apply_set_bound_to_term_rec_no_escape (env : Env) :
    ∀ (fuel : Nat) (s : Scope) (ign : List String) (t : Term)
      (res : Option Term),
      scope_members_closed env s →
      apply_set_bound_to_term_rec env fuel s ign t = .ok res →
      ∀ n, FreeBoundVarInTerm env (res.getD t) n →
        n ∈ s.iter_names → n ∈ ign := by
  intro fuel
  induction fuel with
  | zero =>
      intro s ign t res hclosed h
      rw [apply_set_bound_to_term_rec] at h
      exact Except.noConfusion h
  | succ fuel ih =>
      intro s ign t res hclosed h
      have hamb : ∀ ign2 : List String, ApplyNoEscape env s ign2
          (apply_set_bound_to_term_rec env fuel s ign2) :=
        fun ign2 u ru hru => ih s ign2 u ru hclosed hru
      cases t with
      | Root =>
          rw [apply_set_bound_to_term_rec] at h
          cases except_pure_ok h
          intro n hfree hn
          cases hfree
      | Var v =>
          rw [apply_set_bound_to_term_rec] at h
          cases except_pure_ok h
          intro n hfree hn
          cases hfree
      | ScopeVar v sc i =>
          rw [apply_set_bound_to_term_rec] at h
          cases except_pure_ok h
          intro n hfree hn
          cases hfree
      | Unresolved i =>
          rw [apply_set_bound_to_term_rec] at h
          cases except_pure_ok h
          intro n hfree hn
          cases hfree
      | BoundVar var =>
          rw [apply_set_bound_to_term_rec] at h
          by_cases hv : var ∈ ign
          · rw [if_pos hv] at h
            cases except_pure_ok h
            intro n hfree hn
            cases hfree with
            | bound_var _ => exact hv
          · rw [if_neg hv] at h
            rcases hget : s.get var with _ | ⟨member, idx⟩
            · rw [hget] at h
              simp only [] at h
              cases except_pure_ok h
              intro n hfree hn
              cases hfree with
              | bound_var _ =>
                  exact absurd hn (Scope.get_none_not_mem s var hget)
            · rw [hget] at h
              simp only [] at h
              rcases hval : member.data.value with _ | value
              · rw [hval] at h
                exact Except.noConfusion h
              · rw [hval] at h
                obtain ⟨applied, hin, h2⟩ := except_bind_ok h
                cases except_pure_ok h2
                intro n hfree hn
                exact ih s ign value applied hclosed hin n hfree hn
      | Access subject aname op =>
          rw [apply_set_bound_to_term_rec] at h
          obtain ⟨r1, h1, h⟩ := except_bind_ok h
          rcases r1 with _ | sa
          · simp only [] at h
            cases except_pure_ok h
            intro n hfree hn
            have hfree2 : FreeBoundVarInTerm env (.Access subject aname op) n :=
              hfree
            clear hfree
            cases hfree2 with
            | access _ _ _ _ h4 =>
                exact ih s ign subject Option.none hclosed h1 n h4 hn
          · simp only [] at h
            cases except_pure_ok h
            intro n hfree hn
            have hfree2 : FreeBoundVarInTerm env (.Access sa aname op) n := hfree
            clear hfree
            cases hfree2 with
            | access _ _ _ _ h4 =>
                exact ih s ign subject (Option.some sa) hclosed h1 n h4 hn
      | Merge ts =>
          rw [apply_set_bound_to_term_rec] at h
          obtain ⟨⟨applied, b⟩, h1, h⟩ := except_bind_ok h
          simp only [] at h
          have hlist := apply_set_bound_to_term_list_with_no_escape
            (hamb ign) ts applied b h1
          by_cases hb : b = true
          · rw [if_pos hb] at h
            cases except_pure_ok h
            intro n hfree hn
            have hfree2 : FreeBoundVarInTerm env (.Merge applied) n := hfree
            clear hfree
            cases hfree2 with
            | merge _ u _ hu h4 => exact hlist.1 u hu n h4 hn
          · rw [if_neg hb] at h
            cases except_pure_ok h
            simp only [Bool.not_eq_true] at hb
            intro n hfree hn
            have hfree2 : FreeBoundVarInTerm env (.Merge applied) n := by
              rw [hlist.2 hb]
              exact hfree
            cases hfree2 with
            | merge _ u _ hu h4 => exact hlist.1 u hu n h4 hn
      | Union ts =>
          rw [apply_set_bound_to_term_rec] at h
          obtain ⟨⟨applied, b⟩, h1, h⟩ := except_bind_ok h
          simp only [] at h
          have hlist := apply_set_bound_to_term_list_with_no_escape
            (hamb ign) ts applied b h1
          by_cases hb : b = true
          · rw [if_pos hb] at h
            cases except_pure_ok h
            intro n hfree hn
            have hfree2 : FreeBoundVarInTerm env (.Union applied) n := hfree
            clear hfree
            cases hfree2 with
            | union _ u _ hu h4 => exact hlist.1 u hu n h4 hn
          · rw [if_neg hb] at h
            cases except_pure_ok h
            simp only [Bool.not_eq_true] at hb
            intro n hfree hn
            have hfree2 : FreeBoundVarInTerm env (.Union applied) n := by
              rw [hlist.2 hb]
              exact hfree
            cases hfree2 with
            | union _ u _ hu h4 => exact hlist.1 u hu n h4 hn
      | TyFn tname gp gr cs =>
          rw [apply_set_bound_to_term_rec] at h
          obtain ⟨⟨gp2, b1⟩, h1, h⟩ := except_bind_ok h
          simp only [] at h
          obtain ⟨⟨gr2, b2⟩, h2, h⟩ := except_bind_ok h
          simp only [] at h
          obtain ⟨⟨cs2, b3⟩, h3, h⟩ := except_bind_ok h
          simp only [] at h
          have hgp := apply_set_bound_to_params_with_no_escape
            (hamb ign) gp gp2 b1 h1
          have hgr := apply_set_bound_with_flag_no_escape
            (hamb (extend_names ign
              (add_param_vars_as_bound_vars_to_set gp []))) h2
          have hcs := apply_set_bound_ty_fn_cases_with_no_escape (hamb ign)
            (hamb (extend_names ign
              (add_param_vars_as_bound_vars_to_set gp [])))
            cs cs2 b3 h3
          by_cases hb : (b1 || b2 || b3) = true
          · rw [if_pos hb] at h
            cases except_pure_ok h
            intro n hfree hn
            have hfree2 : FreeBoundVarInTerm env (.TyFn tname gp2 gr2 cs2) n :=
              hfree
            clear hfree
            cases hfree2 with
            | ty_fn_general_params _ _ _ _ _ h4 => exact hgp.1 n h4 hn
            | ty_fn_case_params _ _ _ _ c _ hc h4 => exact (hcs.1 c hc).1 n h4 hn
            | ty_fn_general_return _ _ _ _ _ h4 hnp =>
                rcases (mem_extend_names _ _ _).mp (hgr.1 n h4 hn) with hi | hp
                · exact hi
                · exfalso
                  apply hnp
                  rw [ty_fn_param_pool]
                  refine (mem_case_param_pool cs2 _ n).mpr (Or.inl ?_)
                  rw [hgp.2.2]
                  exact hp
            | ty_fn_case_return_ty _ _ _ _ c _ hc h4 hnp =>
                rcases (mem_extend_names _ _ _).mp
                    ((hcs.1 c hc).2.1 n h4 hn) with hi | hp
                · exact hi
                · exfalso
                  apply hnp
                  rw [ty_fn_param_pool]
                  refine (mem_case_param_pool cs2 _ n).mpr (Or.inl ?_)
                  rw [hgp.2.2]
                  exact hp
            | ty_fn_case_return_value _ _ _ _ c _ hc h4 hnp =>
                rcases (mem_extend_names _ _ _).mp
                    ((hcs.1 c hc).2.2 n h4 hn) with hi | hp
                · exact hi
                · exfalso
                  apply hnp
                  rw [ty_fn_param_pool]
                  refine (mem_case_param_pool cs2 _ n).mpr (Or.inl ?_)
                  rw [hgp.2.2]
                  exact hp
          · rw [if_neg hb] at h
            cases except_pure_ok h
            simp only [Bool.or_eq_true, not_or, Bool.not_eq_true] at hb
            obtain ⟨⟨hb1, hb2⟩, hb3⟩ := hb
            intro n hfree hn
            have hfree2 : FreeBoundVarInTerm env (.TyFn tname gp2 gr2 cs2) n := by
              rw [hgp.2.1 hb1, hgr.2 hb2, hcs.2.1 hb3]
              exact hfree
            cases hfree2 with
            | ty_fn_general_params _ _ _ _ _ h4 => exact hgp.1 n h4 hn
            | ty_fn_case_params _ _ _ _ c _ hc h4 => exact (hcs.1 c hc).1 n h4 hn
            | ty_fn_general_return _ _ _ _ _ h4 hnp =>
                rcases (mem_extend_names _ _ _).mp (hgr.1 n h4 hn) with hi | hp
                · exact hi
                · exfalso
                  apply hnp
                  rw [ty_fn_param_pool]
                  refine (mem_case_param_pool cs2 _ n).mpr (Or.inl ?_)
                  rw [hgp.2.2]
                  exact hp
            | ty_fn_case_return_ty _ _ _ _ c _ hc h4 hnp =>
                rcases (mem_extend_names _ _ _).mp
                    ((hcs.1 c hc).2.1 n h4 hn) with hi | hp
                · exact hi
                · exfalso
                  apply hnp
                  rw [ty_fn_param_pool]
                  refine (mem_case_param_pool cs2 _ n).mpr (Or.inl ?_)
                  rw [hgp.2.2]
                  exact hp
            | ty_fn_case_return_value _ _ _ _ c _ hc h4 hnp =>
                rcases (mem_extend_names _ _ _).mp
                    ((hcs.1 c hc).2.2 n h4 hn) with hi | hp
                · exact hi
                · exfalso
                  apply hnp
                  rw [ty_fn_param_pool]
                  refine (mem_case_param_pool cs2 _ n).mpr (Or.inl ?_)
                  rw [hgp.2.2]
                  exact hp
      | TyFnTy ps rt =>
          rw [apply_set_bound_to_term_rec] at h
          obtain ⟨⟨ps2, b1⟩, h1, h⟩ := except_bind_ok h
          simp only [] at h
          obtain ⟨⟨rt2, b2⟩, h2, h⟩ := except_bind_ok h
          simp only [] at h
          have hps := apply_set_bound_to_params_with_no_escape
            (hamb ign) ps ps2 b1 h1
          have hrt := apply_set_bound_with_flag_no_escape
            (hamb (extend_names ign
              (add_param_vars_as_bound_vars_to_set ps []))) h2
          by_cases hb : (b1 || b2) = true
          · rw [if_pos hb] at h
            cases except_pure_ok h
            intro n hfree hn
            have hfree2 : FreeBoundVarInTerm env (.TyFnTy ps2 rt2) n := hfree
            clear hfree
            cases hfree2 with
            | ty_fn_ty_params _ _ _ h4 => exact hps.1 n h4 hn
            | ty_fn_ty_return _ _ _ h4 hnp =>
                rcases (mem_extend_names _ _ _).mp (hrt.1 n h4 hn) with hi | hp
                · exact hi
                · exfalso
                  apply hnp
                  rw [hps.2.2]
                  exact hp
          · rw [if_neg hb] at h
            cases except_pure_ok h
            simp only [Bool.or_eq_true, not_or, Bool.not_eq_true] at hb
            intro n hfree hn
            have hfree2 : FreeBoundVarInTerm env (.TyFnTy ps2 rt2) n := by
              rw [hps.2.1 hb.1, hrt.2 hb.2]
              exact hfree
            cases hfree2 with
            | ty_fn_ty_params _ _ _ h4 => exact hps.1 n h4 hn
            | ty_fn_ty_return _ _ _ h4 hnp =>
                rcases (mem_extend_names _ _ _).mp (hrt.1 n h4 hn) with hi | hp
                · exact hi
                · exfalso
                  apply hnp
                  rw [hps.2.2]
                  exact hp
      | TyFnCall subject args =>
          rw [apply_set_bound_to_term_rec] at h
          obtain ⟨⟨s2, b1⟩, h1, h⟩ := except_bind_ok h
          simp only [] at h
          obtain ⟨⟨a2, b2⟩, h2, h⟩ := except_bind_ok h
          simp only [] at h
          have hs2 := apply_set_bound_with_flag_no_escape (hamb ign) h1
          have ha2 := apply_set_bound_to_args_with_no_escape
            (hamb ign) args a2 b2 h2
          by_cases hb : (b1 || b2) = true
          · rw [if_pos hb] at h
            cases except_pure_ok h
            intro n hfree hn
            have hfree2 : FreeBoundVarInTerm env (.TyFnCall s2 a2) n := hfree
            clear hfree
            cases hfree2 with
            | ty_fn_call_subject _ _ _ h4 => exact hs2.1 n h4 hn
            | ty_fn_call_args _ _ _ h4 => exact ha2.1 n h4 hn
          · rw [if_neg hb] at h
            cases except_pure_ok h
            simp only [Bool.or_eq_true, not_or, Bool.not_eq_true] at hb
            intro n hfree hn
            have hfree2 : FreeBoundVarInTerm env (.TyFnCall s2 a2) n := by
              rw [hs2.2 hb.1, ha2.2 hb.2]
              exact hfree
            cases hfree2 with
            | ty_fn_call_subject _ _ _ h4 => exact hs2.1 n h4 hn
            | ty_fn_call_args _ _ _ h4 => exact ha2.1 n h4 hn
      | TyOf inner =>
          rw [apply_set_bound_to_term_rec] at h
          obtain ⟨⟨t2, b⟩, h1, h⟩ := except_bind_ok h
          simp only [] at h
          have ht2 := apply_set_bound_with_flag_no_escape (hamb ign) h1
          by_cases hb : b = true
          · rw [if_pos hb] at h
            cases except_pure_ok h
            intro n hfree hn
            have hfree2 : FreeBoundVarInTerm env (.TyOf t2) n := hfree
            clear hfree
            cases hfree2 with
            | ty_of _ _ h4 => exact ht2.1 n h4 hn
          · rw [if_neg hb] at h
            cases except_pure_ok h
            simp only [Bool.not_eq_true] at hb
            intro n hfree hn
            have hfree2 : FreeBoundVarInTerm env (.TyOf t2) n := by
              rw [ht2.2 hb]
              exact hfree
            cases hfree2 with
            | ty_of _ _ h4 => exact ht2.1 n h4 hn
      | SetBound inner sc =>
          rw [apply_set_bound_to_term_rec] at h
          obtain ⟨vars, hvars, h⟩ := except_bind_ok h
          exact apply_wrap_no_escape hclosed hvars h
      | Level0 l0 =>
          cases l0 with
          | Rt inner =>
              rw [apply_set_bound_to_term_rec] at h
              obtain ⟨r1, h1, h⟩ := except_bind_ok h
              rcases r1 with _ | ra
              · simp only [] at h
                cases except_pure_ok h
                intro n hfree hn
                have hfree2 : FreeBoundVarInTerm env (.Level0 (.Rt inner)) n :=
                  hfree
                clear hfree
                cases hfree2 with
                | rt _ _ h4 =>
                    exact ih s ign inner Option.none hclosed h1 n h4 hn
              · simp only [] at h
                cases except_pure_ok h
                intro n hfree hn
                have hfree2 : FreeBoundVarInTerm env (.Level0 (.Rt ra)) n := hfree
                clear hfree
                cases hfree2 with
                | rt _ _ h4 =>
                    exact ih s ign inner (Option.some ra) hclosed h1 n h4 hn
          | FnLit fn_ty rv =>
              rw [apply_set_bound_to_term_rec] at h
              obtain ⟨⟨t2, b1⟩, h1, h⟩ := except_bind_ok h
              simp only [] at h
              obtain ⟨⟨rv2, b2⟩, h2, h⟩ := except_bind_ok h
              simp only [] at h
              have ht2 := apply_set_bound_with_flag_no_escape (hamb ign) h1
              have hrv := apply_set_bound_with_flag_no_escape (hamb ign) h2
              by_cases hb : (b1 || b2) = true
              · rw [if_pos hb] at h
                cases except_pure_ok h
                intro n hfree hn
                have hfree2 : FreeBoundVarInTerm env
                    (.Level0 (.FnLit t2 rv2)) n := hfree
                clear hfree
                cases hfree2 with
                | fn_lit_ty _ _ _ h4 => exact ht2.1 n h4 hn
                | fn_lit_value _ _ _ h4 => exact hrv.1 n h4 hn
              · rw [if_neg hb] at h
                cases except_pure_ok h
                simp only [Bool.or_eq_true, not_or, Bool.not_eq_true] at hb
                intro n hfree hn
                have hfree2 : FreeBoundVarInTerm env
                    (.Level0 (.FnLit t2 rv2)) n := by
                  rw [ht2.2 hb.1, hrv.2 hb.2]
                  exact hfree
                cases hfree2 with
                | fn_lit_ty _ _ _ h4 => exact ht2.1 n h4 hn
                | fn_lit_value _ _ _ h4 => exact hrv.1 n h4 hn
          | FnCall subject args =>
              rw [apply_set_bound_to_term_rec] at h
              obtain ⟨⟨s2, b1⟩, h1, h⟩ := except_bind_ok h
              simp only [] at h
              obtain ⟨⟨a2, b2⟩, h2, h⟩ := except_bind_ok h
              simp only [] at h
              have hs2 := apply_set_bound_with_flag_no_escape (hamb ign) h1
              have ha2 := apply_set_bound_to_args_with_no_escape
                (hamb ign) args a2 b2 h2
              by_cases hb : (b1 || b2) = true
              · rw [if_pos hb] at h
                cases except_pure_ok h
                intro n hfree hn
                have hfree2 : FreeBoundVarInTerm env
                    (.Level0 (.FnCall s2 a2)) n := hfree
                clear hfree
                cases hfree2 with
                | fn_call_subject _ _ _ h4 => exact hs2.1 n h4 hn
                | fn_call_args _ _ _ h4 => exact ha2.1 n h4 hn
              · rw [if_neg hb] at h
                cases except_pure_ok h
                simp only [Bool.or_eq_true, not_or, Bool.not_eq_true] at hb
                intro n hfree hn
                have hfree2 : FreeBoundVarInTerm env
                    (.Level0 (.FnCall s2 a2)) n := by
                  rw [hs2.2 hb.1, ha2.2 hb.2]
                  exact hfree
                cases hfree2 with
                | fn_call_subject _ _ _ h4 => exact hs2.1 n h4 hn
                | fn_call_args _ _ _ h4 => exact ha2.1 n h4 hn
          | Tuple members =>
              rw [apply_set_bound_to_term_rec] at h
              obtain ⟨⟨ms2, b⟩, h1, h⟩ := except_bind_ok h
              simp only [] at h
              have hms := apply_set_bound_to_args_with_no_escape
                (hamb ign) members ms2 b h1
              by_cases hb : b = true
              · rw [if_pos hb] at h
                cases except_pure_ok h
                intro n hfree hn
                have hfree2 : FreeBoundVarInTerm env
                    (.Level0 (.Tuple ms2)) n := hfree
                clear hfree
                cases hfree2 with
                | tuple_lit _ _ h4 => exact hms.1 n h4 hn
              · rw [if_neg hb] at h
                cases except_pure_ok h
                simp only [Bool.not_eq_true] at hb
                intro n hfree hn
                have hfree2 : FreeBoundVarInTerm env
                    (.Level0 (.Tuple ms2)) n := by
                  rw [hms.2 hb]
                  exact hfree
                cases hfree2 with
                | tuple_lit _ _ h4 => exact hms.1 n h4 hn
          | Constructed subject members =>
              rw [apply_set_bound_to_term_rec] at h
              obtain ⟨⟨s2, b1⟩, h1, h⟩ := except_bind_ok h
              simp only [] at h
              obtain ⟨⟨ms2, b2⟩, h2, h⟩ := except_bind_ok h
              simp only [] at h
              have hs2 := apply_set_bound_with_flag_no_escape (hamb ign) h1
              have hms := apply_set_bound_to_args_with_no_escape
                (hamb ign) members ms2 b2 h2
              by_cases hb : (b1 || b2) = true
              · rw [if_pos hb] at h
                cases except_pure_ok h
                intro n hfree hn
                have hfree2 : FreeBoundVarInTerm env
                    (.Level0 (.Constructed s2 ms2)) n := hfree
                clear hfree
                cases hfree2 with
                | constructed_subject _ _ _ h4 => exact hs2.1 n h4 hn
                | constructed_members _ _ _ h4 => exact hms.1 n h4 hn
              · rw [if_neg hb] at h
                cases except_pure_ok h
                simp only [Bool.or_eq_true, not_or, Bool.not_eq_true] at hb
                intro n hfree hn
                have hfree2 : FreeBoundVarInTerm env
                    (.Level0 (.Constructed s2 ms2)) n := by
                  rw [hs2.2 hb.1, hms.2 hb.2]
                  exact hfree
                cases hfree2 with
                | constructed_subject _ _ _ h4 => exact hs2.1 n h4 hn
                | constructed_members _ _ _ h4 => exact hms.1 n h4 hn
          | EnumVariant eid vn =>
              rw [apply_set_bound_to_term_rec] at h
              cases except_pure_ok h
              intro n hfree hn
              cases hfree
          | Lit v =>
              rw [apply_set_bound_to_term_rec] at h
              cases except_pure_ok h
              intro n hfree hn
              cases hfree
      | Level1 l1 =>
          cases l1 with
          | ModDef id =>
              rw [apply_set_bound_to_term_rec] at h
              obtain ⟨vars, hvars, h⟩ := except_bind_ok h
              exact apply_wrap_no_escape hclosed hvars h
          | NominalDef id =>
              rw [apply_set_bound_to_term_rec] at h
              obtain ⟨vars, hvars, h⟩ := except_bind_ok h
              exact apply_wrap_no_escape hclosed hvars h
          | Tuple members =>
              rw [apply_set_bound_to_term_rec] at h
              obtain ⟨⟨ms2, b⟩, h1, h⟩ := except_bind_ok h
              simp only [] at h
              have hms := apply_set_bound_to_params_with_no_escape
                (hamb ign) members ms2 b h1
              by_cases hb : b = true
              · rw [if_pos hb] at h
                cases except_pure_ok h
                intro n hfree hn
                have hfree2 : FreeBoundVarInTerm env
                    (.Level1 (.Tuple ms2)) n := hfree
                clear hfree
                cases hfree2 with
                | level1_tuple _ _ h4 => exact hms.1 n h4 hn
              · rw [if_neg hb] at h
                cases except_pure_ok h
                simp only [Bool.not_eq_true] at hb
                intro n hfree hn
                have hfree2 : FreeBoundVarInTerm env
                    (.Level1 (.Tuple ms2)) n := by
                  rw [hms.2.1 hb]
                  exact hfree
                cases hfree2 with
                | level1_tuple _ _ h4 => exact hms.1 n h4 hn
          | Fn params return_ty =>
              rw [apply_set_bound_to_term_rec] at h
              obtain ⟨⟨ps2, b1⟩, h1, h⟩ := except_bind_ok h
              simp only [] at h
              obtain ⟨⟨rt2, b2⟩, h2, h⟩ := except_bind_ok h
              simp only [] at h
              have hps := apply_set_bound_to_params_with_no_escape
                (hamb ign) params ps2 b1 h1
              have hrt := apply_set_bound_with_flag_no_escape (hamb ign) h2
              by_cases hb : (b1 || b2) = true
              · rw [if_pos hb] at h
                cases except_pure_ok h
                intro n hfree hn
                have hfree2 : FreeBoundVarInTerm env
                    (.Level1 (.Fn ps2 rt2)) n := hfree
                clear hfree
                cases hfree2 with
                | level1_fn_params _ _ _ h4 => exact hps.1 n h4 hn
                | level1_fn_return _ _ _ h4 => exact hrt.1 n h4 hn
              · rw [if_neg hb] at h
                cases except_pure_ok h
                simp only [Bool.or_eq_true, not_or, Bool.not_eq_true] at hb
                intro n hfree hn
                have hfree2 : FreeBoundVarInTerm env
                    (.Level1 (.Fn ps2 rt2)) n := by
                  rw [hps.2.1 hb.1, hrt.2 hb.2]
                  exact hfree
                cases hfree2 with
                | level1_fn_params _ _ _ h4 => exact hps.1 n h4 hn
                | level1_fn_return _ _ _ h4 => exact hrt.1 n h4 hn
      | Level2 l2 =>
          cases l2 with
          | Trt id =>
              rw [apply_set_bound_to_term_rec] at h
              obtain ⟨vars, hvars, h⟩ := except_bind_ok h
              exact apply_wrap_no_escape hclosed hvars h
          | AnyTy =>
              rw [apply_set_bound_to_term_rec] at h
              cases except_pure_ok h
              intro n hfree hn
              cases hfree
      | Level3 l3 =>
          cases l3 with
          | TrtKind =>
              rw [apply_set_bound_to_term_rec] at h
              cases except_pure_ok h
              intro n hfree hn
              cases hfree

/-- C9 (amended): for every term t and SetBound scope s whose members
are all closed, whenever apply_set_bound_to_term succeeds, the resulting
term (or the unchanged input, when no application occurred) has no free
bound variable referencing a name of s, under the strict binding
semantics in which nested binders and nested SetBound wrappers shadow
the names they bind. The original conjunct that re-introduced wrappers
retain only the members whose names occur strictly free in the wrapped
term is dropped: the code keeps every member whose name occurs in its
own free-bound-variable computation, which treats nested SetBound
wrappers as non-binding (see the counterexample). -/
theorem apply_set_bound_no_escape_amended (env : Env) (fuel : Nat) (s : Scope)
    (t : Term) (res : Option Term)
    (hclosed : scope_members_closed env s)
    (h : apply_set_bound_to_term env fuel s t = .ok res) :
    ∀ n, FreeBoundVarInTerm env (res.getD t) n → n ∉ s.iter_names := by
  intro n hfree hn
  exact absurd
    (apply_set_bound_to_term_rec_no_escape env fuel s [] t res hclosed h
      n hfree hn)
    (List.not_mem_nil n)

theorem apply_set_bound_no_escape_amended_witness :
    scope_members_closed Env.empty
      (Scope.mk .SetBound (.cons (.mk "x"
        (.InitialisedWithTy (Term.Level2 .AnyTy) (Term.Level1 (.Tuple .nil))))
        .nil))
    ∧ apply_set_bound_to_term Env.empty 3
        (Scope.mk .SetBound (.cons (.mk "x"
          (.InitialisedWithTy (Term.Level2 .AnyTy) (Term.Level1 (.Tuple .nil))))
          .nil))
        (Term.Merge (.cons (.BoundVar "x") (.cons (.BoundVar "z") .nil)))
      = .ok (some (Term.Merge (.cons (Term.Level1 (.Tuple .nil))
          (.cons (.BoundVar "z") .nil))))
    ∧ "z" ∉ (Scope.mk ScopeKind.SetBound (.cons (.mk "x"
        (.InitialisedWithTy (Term.Level2 .AnyTy) (Term.Level1 (.Tuple .nil))))
        .nil)).iter_names := by
  have hclosed : scope_members_closed Env.empty
      (Scope.mk .SetBound (.cons (.mk "x"
        (.InitialisedWithTy (Term.Level2 .AnyTy) (Term.Level1 (.Tuple .nil))))
        .nil)) := by
    intro m hm
    simp only [Scope.members, MemberList.toList, List.mem_cons,
      List.not_mem_nil, or_false] at hm
    subst hm
    constructor
    · intro ty hty n hf
      simp only [Member.data, MemberData.ty] at hty
      cases hty
      cases hf
    · intro v hv n hf
      simp only [Member.data, MemberData.value] at hv
      cases hv
      cases hf with
      | level1_tuple _ _ hfp => cases hfp
  refine ⟨hclosed, rfl, ?_⟩
  exact apply_set_bound_no_escape_amended Env.empty 3
    (Scope.mk .SetBound (.cons (.mk "x"
      (.InitialisedWithTy (Term.Level2 .AnyTy) (Term.Level1 (.Tuple .nil))))
      .nil))
    (Term.Merge (.cons (.BoundVar "x") (.cons (.BoundVar "z") .nil)))
    (some (Term.Merge (.cons (Term.Level1 (.Tuple .nil))
      (.cons (.BoundVar "z") .nil))))
    hclosed rfl "z"
    (FreeBoundVarInTerm.merge _ (.BoundVar "z") "z"
      (by simp [TermList.toList]) (.bound_var "z"))

theorem except_bind_eq {α β : Type} {m : M α} {a : α} (h : m = .ok a)
    (k : α → M β) : (m >>= k) = k a := by
  rw [h]
  rfl

theorem pot_simplify_eq {prev : Interp} {stack : List Scope} {t : Term}
    {pss : Option Term} (h : prev.simplify_term stack t = .ok pss) :
    pot_simplify prev stack t = .ok (pss.getD t) := by
  rw [pot_simplify, h]
  rfl

theorem apply_ty_fn_cases_loop_all_fail {uw : ParamList → M SubMap}
    {wrap : ParamList → Term → M Term} :
    ∀ (cases : CaseList) (errs : List TcError),
      List.Forall₂ (fun c e => uw c.params = .error (.tcError e))
        cases.toList errs →
      apply_ty_fn_cases_loop uw wrap cases = .ok (errs, []) := by
  intro cases
  induction cases using CaseList.inductionOnCases with
  | nil =>
      intro errs h
      rw [CaseList.toList] at h
      cases h
      rw [apply_ty_fn_cases_loop]
      rfl
  | cons c cs ih =>
      intro errs h
      rcases c with ⟨ps, rt, rv⟩
      rw [CaseList.toList] at h
      cases h with
      | cons hce htail =>
          simp only [TyFnCase.params] at hce
          rw [apply_ty_fn_cases_loop, hce]
          simp only []
          rw [ih _ htail]
          rfl

/-- C1: the method synthesis of
turn_accessed_ty_and_subject_ty_into_method does not apply the
unification substitution to the return type. On an accessed function
type (self : U5, x : U5) -> U5 with subject type N0, unifying the first
parameter type with the subject produces the substitution U5 to N0; the
synthesised method is a runtime term of the function type (x : N0) -> U5:
the remaining parameter types are substituted but the return type is
returned unsubstituted, although applying the substitution to it would
give N0. This contradicts the claim (and the specification), which
require the substitution to be applied to both the remaining parameters
and the return type; the source computes the substituted return type
into an unused variable. -/
theorem turn_accessed_ty_keeps_original_return_ty :
    step_turn_accessed Env.empty 5 noFuelInterp []
      (.Level1 (.Fn
        (.cons (.mk (Option.some "self") (.Unresolved 5) .none)
          (.cons (.mk (Option.some "x") (.Unresolved 5) .none) .nil))
        (.Unresolved 5)))
      (.Level1 (.NominalDef 0)) .Root "hash"
    = .ok (.Level0 (.Rt (.Level1 (.Fn
        (.cons (.mk (Option.some "x") (.Level1 (.NominalDef 0)) .none) .nil)
        (.Unresolved 5)))))
    ∧ unify_terms_spec 5 (.Level1 (.NominalDef 0)) (.Unresolved 5)
        = .ok [(.unresolved 5, .Level1 (.NominalDef 0))]
    ∧ apply_sub_to_term_spec [(.unresolved 5, .Level1 (.NominalDef 0))]
        (.Unresolved 5) = .Level1 (.NominalDef 0)
    ∧ Term.beq (.Unresolved 5) (.Level1 (.NominalDef 0)) = false :=
  ⟨rfl, rfl, rfl, rfl⟩

/-- Counterexample to the single-success conjunct of C3: a type-function
application with exactly one case, whose case matches, simplifies to a
Merge wrapping the single set-bound-applied return value, not to that
value itself. -/
theorem apply_ty_fn_single_case_merge_wrap_counterexample :
    simplify_term Env.empty 12
      (Term.TyFnCall
        (.TyFn (Option.some "F")
          (.cons (.mk (Option.some "T") (.Level2 .AnyTy) .none) .nil)
          (.Level2 .AnyTy)
          (.cons (.mk (.cons (.mk (Option.some "T") (.Level2 .AnyTy) .none) .nil)
            (.Level2 .AnyTy)
            (.Merge (.cons (.BoundVar "T")
              (.cons (.Level1 (.Tuple .nil)) .nil)))) .nil))
        (.cons (.mk Option.none (.Level1 (.Tuple .nil))) .nil))
    = .ok (Option.some (.Merge (.cons
        (.Merge (.cons (.Level1 (.Tuple .nil))
          (.cons (.Level1 (.Tuple .nil)) .nil))) .nil)))
    ∧ ty_fn_case_wrap Env.empty 12
        (.cons (.mk Option.none (.Level1 (.Tuple .nil))) .nil)
        (.cons (.mk (Option.some "T") (.Level2 .AnyTy) .none) .nil)
        (.Merge (.cons (.BoundVar "T") (.cons (.Level1 (.Tuple .nil)) .nil)))
      = .ok (.Merge (.cons (.Level1 (.Tuple .nil))
          (.cons (.Level1 (.Tuple .nil)) .nil)))
    ∧ Term.beq
        (.Merge (.cons
          (.Merge (.cons (.Level1 (.Tuple .nil))
            (.cons (.Level1 (.Tuple .nil)) .nil))) .nil))
        (.Merge (.cons (.Level1 (.Tuple .nil))
          (.cons (.Level1 (.Tuple .nil)) .nil)))
      = false :=
  ⟨rfl, rfl, rfl⟩

/-- C3 (amended): when the subject of a type-function application
simplifies to a TyFn, the general parameters unify with the arguments,
and the case loop yields at least one successful result, apply_ty_fn
returns the Merge of all the set-bound-wrapped case results, in case
order, regardless of how many cases succeeded. The original claim is
false for exactly one success: the single result is still wrapped in a
Merge (see the counterexample). -/
theorem apply_ty_fn_merges_all_case_results (env : Env) (dfuel : Nat)
    (prev : Interp) (stack : List Scope) (subject : Term) (args : ArgList)
    (pss : Option Term) (tname : Option String) (gps : ParamList) (grt : Term)
    (cases : CaseList) (gsub : SubMap) (errors : List TcError)
    (r : Term) (rs : List Term)
    (hsimp : prev.simplify_term stack subject = .ok pss)
    (hsubj : pss.getD subject = .TyFn tname gps grt cases)
    (hgen : prev.unify_params_with_args stack gps args = .ok gsub)
    (hloop : apply_ty_fn_cases_loop
      (fun ps => prev.unify_params_with_args stack ps args)
      (ty_fn_case_wrap env dfuel args)
      cases = .ok (errors, r :: rs)) :
    step_apply_ty_fn env dfuel prev stack subject args
      = .ok (Option.some (.Merge (TermList.ofList (r :: rs)))) := by
  rw [step_apply_ty_fn]
  rw [hsimp]
  simp only [Bind.bind, Except.bind]
  rw [hsubj]
  simp only []
  rw [hgen]
  simp only []
  rw [hloop]
  simp only []
  rfl

theorem apply_ty_fn_merges_all_case_results_witness :
    apply_ty_fn_cases_loop
      (fun ps => (S Env.empty 12 11).unify_params_with_args [] ps
        (.cons (.mk Option.none (.Level1 (.Tuple .nil))) .nil))
      (ty_fn_case_wrap Env.empty 12
        (.cons (.mk Option.none (.Level1 (.Tuple .nil))) .nil))
      (.cons (.mk (.cons (.mk (Option.some "T") (.Level2 .AnyTy) .none) .nil)
        (.Level2 .AnyTy)
        (.Merge (.cons (.BoundVar "T")
          (.cons (.Level1 (.Tuple .nil)) .nil)))) .nil)
      = .ok ([], [.Merge (.cons (.Level1 (.Tuple .nil))
          (.cons (.Level1 (.Tuple .nil)) .nil))])
    ∧ step_apply_ty_fn Env.empty 12 (S Env.empty 12 11) []
        (.TyFn (Option.some "F")
          (.cons (.mk (Option.some "T") (.Level2 .AnyTy) .none) .nil)
          (.Level2 .AnyTy)
          (.cons (.mk (.cons (.mk (Option.some "T") (.Level2 .AnyTy) .none) .nil)
            (.Level2 .AnyTy)
            (.Merge (.cons (.BoundVar "T")
              (.cons (.Level1 (.Tuple .nil)) .nil)))) .nil))
        (.cons (.mk Option.none (.Level1 (.Tuple .nil))) .nil)
      = .ok (Option.some (.Merge (.cons
          (.Merge (.cons (.Level1 (.Tuple .nil))
            (.cons (.Level1 (.Tuple .nil)) .nil))) .nil))) :=
  ⟨rfl,
    apply_ty_fn_merges_all_case_results Env.empty 12 (S Env.empty 12 11) []
      (.TyFn (Option.some "F")
        (.cons (.mk (Option.some "T") (.Level2 .AnyTy) .none) .nil)
        (.Level2 .AnyTy)
        (.cons (.mk (.cons (.mk (Option.some "T") (.Level2 .AnyTy) .none) .nil)
          (.Level2 .AnyTy)
          (.Merge (.cons (.BoundVar "T")
            (.cons (.Level1 (.Tuple .nil)) .nil)))) .nil))
      (.cons (.mk Option.none (.Level1 (.Tuple .nil))) .nil)
      Option.none (Option.some "F")
      (.cons (.mk (Option.some "T") (.Level2 .AnyTy) .none) .nil)
      (.Level2 .AnyTy)
      (.cons (.mk (.cons (.mk (Option.some "T") (.Level2 .AnyTy) .none) .nil)
        (.Level2 .AnyTy)
        (.Merge (.cons (.BoundVar "T")
          (.cons (.Level1 (.Tuple .nil)) .nil)))) .nil)
      [] []
      (.Merge (.cons (.Level1 (.Tuple .nil))
        (.cons (.Level1 (.Tuple .nil)) .nil)))
      []
      rfl rfl rfl rfl⟩

/-- C5: when access is applied to a subject that simplifies to a Merge,
the access is attempted on each element with the recursive
apply_access_term, the non-error non-empty results are collected in
order, and the outcome is dispatched on their count: none leaves the
access unchanged, exactly one is returned directly, and two or more
fail with AmbiguousAccess carrying the rewritten access term and all
collected results. -/
theorem apply_access_on_merge_result_count (env : Env) (dfuel : Nat)
    (prev : Interp) (stack : List Scope) (at_ : AccessTerm)
    (pss : Option Term) (ts : TermList) (rs : List Term)
    (hsimp : prev.simplify_term stack at_.subject = .ok pss)
    (hsubj : pss.getD at_.subject = .Merge ts)
    (hcollect : merge_access_collect (prev.apply_access_term stack)
      { at_ with subject := .Merge ts } ts = .ok rs) :
    step_apply_access_term env dfuel prev stack at_ =
      match rs with
      | [] => .ok Option.none
      | [r] => .ok (Option.some r)
      | _ => .error (.tcError (.AmbiguousAccess
          { at_ with subject := .Merge ts } rs)) := by
  rw [step_apply_access_term]
  rw [except_bind_eq (pot_simplify_eq hsimp)]
  simp only []
  rw [hsubj]
  simp only []
  rw [except_bind_eq hcollect]
  rcases rs with _ | ⟨r, _ | ⟨r2, rest⟩⟩ <;> rfl

theorem apply_access_on_merge_result_count_witness :
    merge_access_collect ((S Env.empty 12 11).apply_access_term [])
      ⟨.Merge (.cons
          (.Level0 (.Tuple (.cons (.mk (Option.some "x")
            (.Level0 (.Lit 1))) .nil)))
          (.cons (.Level0 (.Tuple (.cons (.mk (Option.some "x")
            (.Level0 (.Lit 2))) .nil))) .nil)),
        "x", .Property⟩
      (.cons
        (.Level0 (.Tuple (.cons (.mk (Option.some "x")
          (.Level0 (.Lit 1))) .nil)))
        (.cons (.Level0 (.Tuple (.cons (.mk (Option.some "x")
          (.Level0 (.Lit 2))) .nil))) .nil))
      = .ok [.Level0 (.Lit 1), .Level0 (.Lit 2)]
    ∧ step_apply_access_term Env.empty 12 (S Env.empty 12 11) []
        ⟨.Merge (.cons
            (.Level0 (.Tuple (.cons (.mk (Option.some "x")
              (.Level0 (.Lit 1))) .nil)))
            (.cons (.Level0 (.Tuple (.cons (.mk (Option.some "x")
              (.Level0 (.Lit 2))) .nil))) .nil)),
          "x", .Property⟩
      = .error (.tcError (.AmbiguousAccess
          ⟨.Merge (.cons
              (.Level0 (.Tuple (.cons (.mk (Option.some "x")
                (.Level0 (.Lit 1))) .nil)))
              (.cons (.Level0 (.Tuple (.cons (.mk (Option.some "x")
                (.Level0 (.Lit 2))) .nil))) .nil)),
            "x", .Property⟩
          [.Level0 (.Lit 1), .Level0 (.Lit 2)])) :=
  ⟨rfl,
    apply_access_on_merge_result_count Env.empty 12 (S Env.empty 12 11) []
      ⟨.Merge (.cons
          (.Level0 (.Tuple (.cons (.mk (Option.some "x")
            (.Level0 (.Lit 1))) .nil)))
          (.cons (.Level0 (.Tuple (.cons (.mk (Option.some "x")
            (.Level0 (.Lit 2))) .nil))) .nil)),
        "x", .Property⟩
      Option.none
      (.cons
        (.Level0 (.Tuple (.cons (.mk (Option.some "x")
          (.Level0 (.Lit 1))) .nil)))
        (.cons (.Level0 (.Tuple (.cons (.mk (Option.some "x")
          (.Level0 (.Lit 2))) .nil))) .nil))
      [.Level0 (.Lit 1), .Level0 (.Lit 2)]
      rfl rfl rfl⟩

/-- Counterexample to C6 as stated: when the general parameters of the
type function do not unify with the arguments, apply_ty_fn fails with
the general unification error itself, not with InvalidTyFnApplication,
even though no case unifies either (the sole case fails with the same
unification error, shown by the second conjunct). -/
theorem apply_ty_fn_general_unify_error_counterexample :
    simplify_term Env.empty 12
      (Term.TyFnCall
        (.TyFn (Option.some "G")
          (.cons (.mk (Option.some "T")
            (.Level1 (.NominalDef 1)) .none) .nil)
          (.Level2 .AnyTy)
          (.cons (.mk (.cons (.mk (Option.some "T")
            (.Level1 (.NominalDef 1)) .none) .nil)
            (.Level2 .AnyTy) (.Level1 (.Tuple .nil))) .nil))
        (.cons (.mk Option.none
          (.Level0 (.Rt (.Level1 (.NominalDef 0))))) .nil))
    = .error (.tcError (.CannotUnify (.Level1 (.NominalDef 0))
        (.Level1 (.NominalDef 1))))
    ∧ (S Env.empty 12 11).unify_params_with_args []
        (.cons (.mk (Option.some "T") (.Level1 (.NominalDef 1)) .none) .nil)
        (.cons (.mk Option.none
          (.Level0 (.Rt (.Level1 (.NominalDef 0))))) .nil)
      = .error (.tcError (.CannotUnify (.Level1 (.NominalDef 0))
          (.Level1 (.NominalDef 1)))) :=
  ⟨rfl, rfl⟩

/-- C6 (amended): when the subject of a type-function application
simplifies to a TyFn, the general parameters unify with the arguments,
and every case fails to unify its parameters with the arguments,
apply_ty_fn fails with InvalidTyFnApplication carrying the simplified
subject, the cases, the arguments, and the per-case unification errors
aligned with the cases in case order. The original claim omits the
prior general-parameter unification: when that unification fails, its
error is returned instead of InvalidTyFnApplication (see the
counterexample). -/
theorem apply_ty_fn_collects_case_errors_in_order (env : Env) (dfuel : Nat)
    (prev : Interp) (stack : List Scope) (subject : Term) (args : ArgList)
    (pss : Option Term) (tname : Option String) (gps : ParamList) (grt : Term)
    (cases : CaseList) (gsub : SubMap) (errs : List TcError)
    (hsimp : prev.simplify_term stack subject = .ok pss)
    (hsubj : pss.getD subject = .TyFn tname gps grt cases)
    (hgen : prev.unify_params_with_args stack gps args = .ok gsub)
    (hfail : List.Forall₂
      (fun c e => prev.unify_params_with_args stack c.params args
        = .error (.tcError e)) cases.toList errs) :
    step_apply_ty_fn env dfuel prev stack subject args
      = .error (.tcError (.InvalidTyFnApplication (.TyFn tname gps grt cases)
          cases args errs)) := by
  rw [step_apply_ty_fn]
  rw [hsimp]
  simp only [Bind.bind, Except.bind]
  rw [hsubj]
  simp only []
  rw [hgen]
  simp only []
  rw [apply_ty_fn_cases_loop_all_fail cases errs hfail]
  simp only []
  rfl

theorem apply_ty_fn_collects_case_errors_in_order_witness :
    (S Env.empty 12 11).unify_params_with_args []
      (.cons (.mk (Option.some "T") (.Level2 .AnyTy) .none) .nil)
      (.cons (.mk Option.none (.Level1 (.Tuple .nil))) .nil) = .ok []
    ∧ (S Env.empty 12 11).unify_params_with_args []
      (.cons (.mk (Option.some "T") (.Level1 (.NominalDef 1)) .none) .nil)
      (.cons (.mk Option.none (.Level1 (.Tuple .nil))) .nil)
      = .error (.tcError (.CannotUnify (.Level2 .AnyTy)
          (.Level1 (.NominalDef 1))))
    ∧ step_apply_ty_fn Env.empty 12 (S Env.empty 12 11) []
        (.TyFn (Option.some "H")
          (.cons (.mk (Option.some "T") (.Level2 .AnyTy) .none) .nil)
          (.Level2 .AnyTy)
          (.cons (.mk (.cons (.mk (Option.some "T")
            (.Level1 (.NominalDef 1)) .none) .nil)
            (.Level2 .AnyTy) (.Level1 (.Tuple .nil))) .nil))
        (.cons (.mk Option.none (.Level1 (.Tuple .nil))) .nil)
      = .error (.tcError (.InvalidTyFnApplication
          (.TyFn (Option.some "H")
            (.cons (.mk (Option.some "T") (.Level2 .AnyTy) .none) .nil)
            (.Level2 .AnyTy)
            (.cons (.mk (.cons (.mk (Option.some "T")
              (.Level1 (.NominalDef 1)) .none) .nil)
              (.Level2 .AnyTy) (.Level1 (.Tuple .nil))) .nil))
          (.cons (.mk (.cons (.mk (Option.some "T")
            (.Level1 (.NominalDef 1)) .none) .nil)
            (.Level2 .AnyTy) (.Level1 (.Tuple .nil))) .nil)
          (.cons (.mk Option.none (.Level1 (.Tuple .nil))) .nil)
          [.CannotUnify (.Level2 .AnyTy) (.Level1 (.NominalDef 1))])) :=
  ⟨rfl, rfl,
    apply_ty_fn_collects_case_errors_in_order Env.empty 12
      (S Env.empty 12 11) []
      (.TyFn (Option.some "H")
        (.cons (.mk (Option.some "T") (.Level2 .AnyTy) .none) .nil)
        (.Level2 .AnyTy)
        (.cons (.mk (.cons (.mk (Option.some "T")
          (.Level1 (.NominalDef 1)) .none) .nil)
          (.Level2 .AnyTy) (.Level1 (.Tuple .nil))) .nil))
      (.cons (.mk Option.none (.Level1 (.Tuple .nil))) .nil)
      Option.none (Option.some "H")
      (.cons (.mk (Option.some "T") (.Level2 .AnyTy) .none) .nil)
      (.Level2 .AnyTy)
      (.cons (.mk (.cons (.mk (Option.some "T")
        (.Level1 (.NominalDef 1)) .none) .nil)
        (.Level2 .AnyTy) (.Level1 (.Tuple .nil))) .nil)
      [] [.CannotUnify (.Level2 .AnyTy) (.Level1 (.NominalDef 1))]
      rfl rfl rfl
      (List.Forall₂.cons rfl List.Forall₂.nil)⟩

/-- C8: simplification is not idempotent. Simplifying the given
type-function application yields the nested merge r1; simplifying r1
again flattens and deduplicates it into a different term r2: a second
simplification pass produces a term that is not equal to the first
result. The first pass builds the Merge of the case results without
normalizing it, while the second pass runs the merge normalization. -/
theorem simplify_term_not_idempotent :
    simplify_term Env.empty 12
      (Term.TyFnCall
        (.TyFn (Option.some "F")
          (.cons (.mk (Option.some "T") (.Level2 .AnyTy) .none) .nil)
          (.Level2 .AnyTy)
          (.cons (.mk (.cons (.mk (Option.some "T") (.Level2 .AnyTy) .none) .nil)
            (.Level2 .AnyTy)
            (.Merge (.cons (.BoundVar "T")
              (.cons (.Level1 (.Tuple .nil)) .nil)))) .nil))
        (.cons (.mk Option.none (.Level1 (.Tuple .nil))) .nil))
    = .ok (Option.some (.Merge (.cons
        (.Merge (.cons (.Level1 (.Tuple .nil))
          (.cons (.Level1 (.Tuple .nil)) .nil))) .nil)))
    ∧ simplify_term Env.empty 12
        (.Merge (.cons
          (.Merge (.cons (.Level1 (.Tuple .nil))
            (.cons (.Level1 (.Tuple .nil)) .nil))) .nil))
      = .ok (Option.some (.Merge (.cons (.Level1 (.Tuple .nil)) .nil)))
    ∧ Term.beq
        (.Merge (.cons
          (.Merge (.cons (.Level1 (.Tuple .nil))
            (.cons (.Level1 (.Tuple .nil)) .nil))) .nil))
        (.Merge (.cons (.Level1 (.Tuple .nil)) .nil)) = false :=
  ⟨rfl, rfl, rfl⟩
